import Mathlib

/-! cppx::Buffer — a copy-on-write byte buffer

A shallow embedding of `src/src/cppxBuffer.cpp` (with `src/include/cppxBuffer.hpp`
and the relational operators of `src/Buffer.cpp`).

* Memory is a total map from addresses to bytes; address `0` is `nullptr`.
* `new std::uint8_t[n]` is a bump allocator: it returns a block strictly above
  every address handed out before, and whatever the memory holds there is the
  (indeterminate) initial content of the block.
* Cells (`BufferCore`) live in a table indexed by cell pointers; a handle
  (`Buffer`) stores an optional cell pointer (`none` is `nullptr`).
* Methods on `this` are functions that take and return the `BufferCore` value;
  the caller stores the result back into the table.
* A C++ `throw` is `Outcome.threw` (it keeps the heap reached so far); a
  dereference of a null or deleted cell pointer is `Outcome.undefined`.
-/

namespace cppx

/-- The type `std::uint8_t`. -/
abbrev Byte := Fin 256

/-- The bit-field pair `BufferFlags` of `cppxBuffer.hpp`. -/
structure BufferFlags where
  memory : Bool
  modify : Bool
deriving DecidableEq, Repr

/-- The allocate functions that the source defines: `defaultAllocateFunction`
(returns `nullptr`) and the lambda of `heapManager` (`new std::uint8_t[size]`). -/
inductive AllocateFunction where
  | defaultAllocateFunction
  | heapNew
deriving DecidableEq, Repr

/-- The release functions that the source defines: `defaultReleaseFunction`
(does nothing) and the lambda of `heapManager` (`delete[]`). -/
inductive DeallocateFunction where
  | defaultReleaseFunction
  | heapDelete
deriving DecidableEq, Repr

/-- The struct `BufferManager`. A manager pointer is modelled by the manager value. -/
structure BufferManager where
  name : String
  flags : BufferFlags
  alloc : AllocateFunction
  release : DeallocateFunction
deriving DecidableEq, Repr

/-- The class `BufferCore`: the shared cell. `m_address = 0` is `nullptr`. -/
structure BufferCore where
  m_refcount : Nat
  m_preall : Nat
  m_size : Nat
  m_address : Nat
  m_manager : BufferManager
deriving DecidableEq, Repr

/-- The constant `BufferCore::max_size = std::uint32_t(~0)`. -/
def BufferCore.max_size : Nat := 4294967295

/-- The constant `BufferCore::max_preall = std::uint16_t(~0)`. -/
def BufferCore.max_preall : Nat := 65535

/-- The machine state: byte memory, allocation frontier, cell table, next fresh cell pointer. -/
structure Heap where
  mem : Nat → Byte
  brk : Nat
  cores : Nat → Option BufferCore
  nextCore : Nat

/-- The messages of namespace `bufexc`, one constructor per constant. -/
inductive Error where
  | buf_no_alloc
  | buf_fail_alloc
  | buf_fail_release
  | buf_ref_empty
  | buf_ref_index_invalid
  | bufcore_fail_detach
  | buf_readonly
  | buf_data_not_owned
  | buf_insufficient
  | buf_no_manager
  | buf_cannot_copy
  | buf_size_overflow
  | buf_fail_ref_overflow
  | buf_fail_ref_underflow
  | iter_instantiation_fail_ref_overflow
  | iter_invalid
  | iter_invalid_sub
  | iter_end_increment
  | iter_begin_decrement
  | invalid_range
  | invalid_index
  | no_data
deriving DecidableEq, Repr

/-- The result of a call: a value, a thrown `Exception` (with the heap reached
when it was thrown), or undefined behaviour (a null or deleted cell was dereferenced). -/
inductive Outcome (α : Type) where
  | ok (value : α) (heap : Heap)
  | threw (what : Error) (heap : Heap)
  | undefined

/-- The class `Buffer`: a handle holding the cell pointer `m_core`. -/
structure Buffer where
  m_core : Option Nat
deriving DecidableEq, Repr

/-- The static member `Buffer::staticManager`. -/
def Buffer.staticManager : BufferManager :=
  ⟨"staticManager", ⟨false, false⟩, .defaultAllocateFunction, .defaultReleaseFunction⟩

/-- The static member `Buffer::stackManager`. -/
def Buffer.stackManager : BufferManager :=
  ⟨"stackManager", ⟨false, true⟩, .defaultAllocateFunction, .defaultReleaseFunction⟩

/-- The static member `Buffer::heapManager`. -/
def Buffer.heapManager : BufferManager :=
  ⟨"heapManager", ⟨true, true⟩, .heapNew, .heapDelete⟩

/-- The macros `BUFFER_COPY` (`memcpy`) and `BUFFER_MOVE` (`memmove`): all source
bytes are read before any byte is written; on regions that do not overlap the
two agree. -/
def BUFFER_MOVE (mem : Nat → Byte) (dest src size : Nat) : Nat → Byte :=
  fun a => if dest ≤ a ∧ a < dest + size then mem (src + (a - dest)) else mem a

/-- The macro `BUFFER_COPY(dest, src, size)`. -/
def BUFFER_COPY (mem : Nat → Byte) (dest src size : Nat) : Nat → Byte :=
  BUFFER_MOVE mem dest src size

/-- Store one byte: `address[i] = v`. -/
def Heap.write (h : Heap) (a : Nat) (v : Byte) : Heap :=
  { h with mem := fun x => if x = a then v else h.mem x }

/-- Replace the memory of a heap. -/
def Heap.withMem (h : Heap) (m : Nat → Byte) : Heap :=
  { h with mem := m }

/-- Store a cell value at a cell pointer (or delete the cell with `none`). -/
def Heap.setCore (h : Heap) (p : Nat) (c : Option BufferCore) : Heap :=
  { h with cores := fun q => if q = p then c else h.cores q }

/-- Call of a manager's `alloc(bytes)`: the address returned and the new heap. -/
def AllocateFunction.call (f : AllocateFunction) (h : Heap) (bytes : Nat) : Nat × Heap :=
  match f with
  | .defaultAllocateFunction => (0, h)
  | .heapNew => (h.brk + 1, { h with brk := h.brk + 1 + bytes })

/-- Call of a manager's `release(ptr, bytes)`; the bump allocator never reuses
a block, so `delete[]` leaves the heap as it is. A read of storage after its
release is undefined behaviour; where a method reads after it released
(`Buffer::selfClone`), the block is tracked with `BufferCore.released`. -/
def DeallocateFunction.call (_f : DeallocateFunction) (h : Heap) (_ptr _bytes : Nat) : Heap := h

/-- The method `BufferCore::tryAllocateRaw`. -/
def BufferCore.tryAllocateRaw (h : Heap) (c : BufferCore) (bytes : Nat) : Nat × Heap :=
  if c.m_manager.flags.memory = false ∨ bytes > BufferCore.max_size then (0, h)
  else c.m_manager.alloc.call h bytes

/-- The method `BufferCore::tryDeallocateRaw`. -/
def BufferCore.tryDeallocateRaw (h : Heap) (c : BufferCore) : Bool × BufferCore × Heap :=
  if c.m_manager.flags.memory = false then (false, c, h)
  else (true, { c with m_address := 0 },
        c.m_manager.release.call h c.m_address (c.m_size + c.m_preall))

/-- The macro `BUFFER_SAFE_INCREASE` on a 16-bit counter (the variant without
compiler builtins): the new value, or `none` when `onoverflow` runs. -/
def BUFFER_SAFE_INCREASE (x : Nat) : Option Nat :=
  let y := (x + 1) % 65536
  if y ≤ x then none else some y

/-- The macro `BUFFER_SAFE_DECREASE` on a 16-bit counter (the variant without
compiler builtins): the new value, or `none` when `onoverflow` runs. -/
def BUFFER_SAFE_DECREASE (x : Nat) : Option Nat :=
  let y := (x + 65535) % 65536
  if y ≥ x then none else some y

/-- The method `BufferCore::tryShare`. -/
def BufferCore.tryShare (c : BufferCore) : Bool × BufferCore :=
  match BUFFER_SAFE_INCREASE c.m_refcount with
  | none => (false, c)
  | some y => (true, { c with m_refcount := y })

/-- The method `BufferCore::tryAllocate`. -/
def BufferCore.tryAllocate (h : Heap) (c : BufferCore) (bytes : Nat) : Bool × BufferCore × Heap :=
  let r := c.tryAllocateRaw h bytes
  (decide (r.1 ≠ 0),
   { c with m_address := r.1, m_preall := 0, m_size := bytes % 4294967296 },
   r.2)

/-- The static method `BufferCore::create`: `new BufferCore(...)` with share-count 1. -/
def BufferCore.create (h : Heap) (manager : BufferManager) (preall size address : Nat) :
    Nat × Heap :=
  (h.nextCore,
   { h with
     cores := fun q => if q = h.nextCore then some ⟨1, preall, size, address, manager⟩
                       else h.cores q
     nextCore := h.nextCore + 1 })

/-- The static method `BufferCore::release`; the pointer is set to `nullptr` by the caller. -/
def BufferCore.release (h : Heap) (core : Option Nat) : Option Heap :=
  match core with
  | none => none
  | some p =>
    match h.cores p with
    | none => none
    | some c =>
      if c.m_address ≠ 0 ∧ c.m_refcount ≤ 1 then
        let h1 := if c.m_manager.flags.memory
                  then c.m_manager.release.call h c.m_address (c.m_size + c.m_preall)
                  else h
        some (h1.setCore p none)
      else
        match BUFFER_SAFE_DECREASE c.m_refcount with
        | none => some h
        | some y => some (h.setCore p (some { c with m_refcount := y }))

/-- The static method `BufferCore::detach`; returns the new value of the pointer. -/
def BufferCore.detach (h : Heap) (core : Option Nat) : Outcome (Option Nat) :=
  match core with
  | none => .undefined
  | some p =>
    match h.cores p with
    | none => .undefined
    | some c =>
      if c.m_refcount > 1 then
        let n := BufferCore.create h c.m_manager c.m_preall c.m_size c.m_address
        let nc : BufferCore := ⟨1, c.m_preall, c.m_size, c.m_address, c.m_manager⟩
        if c.m_manager.flags.modify then
          let r := nc.tryAllocate n.2 ((c.m_size + c.m_preall) % 4294967296)
          if r.1 = false then
            .threw .bufcore_fail_detach ((r.2.2.setCore n.1 none))
          else
            match BufferCore.release (r.2.2.setCore n.1 (some r.2.1)) (some p) with
            | none => .undefined
            | some h2 => .ok (some n.1) h2
        else
          match BufferCore.release n.2 (some p) with
          | none => .undefined
          | some h2 => .ok (some n.1) h2
      else .ok (some p) h

/-- The static method `BufferCore::shareOrDetach`; returns the new value of the pointer. -/
def BufferCore.shareOrDetach (h : Heap) (core : Option Nat) : Outcome (Option Nat) :=
  match core with
  | none => .ok none h
  | some p =>
    match h.cores p with
    | none => .undefined
    | some c =>
      let r := c.tryShare
      if r.1 = false then BufferCore.detach (h.setCore p (some r.2)) (some p)
      else .ok (some p) (h.setCore p (some r.2))

/-- The static method `BufferCore::change`; returns the new value of the pointer. -/
def BufferCore.change (h : Heap) (core newcore : Option Nat) : Outcome (Option Nat) :=
  match BufferCore.release h core with
  | none => .undefined
  | some h1 => BufferCore.shareOrDetach h1 newcore

/-- The cell a handle points to; `none` for a null or deleted cell pointer. -/
def Heap.cell (h : Heap) (b : Buffer) : Option BufferCore :=
  match b.m_core with
  | none => none
  | some p => h.cores p

/-- The default constructor `Buffer::Buffer()`. -/
def Buffer.empty : Buffer := ⟨none⟩

/-- The constructor `Buffer::Buffer(const BufferManager *manager, std::size_t size)`. -/
def Buffer.sized (h : Heap) (manager : BufferManager) (size : Nat) : Outcome Buffer :=
  if manager.flags.memory = false then .threw .buf_no_alloc h
  else
    let n := BufferCore.create h manager 0 0 0
    if size ≠ 0 then
      let r := BufferCore.tryAllocate n.2 ⟨1, 0, 0, 0, manager⟩ size
      if r.1 = false then .threw .buf_fail_alloc (r.2.2.setCore n.1 (some r.2.1))
      else .ok ⟨some n.1⟩ (r.2.2.setCore n.1 (some r.2.1))
    else .ok ⟨some n.1⟩ n.2

/-- The constructor `Buffer::Buffer(const BufferManager *manager, void *pointer, std::size_t size)`. -/
def Buffer.fromExternal (h : Heap) (manager : BufferManager) (pointer size : Nat) :
    Outcome Buffer :=
  if manager.flags.memory then .threw .buf_data_not_owned h
  else if size > BufferCore.max_size then .threw .buf_size_overflow h
  else
    let n := BufferCore.create h manager 0 (size % 4294967296) pointer
    .ok ⟨some n.1⟩ n.2

/-- The conversion `Buffer::operator bool()`. -/
def Buffer.toBool (h : Heap) (b : Buffer) : Bool :=
  match h.cell b with
  | none => false
  | some c => decide (c.m_address ≠ 0)

/-- The operator `Buffer::operator!()`. -/
def Buffer.not (h : Heap) (b : Buffer) : Bool :=
  match h.cell b with
  | none => true
  | some c => decide (c.m_address = 0)

/-- The accessor `Buffer::data()`. -/
def Buffer.data (h : Heap) (b : Buffer) : Nat :=
  match h.cell b with
  | none => 0
  | some c => c.m_address

/-- The accessor `Buffer::size()`. -/
def Buffer.size (h : Heap) (b : Buffer) : Nat :=
  match h.cell b with
  | none => 0
  | some c => c.m_size

/-- The accessor `Buffer::preallocated()`. -/
def Buffer.preallocated (h : Heap) (b : Buffer) : Nat :=
  match h.cell b with
  | none => 0
  | some c => c.m_preall

/-- The accessor `Buffer::totalsize()`; the sum is formed in 32-bit unsigned arithmetic. -/
def Buffer.totalsize (h : Heap) (b : Buffer) : Nat :=
  match h.cell b with
  | none => 0
  | some c => (c.m_size + c.m_preall) % 4294967296

/-- The accessor `Buffer::manager()`. -/
def Buffer.manager (h : Heap) (b : Buffer) : Option BufferManager :=
  match h.cell b with
  | none => none
  | some c => some c.m_manager

/-- The method `Buffer::at(std::size_t i) const`. -/
def Buffer.at (h : Heap) (b : Buffer) (i : Nat) : Outcome Byte :=
  match b.m_core with
  | none => .threw .buf_ref_empty h
  | some p =>
    match h.cores p with
    | none => .undefined
    | some c =>
      if c.m_size ≤ i then .threw .buf_ref_index_invalid h
      else .ok (h.mem (c.m_address + i)) h

/-- The loop of `Buffer::compare`, started at index `i` with `n` iterations left. -/
def Buffer.compareLoop (h : Heap) (a b : Buffer) : Nat → Nat → Outcome Int
  | _, 0 => .ok 0 h
  | i, n + 1 =>
    match a.at h i with
    | .ok thisival _ =>
      match b.at h i with
      | .ok otherival _ =>
        if thisival < otherival then .ok (-1) h
        else if thisival > otherival then .ok 1 h
        else Buffer.compareLoop h a b (i + 1) n
      | .threw e h1 => .threw e h1
      | .undefined => .undefined
    | .threw e h1 => .threw e h1
    | .undefined => .undefined

/-- The method `Buffer::compare`. -/
def Buffer.compare (h : Heap) (a other : Buffer) : Outcome Int :=
  if a.size h < other.size h then .ok (-1) h
  else if a.size h > other.size h then .ok 1 h
  else Buffer.compareLoop h a other 0 (a.size h)

/-- Apply a test on the sign to the result of `compare`. -/
def Outcome.test (r : Outcome Int) (p : Int → Bool) : Outcome Bool :=
  match r with
  | .ok v h => .ok (p v) h
  | .threw e h => .threw e h
  | .undefined => .undefined

/-- The operator `Buffer::operator==` (`src/Buffer.cpp`). -/
def Buffer.eq (h : Heap) (a other : Buffer) : Outcome Bool :=
  (a.compare h other).test (fun v => decide (v = 0))

/-- The operator `Buffer::operator!=` (`src/Buffer.cpp`). -/
def Buffer.ne (h : Heap) (a other : Buffer) : Outcome Bool :=
  (a.compare h other).test (fun v => decide (v ≠ 0))

/-- The operator `Buffer::operator>` (`src/Buffer.cpp`). -/
def Buffer.gt (h : Heap) (a other : Buffer) : Outcome Bool :=
  (a.compare h other).test (fun v => decide (v > 0))

/-- The operator `Buffer::operator<` (`src/Buffer.cpp`). -/
def Buffer.lt (h : Heap) (a other : Buffer) : Outcome Bool :=
  (a.compare h other).test (fun v => decide (v < 0))

/-- The operator `Buffer::operator>=` (`src/Buffer.cpp`). -/
def Buffer.ge (h : Heap) (a other : Buffer) : Outcome Bool :=
  (a.compare h other).test (fun v => decide (v ≥ 0))

/-- The operator `Buffer::operator<=` (`src/Buffer.cpp`). -/
def Buffer.le (h : Heap) (a other : Buffer) : Outcome Bool :=
  (a.compare h other).test (fun v => decide (v ≤ 0))

/-- The choice `imanager ? imanager : manager()`. -/
def Buffer.resolve (h : Heap) (b : Buffer) (imanager : Option BufferManager) :
    Option BufferManager :=
  match imanager with
  | some m => some m
  | none => b.manager h

/-- The loop `for (i, j; i < end; ++i, --j) dst[i] = src[j]` of `Buffer::reverse`
and of the shared branch of `Buffer::selfReverse`, with `n` iterations left.
The final `--j` may wrap in C++; the wrapped value is never used. -/
def reverseCopyLoop (dst src : Nat) : Nat → Nat → Nat → (Nat → Byte) → (Nat → Byte)
  | 0, _, _, mem => mem
  | n + 1, i, j, mem =>
    reverseCopyLoop dst src n (i + 1) (j - 1)
      (fun a => if a = dst + i then mem (src + j) else mem a)

/-- The loop of the exclusive branch of `Buffer::selfReverse`: swap `address[i]`
and `address[j]`, with `n` iterations left. -/
def reverseSwapLoop (address : Nat) : Nat → Nat → Nat → (Nat → Byte) → (Nat → Byte)
  | 0, _, _, mem => mem
  | n + 1, i, j, mem =>
    let left := mem (address + i)
    let m1 : Nat → Byte := fun a => if a = address + i then mem (address + j) else mem a
    let m2 : Nat → Byte := fun a => if a = address + j then left else m1 a
    reverseSwapLoop address n (i + 1) (j - 1) m2

/-- The method `Buffer::reverse(std::size_t start, std::size_t end, const BufferManager *)`. -/
def Buffer.reverse (h : Heap) (self : Buffer) (start end_ : Nat)
    (imanager : Option BufferManager) : Outcome Buffer :=
  if end_ < start ∨ end_ > self.size h then .threw .invalid_range h
  else
    match self.resolve h imanager with
    | none => .threw .buf_no_manager h
    | some newManager =>
      match h.cell self with
      | none => .undefined
      | some c0 =>
        match Buffer.sized h newManager c0.m_size with
        | .threw e h1 => .threw e h1
        | .undefined => .undefined
        | .ok result h1 =>
          match h1.cell result, h1.cell self with
          | some rc, some c =>
            let m1 := BUFFER_COPY h1.mem rc.m_address c.m_address start
            let m2 := BUFFER_COPY m1 (rc.m_address + end_) (c.m_address + end_) (c.m_size - end_)
            let m3 := reverseCopyLoop rc.m_address c.m_address (end_ - start) start (end_ - 1) m2
            .ok result (h1.withMem m3)
          | _, _ => .undefined

/-- The method `Buffer::reverse(const BufferManager *)`. -/
def Buffer.reverseAll (h : Heap) (self : Buffer) (imanager : Option BufferManager) :
    Outcome Buffer :=
  self.reverse h 0 (self.size h) imanager

/-- The method `Buffer::selfReverse(std::size_t start, std::size_t end)`: the
handle after the call and the outcome. -/
def Buffer.selfReverse (h : Heap) (self : Buffer) (start end_ : Nat) : Buffer × Outcome Unit :=
  if end_ < start ∨ end_ > self.size h then (self, .threw .invalid_range h)
  else
    match h.cell self with
    | none => (self, .undefined)
    | some c =>
      if c.m_manager.flags.modify = false then (self, .threw .buf_readonly h)
      else if c.m_refcount > 1 then
        if c.m_manager.flags.memory = false then (self, .threw .buf_insufficient h)
        else
          let n := BufferCore.create h c.m_manager 0 0 0
          let r := BufferCore.tryAllocate n.2 ⟨1, 0, 0, 0, c.m_manager⟩ c.m_size
          let h1 := r.2.2.setCore n.1 (some r.2.1)
          if r.1 = false then (self, .threw .buf_fail_alloc h1)
          else
            match h1.cell self with
            | none => (self, .undefined)
            | some c1 =>
              let m := reverseCopyLoop r.2.1.m_address c1.m_address c1.m_size 0 (c1.m_size - 1) h1.mem
              match BufferCore.change (h1.withMem m) self.m_core (some n.1) with
              | .ok p h2 => (⟨p⟩, .ok () h2)
              | .threw e h2 => (⟨some n.1⟩, .threw e h2)
              | .undefined => (self, .undefined)
      else
        let halfway := start + (end_ - start) / 2
        (self, .ok () (h.withMem
          (reverseSwapLoop c.m_address (halfway - start) start (end_ - 1) h.mem)))

/-- The method `Buffer::selfReverse()`. -/
def Buffer.selfReverseAll (h : Heap) (self : Buffer) : Buffer × Outcome Unit :=
  self.selfReverse h 0 (self.size h)

/-- The copy constructor `Buffer::Buffer(const Buffer &other)`. -/
def Buffer.copy (h : Heap) (other : Buffer) : Outcome Buffer :=
  match BufferCore.shareOrDetach h other.m_core with
  | .ok q h1 => .ok ⟨q⟩ h1
  | .threw e h1 => .threw e h1
  | .undefined => .undefined

/-- The destructor `Buffer::~Buffer()`; `none` when a deleted cell is dereferenced. -/
def Buffer.destroy (h : Heap) (self : Buffer) : Option Heap :=
  match self.m_core with
  | none => some h
  | some p => BufferCore.release h (some p)

/-- The storage block `(address, bytes)` that `BufferCore::release(core)` hands to
`delete[]`, if it does: the cell is deleted (non-null address, share-count at most 1),
its manager owns the storage (`flags.memory`) and its release function is the
`delete[]` of `heapManager`. -/
def BufferCore.released (h : Heap) (core : Option Nat) : Option (Nat × Nat) :=
  match core with
  | none => none
  | some p =>
    match h.cores p with
    | none => none
    | some c =>
      if c.m_address ≠ 0 ∧ c.m_refcount ≤ 1 ∧ c.m_manager.flags.memory = true ∧
          c.m_manager.release = .heapDelete then
        some (c.m_address, c.m_size + c.m_preall)
      else none

/-- Whether a read of `size` bytes at `src` touches a storage block that was handed to
`delete[]`; such a read is undefined behaviour in C++. -/
def readsReleased (released : Option (Nat × Nat)) (src size : Nat) : Bool :=
  match released with
  | none => false
  | some (address, bytes) => decide (0 < size ∧ src < address + bytes ∧ address < src + size)

/-- The effect on the heap of `Exception::makeCallString(__FUNCTION__, ..., value, ...)`
(`src/include/Exception.hpp`) for an argument `value` of type `Buffer`: the template
takes its arguments by value, so the parameter is copy-constructed from `value`, and
the lambda of the fold expression captures the parameter by value, which is a second
copy; the capture is destroyed first, then the parameter. A `Buffer` has no
`toString` and no stream operator, so only its address is printed and its bytes are
not read. When the second copy throws, the parameter is destroyed while the
exception propagates. -/
def Exception.makeCallString (h : Heap) (value : Buffer) : Outcome Unit :=
  match Buffer.copy h value with
  | .undefined => .undefined
  | .threw e h1 => .threw e h1
  | .ok values h1 =>
    match Buffer.copy h1 values with
    | .undefined => .undefined
    | .threw e h2 =>
      match Buffer.destroy h2 values with
      | none => .undefined
      | some h3 => .threw e h3
    | .ok captured h2 =>
      match Buffer.destroy h2 captured with
      | none => .undefined
      | some h3 =>
        match Buffer.destroy h3 values with
        | none => .undefined
        | some h4 => .ok () h4

/-- The statement `throw Exception(Exception::makeCallString(__FUNCTION__, ..., value, ...),
description)`: the call string is made first; when that throws, its exception
propagates instead. -/
def Exception.throwCallString {α : Type} (h : Heap) (value : Buffer) (description : Error) :
    Outcome α :=
  match Exception.makeCallString h value with
  | .ok _ h1 => .threw description h1
  | .threw e h1 => .threw e h1
  | .undefined => .undefined

/-- The method `Buffer::insert(std::size_t index, const Buffer &value, const BufferManager *)`.
Sums of sizes are formed in `std::size_t` (64 bits) and do not wrap. -/
def Buffer.insert (h : Heap) (self : Buffer) (index : Nat) (value : Buffer)
    (imanager : Option BufferManager) : Outcome Buffer :=
  if index > self.size h then Exception.throwCallString h value .iter_invalid
  else
    match self.resolve h imanager with
    | none => Exception.throwCallString h value .buf_no_manager
    | some newManager =>
      match Buffer.sized h newManager (self.size h + value.size h) with
      | .threw e h1 => .threw e h1
      | .undefined => .undefined
      | .ok newBuffer h1 =>
        match h1.cell newBuffer with
        | none => .undefined
        | some nc =>
          let m1 : Option (Nat → Byte) :=
            match self.m_core with
            | none => some h1.mem
            | some p =>
              match h1.cores p with
              | none => none
              | some c =>
                let a := BUFFER_COPY h1.mem nc.m_address c.m_address index
                some (BUFFER_COPY a (nc.m_address + index + value.size h1)
                        (c.m_address + index) (self.size h1 - index))
          match m1 with
          | none => .undefined
          | some m1 =>
            match value.m_core with
            | none => .ok newBuffer (h1.withMem m1)
            | some q =>
              match h1.cores q with
              | none => .undefined
              | some v =>
                .ok newBuffer (h1.withMem
                  (BUFFER_COPY m1 (nc.m_address + index) v.m_address (value.size h1)))

/-- The method `Buffer::append`. -/
def Buffer.append (h : Heap) (self : Buffer) (right : Buffer)
    (imanager : Option BufferManager) : Outcome Buffer :=
  self.insert h (self.size h) right imanager

/-- The method `Buffer::selfClone`, called with a buffer `other` that is another
object than `*this`: the handle after the call and the outcome. The old cell is
released before the bytes of `other` are read; when that release handed the storage
to `delete[]` and the bytes of `other` lie in it, the read is undefined behaviour. -/
def Buffer.selfClone (h : Heap) (self : Buffer) (other : Buffer)
    (imanager : Option BufferManager) : Buffer × Outcome Unit :=
  if other.not h then (self, .ok () h)
  else
    match self.resolve h imanager with
    | none => (self, Exception.throwCallString h other .buf_no_manager)
    | some resultManager =>
      if (resultManager.flags.memory && resultManager.flags.modify) = false then
        (self, Exception.throwCallString h other .buf_no_alloc)
      else
        let released : Option (Nat × Nat) := BufferCore.released h self.m_core
        let h0 : Option Heap :=
          match self.m_core with
          | none => some h
          | some p => BufferCore.release h (some p)
        match h0 with
        | none => (self, .undefined)
        | some h0 =>
          let n := BufferCore.create h0 resultManager 0 0 0
          match h0.cell other with
          | none => (⟨some n.1⟩, .undefined)
          | some o =>
            let r := BufferCore.tryAllocate n.2 ⟨1, 0, 0, 0, resultManager⟩ o.m_size
            let h1 := r.2.2.setCore n.1 (some r.2.1)
            if r.1 = false then
              (⟨some n.1⟩, Exception.throwCallString h1 other .buf_fail_alloc)
            else
              match h1.cell other with
              | none => (⟨some n.1⟩, .undefined)
              | some o1 =>
                if readsReleased released o1.m_address r.2.1.m_size then
                  (⟨some n.1⟩, .undefined)
                else
                  (⟨some n.1⟩, .ok () (h1.withMem
                    (BUFFER_COPY h1.mem r.2.1.m_address o1.m_address r.2.1.m_size)))

/-- The call `T.selfClone(T, imanager)` of `Buffer::selfClone` with the buffer itself
as `other`: `other.m_core` is then the same variable as `m_core`, so after
`release` and `create` the expressions `other.m_core->m_size` and
`other.m_core->m_address` read the new cell. -/
def Buffer.selfCloneSelf (h : Heap) (self : Buffer) (imanager : Option BufferManager) :
    Buffer × Outcome Unit :=
  if self.not h then (self, .ok () h)
  else
    match self.resolve h imanager with
    | none => (self, Exception.throwCallString h self .buf_no_manager)
    | some resultManager =>
      if (resultManager.flags.memory && resultManager.flags.modify) = false then
        (self, Exception.throwCallString h self .buf_no_alloc)
      else
        let h0 : Option Heap :=
          match self.m_core with
          | none => some h
          | some p => BufferCore.release h (some p)
        match h0 with
        | none => (self, .undefined)
        | some h0 =>
          let n := BufferCore.create h0 resultManager 0 0 0
          match n.2.cores n.1 with
          | none => (⟨some n.1⟩, .undefined)
          | some o =>
            let r := BufferCore.tryAllocate n.2 o o.m_size
            let h1 := r.2.2.setCore n.1 (some r.2.1)
            if r.1 = false then
              (⟨some n.1⟩, Exception.throwCallString h1 ⟨some n.1⟩ .buf_fail_alloc)
            else
              (⟨some n.1⟩, .ok () (h1.withMem
                (BUFFER_COPY h1.mem r.2.1.m_address r.2.1.m_address r.2.1.m_size)))

/-- The method `Buffer::selfInsert(std::size_t index, const Buffer &value)`: the
handle after the call and the outcome. -/
def Buffer.selfInsert (h : Heap) (self : Buffer) (index : Nat) (value : Buffer) :
    Buffer × Outcome Unit :=
  match self.m_core with
  | none => self.selfClone h value none
  | some p =>
    if index > self.size h then (self, Exception.throwCallString h value .invalid_range)
    else
      match h.cores p with
      | none => (self, .undefined)
      | some c =>
        if c.m_manager.flags.modify = false then (self, Exception.throwCallString h value .buf_readonly)
        else if self.size h + value.size h > BufferCore.max_size then
          (self, Exception.throwCallString h value .buf_size_overflow)
        else if value.not h then (self, .ok () h)
        else
          match h.cell value with
          | none => (self, .undefined)
          | some v =>
            if v.m_size > c.m_preall ∨ c.m_refcount > 1 then
              let newSize := (c.m_size + v.m_size) % 4294967296
              if c.m_manager.flags.memory = false then (self, Exception.throwCallString h value .buf_insufficient)
              else
                let n := BufferCore.create h c.m_manager 0 0 0
                let r := BufferCore.tryAllocate n.2 ⟨1, 0, 0, 0, c.m_manager⟩ newSize
                let h1 := r.2.2.setCore n.1 (some r.2.1)
                if r.1 = false then (self, Exception.throwCallString h1 value .buf_fail_alloc)
                else
                  match h1.cores p, h1.cell value with
                  | some c1, some v1 =>
                    let m1 := BUFFER_COPY h1.mem r.2.1.m_address c1.m_address index
                    let m2 := BUFFER_COPY m1 (r.2.1.m_address + index) v1.m_address v1.m_size
                    let m3 := BUFFER_COPY m2 (r.2.1.m_address + index + v1.m_size)
                                (c1.m_address + index) (c1.m_size - index)
                    match BufferCore.change (h1.withMem m3) (some p) (some n.1) with
                    | .ok q h2 => (⟨q⟩, .ok () h2)
                    | .threw e h2 => (⟨some n.1⟩, .threw e h2)
                    | .undefined => (self, .undefined)
                  | _, _ => (self, .undefined)
            else
              let m1 := BUFFER_MOVE h.mem (c.m_address + index + v.m_size)
                          (c.m_address + index) (c.m_size - index)
              let m2 := BUFFER_COPY m1 (c.m_address + index) v.m_address v.m_size
              let h1 := (h.withMem m2).setCore p
                          (some { c with m_size := (c.m_size + v.m_size) % 4294967296 })
              match h1.cores p, h1.cell value with
              | some c1, some v1 =>
                (self, .ok () (h1.setCore p (some { c1 with
                  m_preall := (c1.m_preall + 65536 - v1.m_size % 65536) % 65536 })))
              | _, _ => (self, .undefined)

/-- The method `Buffer::selfAppend`. -/
def Buffer.selfAppend (h : Heap) (self : Buffer) (right : Buffer) : Buffer × Outcome Unit :=
  self.selfInsert h (self.size h) right

/-- The method `Buffer::erase(std::size_t start, std::size_t end, const BufferManager *)`. -/
def Buffer.erase (h : Heap) (self : Buffer) (start end_ : Nat)
    (imanager : Option BufferManager) : Outcome Buffer :=
  if end_ < start ∨ end_ > self.size h then .threw .invalid_range h
  else
    let newManager : Option (Option BufferManager) :=
      match imanager with
      | some m => some (some m)
      | none =>
        match h.cell self with
        | none => none
        | some c => some (some c.m_manager)
    match newManager with
    | none => .undefined
    | some none => .threw .buf_no_manager h
    | some (some newManager) =>
      match self.m_core with
      | none => Buffer.sized h newManager 0
      | some p =>
        if newManager.flags.modify = false then .threw .buf_cannot_copy h
        else
          match Buffer.sized h newManager (self.size h - end_ + start) with
          | .threw e h1 => .threw e h1
          | .undefined => .undefined
          | .ok result h1 =>
            match h1.cell result, h1.cores p with
            | some rc, some c =>
              let m1 := BUFFER_COPY h1.mem rc.m_address c.m_address start
              let m2 := BUFFER_COPY m1 rc.m_address (c.m_address + end_) (self.size h1 - end_)
              .ok result (h1.withMem m2)
            | _, _ => .undefined

/-- The method `Buffer::selfErase(std::size_t start, std::size_t end)`: the handle
after the call and the outcome. `max_preall - (end - start)` is formed in
`std::size_t` (64 bits, wrapping). -/
def Buffer.selfErase (h : Heap) (self : Buffer) (start end_ : Nat) : Buffer × Outcome Unit :=
  if end_ < start ∨ end_ > self.size h then (self, .threw .invalid_range h)
  else
    match self.m_core with
    | none => (self, .ok () h)
    | some p =>
      match h.cores p with
      | none => (self, .undefined)
      | some c =>
        if c.m_manager.flags.modify = false then (self, .threw .buf_readonly h)
        else
          let newSize := self.size h - end_ + start
          if c.m_refcount > 1 ∨
              c.m_preall > (BufferCore.max_preall + 18446744073709551616 - (end_ - start))
                            % 18446744073709551616 then
            if c.m_manager.flags.memory = false then (self, .threw .buf_no_alloc h)
            else
              let n := BufferCore.create h c.m_manager 0 0 0
              let r := BufferCore.tryAllocate n.2 ⟨1, 0, 0, 0, c.m_manager⟩ newSize
              let h1 := r.2.2.setCore n.1 (some r.2.1)
              if r.1 = false then (self, .threw .buf_fail_alloc h1)
              else
                match h1.cores p with
                | none => (self, .undefined)
                | some c1 =>
                  let m1 := BUFFER_COPY h1.mem r.2.1.m_address c1.m_address start
                  let m2 := BUFFER_COPY m1 r.2.1.m_address (c1.m_address + end_)
                              (self.size h1 - end_)
                  match BufferCore.change (h1.withMem m2) (some p) (some n.1) with
                  | .ok q h2 => (⟨q⟩, .ok () h2)
                  | .threw e h2 => (⟨some n.1⟩, .threw e h2)
                  | .undefined => (self, .undefined)
          else
            let m := BUFFER_MOVE h.mem (c.m_address + start) (c.m_address + end_)
                       (self.size h - end_)
            (self, .ok () ((h.withMem m).setCore p (some { c with
              m_preall := (c.m_preall + (end_ - start) % 65536) % 65536
              m_size := (c.m_size + 4294967296 - (end_ - start) % 4294967296) % 4294967296 })))

/-- The `n` bytes stored from `address` on. -/
def readBytes (mem : Nat → Byte) (address n : Nat) : List Byte :=
  (List.range n).map (fun i => mem (address + i))

/-- The bytes `[0, size)` of a buffer, read from memory. -/
def Buffer.bytes (h : Heap) (b : Buffer) : List Byte :=
  readBytes h.mem (b.data h) (b.size h)

/-- The byte `data()[i]` of a buffer, read from memory without a bounds check. -/
def Buffer.byte (h : Heap) (b : Buffer) (i : Nat) : Byte :=
  h.mem (b.data h + i)

/-- A handle is live when its cell pointer is null or points to an existing cell. -/
def Heap.live (h : Heap) (b : Buffer) : Prop :=
  match b.m_core with
  | none => True
  | some p => h.cores p ≠ none

instance (h : Heap) (b : Buffer) : Decidable (h.live b) := by
  unfold Heap.live; split <;> infer_instance

/-- A cell is well formed in a heap when its pointer was handed out by `new`
(it lies below `nextCore`), its storage block `[address, address + size + headroom)`
lies inside the part of memory in use (at or below `brk`), and its counters
fit their 32-bit and 16-bit fields. -/
def Heap.wfCore (h : Heap) (p : Nat) (c : BufferCore) : Prop :=
  p < h.nextCore ∧ c.m_address + c.m_size + c.m_preall ≤ h.brk ∧
    c.m_size ≤ BufferCore.max_size ∧ c.m_preall ≤ BufferCore.max_preall

instance (h : Heap) (p : Nat) (c : BufferCore) : Decidable (h.wfCore p c) := by
  unfold Heap.wfCore; infer_instance

/-- A handle is valid when its cell pointer is null, or points to an existing,
well-formed cell. -/
def Heap.valid (h : Heap) (b : Buffer) : Prop :=
  match b.m_core with
  | none => True
  | some p =>
    match h.cores p with
    | none => False
    | some c => h.wfCore p c

instance (h : Heap) (b : Buffer) : Decidable (h.valid b) := by
  unfold Heap.valid; split
  · infer_instance
  · split <;> infer_instance

/-- The order that the specification gives for two byte sequences of one
length `n`, read from index `i` on: the first index where the bytes differ
decides (`-1` when the left byte is the smaller one, `1` when it is the larger
one), and `0` when there is none. -/
def firstDifference (f g : Nat → Byte) : Nat → Nat → Int
  | _, 0 => 0
  | i, n + 1 =>
    if f i < g i then -1
    else if f i > g i then 1
    else firstDifference f g (i + 1) n

/-- The value of an outcome, when the call returned. -/
def Outcome.value? {α : Type} (o : Outcome α) : Option α :=
  match o with
  | .ok v _ => some v
  | _ => none

/-- The error of an outcome, when the call threw. -/
def Outcome.error? {α : Type} (o : Outcome α) : Option Error :=
  match o with
  | .threw e _ => some e
  | _ => none

/-- The bytes of the buffer that a call returned. -/
def Outcome.bytes? (o : Outcome Buffer) : Option (List Byte) :=
  match o with
  | .ok b h => some (b.bytes h)
  | _ => none

/-- The bytes of the handle after a self operation that returned. -/
def selfBytes? (r : Buffer × Outcome Unit) : Option (List Byte) :=
  match r.2 with
  | .ok _ h => some (r.1.bytes h)
  | _ => none

/-- Bytes stored from address `base` on: `l[0]` at `base`, `l[1]` at `base + 1`, ...;
every other address holds `0`. -/
def memOfList (base : Nat) (l : List Byte) : Nat → Byte :=
  fun a => if base ≤ a then l.getD (a - base) 0 else 0

/-- The heap after a successful `Buffer(manager, size)` with the allocate
function of `heapManager`: a new cell at `nextCore` with share-count 1, and,
when `size` is not 0, a new block of `size` bytes just above `brk`. -/
def Heap.afterSized (h : Heap) (manager : BufferManager) (size : Nat) : Heap :=
  { mem := h.mem
    brk := if size = 0 then h.brk else h.brk + 1 + size
    cores := fun q =>
      if q = h.nextCore then
        some ⟨1, 0, size, if size = 0 then 0 else h.brk + 1, manager⟩
      else h.cores q
    nextCore := h.nextCore + 1 }

/-- The buffer of the test section "reverse": `Buffer::Static("\x01\x23\x45\x67\x89\xAB", 6)`
at cell 0. -/
def Example.reverseData : Heap :=
  { mem := memOfList 1 [0x01, 0x23, 0x45, 0x67, 0x89, 0xAB]
    brk := 7
    cores := fun q => if q = 0 then some ⟨1, 0, 6, 1, Buffer.staticManager⟩ else none
    nextCore := 1 }

/-- The buffers of the test section "insert": the heap buffer
`F0 E1 D2 C3 B4 A5 96 87` at cell 0 and the borrowed buffer `01 02 03 04` at cell 1. -/
def Example.insertData : Heap :=
  { mem := memOfList 1 [0xF0, 0xE1, 0xD2, 0xC3, 0xB4, 0xA5, 0x96, 0x87, 0x01, 0x02, 0x03, 0x04]
    brk := 13
    cores := fun q =>
      if q = 0 then some ⟨1, 0, 8, 1, Buffer.heapManager⟩
      else if q = 1 then some ⟨1, 0, 4, 9, Buffer.stackManager⟩
      else none
    nextCore := 2 }

/-- A static buffer of `2^32 - 1` zero bytes at cell 0 (`Buffer::Static(p, 0xFFFFFFFF)`)
and a static buffer of one byte at cell 1. -/
def Example.hugeData : Heap :=
  { mem := fun _ => 0
    brk := 4294967297
    cores := fun q =>
      if q = 0 then some ⟨1, 0, 4294967295, 1, Buffer.staticManager⟩
      else if q = 1 then some ⟨1, 0, 1, 4294967296, Buffer.staticManager⟩
      else none
    nextCore := 2 }

/-- Sequencing of two calls: the second runs on the value and heap of the first. -/
def Outcome.bind {α β : Type} (o : Outcome α) (f : α → Heap → Outcome β) : Outcome β :=
  match o with
  | .ok v h => f v h
  | .threw e h => .threw e h
  | .undefined => .undefined

/-- A static buffer `01 02 03` at cell 0. -/
def Example.eraseData : Heap :=
  { mem := memOfList 1 [0x01, 0x02, 0x03]
    brk := 4
    cores := fun q => if q = 0 then some ⟨1, 0, 3, 1, Buffer.staticManager⟩ else none
    nextCore := 1 }

/-- A static buffer `01 02` at cell 0 and a static buffer `09` at cell 1. -/
def Example.eraseInsertData : Heap :=
  { mem := memOfList 1 [0x01, 0x02, 0x09]
    brk := 4
    cores := fun q =>
      if q = 0 then some ⟨1, 0, 2, 1, Buffer.staticManager⟩
      else if q = 1 then some ⟨1, 0, 1, 3, Buffer.staticManager⟩
      else none
    nextCore := 2 }

/-- A heap buffer `01 02 03 04` at cell 0 whose cell is shared by two handles
(share-count 2), as after `Buffer B(A)`. -/
def Example.sharedData : Heap :=
  { mem := memOfList 1 [0x01, 0x02, 0x03, 0x04]
    brk := 5
    cores := fun q => if q = 0 then some ⟨2, 0, 4, 1, Buffer.heapManager⟩ else none
    nextCore := 1 }

/-- The heap after `BufferCore::create` followed by a successful `tryAllocate(bytes)`
with the allocate function of `heapManager`: a new cell at `nextCore` with
share-count 1 that owns a new block of `bytes` bytes just above `brk`. -/
def Heap.afterAlloc (h : Heap) (manager : BufferManager) (bytes : Nat) : Heap :=
  { mem := h.mem
    brk := h.brk + 1 + bytes
    cores := fun q =>
      if q = h.nextCore then some ⟨1, 0, bytes, h.brk + 1, manager⟩ else h.cores q
    nextCore := h.nextCore + 1 }

/-- An exclusively owned heap buffer `01 02 03 04` with headroom 2 at cell 0, and at
cell 1 the static alias `X.range(2, 4, Buffer::onStatic)` of its bytes `03 04`. -/
def Example.aliasData : Heap :=
  { mem := memOfList 1 [0x01, 0x02, 0x03, 0x04]
    brk := 7
    cores := fun q =>
      if q = 0 then some ⟨1, 2, 4, 1, Buffer.heapManager⟩
      else if q = 1 then some ⟨1, 0, 2, 3, Buffer.staticManager⟩
      else none
    nextCore := 2 }

/-- The three buffers of the test section "comparisons": `{00 01 02}` at cell 0,
`{00 01 02 03}` at cell 1 and `{10 20 30 40}` at cell 2, all borrowed through
`stackManager`. -/
def Example.comparisons : Heap :=
  { mem := memOfList 1 [0x00, 0x01, 0x02, 0x00, 0x01, 0x02, 0x03, 0x10, 0x20, 0x30, 0x40]
    brk := 12
    cores := fun q =>
      if q = 0 then some ⟨1, 0, 3, 1, Buffer.stackManager⟩
      else if q = 1 then some ⟨1, 0, 4, 4, Buffer.stackManager⟩
      else if q = 2 then some ⟨1, 0, 4, 8, Buffer.stackManager⟩
      else none
    nextCore := 3 }

/-- The method `Buffer::clone`. The manager pointer of an existing cell is never
null in the embedding, so the test `!resultManager` cannot fire. -/
def Buffer.clone (h : Heap) (self : Buffer) (manager : Option BufferManager) : Outcome Buffer :=
  match self.m_core with
  | none => .ok Buffer.empty h
  | some p =>
    match h.cores p with
    | none => .undefined
    | some c =>
      let resultManager : BufferManager := manager.getD c.m_manager
      if (resultManager.flags.memory && resultManager.flags.modify) = false then
        .threw .buf_no_alloc h
      else
        match Buffer.sized h resultManager c.m_size with
        | .threw e h1 => .threw e h1
        | .undefined => .undefined
        | .ok result h1 =>
          match h1.cell result, h1.cores p with
          | some rc, some c1 =>
            .ok result (h1.withMem (BUFFER_COPY h1.mem rc.m_address c1.m_address c1.m_size))
          | _, _ => .undefined

/-- The method `Buffer::range(std::size_t start, std::size_t end, const BufferManager *)`. -/
def Buffer.range (h : Heap) (self : Buffer) (start end_ : Nat)
    (imanager : Option BufferManager) : Outcome Buffer :=
  if end_ < start ∨ end_ > self.size h then .threw .invalid_range h
  else
    let newManager : Option BufferManager :=
      match imanager with
      | some m => some m
      | none =>
        match h.cell self with
        | none => none
        | some c => some c.m_manager
    match newManager with
    | none => .undefined
    | some newManager =>
      match self.m_core with
      | none => Buffer.sized h newManager 0
      | some p =>
        match h.cores p with
        | none => .undefined
        | some c =>
          if newManager.flags.modify = false ∨ newManager.flags.memory = false then
            Buffer.fromExternal h newManager (c.m_address + start) (end_ - start)
          else
            match Buffer.sized h newManager (end_ - start) with
            | .threw e h1 => .threw e h1
            | .undefined => .undefined
            | .ok result h1 =>
              match h1.cell result, h1.cores p with
              | some rc, some c1 =>
                .ok result (h1.withMem
                  (BUFFER_COPY h1.mem rc.m_address (c1.m_address + start) rc.m_size))
              | _, _ => .undefined

/-- The class `Buffer::Iterator`: an index and a share of a cell. -/
structure Iterator where
  m_index : Nat
  m_data : Option Nat
deriving DecidableEq, Repr

/-- The constructor `Iterator::Iterator(BufferCore *const data, std::uint32_t index)`. -/
def Iterator.create (h : Heap) (data : Option Nat) (index : Nat) : Outcome Iterator :=
  match data with
  | none => .ok ⟨index, none⟩ h
  | some p =>
    match h.cores p with
    | none => .undefined
    | some c =>
      let r := c.tryShare
      if r.1 = false then .threw .iter_instantiation_fail_ref_overflow h
      else .ok ⟨index, some p⟩ (h.setCore p (some r.2))

/-- The destructor `Iterator::~Iterator()`; `none` when a deleted cell is dereferenced. -/
def Iterator.destroy (h : Heap) (it : Iterator) : Option Heap :=
  match it.m_data with
  | none => some h
  | some p => BufferCore.release h (some p)

/-- Conversion of a `std::size_t` argument to the `std::int32_t` parameter of the
iterator arithmetic (two's complement, reduced modulo `2^32`). -/
def toInt32 (n : Nat) : Int :=
  if n % 4294967296 < 2147483648 then (n % 4294967296 : Nat)
  else ((n % 4294967296 : Nat) : Int) - 4294967296

/-- The method `Iterator::step(std::int32_t amount)`; `m_index + amount` is formed
in 32-bit unsigned arithmetic. -/
def Iterator.step (h : Heap) (it : Iterator) (amount : Int) : Outcome Iterator :=
  match it.m_data with
  | none => .threw .iter_invalid h
  | some p =>
    match h.cores p with
    | none => .undefined
    | some c =>
      if (((it.m_index : Int) + amount) % 4294967296).toNat > c.m_size then
        .threw .iter_end_increment h
      else if (it.m_index : Int) + amount < 0 then .threw .iter_begin_decrement h
      else Iterator.create h (some p) (((it.m_index : Int) + amount) % 4294967296).toNat

/-- The method `Buffer::begin()`. -/
def Buffer.begin (h : Heap) (self : Buffer) : Outcome Iterator :=
  Iterator.create h self.m_core 0

/-- The method `Buffer::end()`. -/
def Buffer.end (h : Heap) (self : Buffer) : Outcome Iterator :=
  Iterator.create h self.m_core (self.size h)

/-- The method `Buffer::range(Iterator start, Iterator end, const BufferManager *)`. -/
def Buffer.rangeIter (h : Heap) (self : Buffer) (start end_ : Iterator)
    (imanager : Option BufferManager) : Outcome Buffer :=
  if start.m_data ≠ end_.m_data ∨ start.m_data ≠ self.m_core ∨ end_.m_index < start.m_index then
    .threw .invalid_range h
  else self.range h start.m_index end_.m_index imanager

/-- The method `byte_t &Buffer::at(std::size_t i)`: the address that the returned
reference designates. -/
def Buffer.atRef (h : Heap) (b : Buffer) (i : Nat) : Outcome Nat :=
  match b.m_core with
  | none => .threw .buf_ref_empty h
  | some p =>
    match h.cores p with
    | none => .undefined
    | some c =>
      if c.m_manager.flags.modify = false then .threw .buf_readonly h
      else if c.m_size ≤ i then .threw .buf_ref_index_invalid h
      else .ok (c.m_address + i) h

/-- The statement `buffer.at(i) = v` (also `buffer[i] = v`): a store through the
reference that the mutable `at` returns. -/
def Buffer.assignAt (h : Heap) (b : Buffer) (i : Nat) (v : Byte) : Outcome Unit :=
  match b.atRef h i with
  | .ok a h1 => .ok () (h1.write a v)
  | .threw e h1 => .threw e h1
  | .undefined => .undefined

/-- The method `Buffer::selfPreallocate(std::size_t extra, const BufferManager *)`: the
handle after the call and the outcome. Sums with `extra` are formed in
`std::size_t` (64 bits, wrapping); `extra` itself is a `std::size_t` value. -/
def Buffer.selfPreallocate (h : Heap) (self : Buffer) (extra : Nat)
    (imanager : Option BufferManager) : Buffer × Outcome Unit :=
  let cappedExtra : Nat :=
    if (self.preallocated h + extra) % 18446744073709551616 > BufferCore.max_preall then
      BufferCore.max_preall - self.preallocated h
    else extra
  match self.resolve h imanager with
  | none => (self, .threw .buf_no_manager h)
  | some resultManager =>
    if (resultManager.flags.memory && resultManager.flags.modify) = false then
      (self, .threw .buf_no_alloc h)
    else
      let shared : Option Bool :=
        match self.m_core with
        | none => some true
        | some p =>
          match h.cores p with
          | none => none
          | some c => some (decide (c.m_refcount > 1))
      match shared with
      | none => (self, .undefined)
      | some true =>
        let n := BufferCore.create h resultManager 0 0 0
        let r := BufferCore.tryAllocate n.2 ⟨1, 0, 0, 0, resultManager⟩
                   ((self.totalsize n.2 + cappedExtra) % 18446744073709551616)
        let h1 := r.2.2.setCore n.1 (some r.2.1)
        if r.1 = false then (self, .threw .buf_fail_alloc h1)
        else
          let h2 := h1.setCore n.1 (some { r.2.1 with
            m_size := self.size h1 % 4294967296
            m_preall := ((self.preallocated h1 + cappedExtra) % 18446744073709551616) % 65536 })
          let h3 : Option Heap :=
            match self.m_core with
            | none => some h2
            | some p =>
              match h2.cores p with
              | none => none
              | some c => some (h2.withMem (BUFFER_COPY h2.mem r.2.1.m_address c.m_address c.m_size))
          match h3 with
          | none => (self, .undefined)
          | some h3 =>
            match BufferCore.change h3 self.m_core (some n.1) with
            | .ok q h4 => (⟨q⟩, .ok () h4)
            | .threw e h4 => (⟨some n.1⟩, .threw e h4)
            | .undefined => (self, .undefined)
      | some false =>
        match self.m_core with
        | none => (self, .undefined)
        | some p =>
          match h.cores p with
          | none => (self, .undefined)
          | some c =>
            let r := c.tryAllocateRaw h ((self.totalsize h + cappedExtra) % 18446744073709551616)
            if r.1 = 0 then (self, .threw .buf_fail_alloc r.2)
            else
              let d := c.tryDeallocateRaw (r.2.withMem (BUFFER_COPY r.2.mem r.1 c.m_address c.m_size))
              if d.1 = false then (self, .threw .buf_fail_release d.2.2)
              else
                (self, .ok () (d.2.2.setCore p (some { d.2.1 with
                  m_address := r.1
                  m_preall := (d.2.1.m_preall + cappedExtra % 65536) % 65536 })))

/-- The static method `Buffer::Heap` (renamed: inside `Buffer` the name `Heap` would
hide the type of heaps). -/
def Buffer.HeapSized (h : Heap) (size : Nat) : Outcome Buffer :=
  Buffer.sized h Buffer.heapManager size

/-- The static method `Buffer::HeapPreall`; the local `result` is returned without
a copy (the move constructor followed by the destructor of the local leaves the
share-count as it is). -/
def Buffer.HeapPreall (h : Heap) (size : Nat) : Outcome Buffer :=
  match Buffer.sized h Buffer.heapManager
      (if size > BufferCore.max_preall then BufferCore.max_preall else size) with
  | .threw e h1 => .threw e h1
  | .undefined => .undefined
  | .ok result h1 =>
    match result.m_core with
    | none => .undefined
    | some p =>
      match h1.cores p with
      | none => .undefined
      | some c =>
        .ok result (h1.setCore p (some { c with m_preall := c.m_size % 65536, m_size := 0 }))

/-- The static method `Buffer::HeapFrom`. -/
def Buffer.HeapFrom (h : Heap) (ptr size : Nat) : Outcome Buffer :=
  match Buffer.sized h Buffer.heapManager size with
  | .threw e h1 => .threw e h1
  | .undefined => .undefined
  | .ok result h1 =>
    match h1.cell result with
    | none => .undefined
    | some c => .ok result (h1.withMem (BUFFER_COPY h1.mem c.m_address ptr c.m_size))

/-- The static method `Buffer::Stack`. -/
def Buffer.Stack (h : Heap) (ptr size : Nat) : Outcome Buffer :=
  Buffer.fromExternal h Buffer.stackManager ptr size

/-- The static method `Buffer::Static`. -/
def Buffer.Static (h : Heap) (ptr size : Nat) : Outcome Buffer :=
  Buffer.fromExternal h Buffer.staticManager ptr size

/-- An observation on the buffer that a call returned. -/
def Outcome.observe? {α : Type} (o : Outcome Buffer) (f : Buffer → Heap → α) : Option α :=
  match o with
  | .ok b h => some (f b h)
  | _ => none

/-- An observation on the handle after a self operation that returned. -/
def observeSelf? {α : Type} (r : Buffer × Outcome Unit) (f : Buffer → Heap → α) : Option α :=
  match r.2 with
  | .ok _ h => some (f r.1 h)
  | _ => none

/-- A self operation applied to the buffer that a call returned. -/
def Outcome.thenSelf (o : Outcome Buffer) (f : Buffer → Heap → Buffer × Outcome Unit) :
    Buffer × Outcome Unit :=
  match o with
  | .ok b h => f b h
  | .threw e h => (Buffer.empty, .threw e h)
  | .undefined => (Buffer.empty, .undefined)

/-- A heap with no cell and no block in use. -/
def Example.emptyHeap : Heap :=
  { mem := fun _ => 0
    brk := 0
    cores := fun _ => none
    nextCore := 0 }

/-- The heap after a successful deep copy of the `n` bytes at `src` into a new
buffer `Buffer(manager, n)`: the new cell at `nextCore`, and for `n > 0` the bytes
stored in the new block just above `brk`. -/
def Heap.afterCopy (h : Heap) (manager : BufferManager) (src n : Nat) : Heap :=
  (h.afterSized manager n).withMem
    (BUFFER_COPY h.mem (if n = 0 then 0 else h.brk + 1) src n)

/-- The destructors of a list of iterators, run one after the other. -/
def Iterator.destroyAll (h : Heap) : List Iterator → Option Heap
  | [] => some h
  | it :: rest =>
    match Iterator.destroy h it with
    | none => none
    | some h1 => Iterator.destroyAll h1 rest

/-- The end of a full expression: the destructors of its iterator temporaries and
iterator arguments run, whether the call returned or threw. -/
def Outcome.unwind {α : Type} (o : Outcome α) (its : List Iterator) : Outcome α :=
  match o with
  | .ok v h =>
    match Iterator.destroyAll h its with
    | none => .undefined
    | some h1 => .ok v h1
  | .threw e h =>
    match Iterator.destroyAll h its with
    | none => .undefined
    | some h1 => .threw e h1
  | .undefined => .undefined

/-- The expression `X.range(X.begin() + start, X.begin() + end, M)` of the test section
"ranges", with the arguments evaluated from left to right: `begin()` and
`operator+` (which is `step`) each construct an iterator, so four iterators share
the cell while `range(Iterator, Iterator, M)` runs. -/
def Buffer.rangeByIterators (h : Heap) (self : Buffer) (start end_ : Nat)
    (imanager : Option BufferManager) : Outcome Buffer :=
  match self.begin h with
  | .undefined => .undefined
  | .threw e h1 => .threw e h1
  | .ok b1 h1 =>
    match b1.step h1 (toInt32 start) with
    | .undefined => .undefined
    | .threw e h2 => (Outcome.threw e h2 : Outcome Buffer).unwind [b1]
    | .ok s h2 =>
      match self.begin h2 with
      | .undefined => .undefined
      | .threw e h3 => (Outcome.threw e h3 : Outcome Buffer).unwind [s, b1]
      | .ok b2 h3 =>
        match b2.step h3 (toInt32 end_) with
        | .undefined => .undefined
        | .threw e h4 => (Outcome.threw e h4 : Outcome Buffer).unwind [b2, s, b1]
        | .ok e h4 => (self.rangeIter h4 s e imanager).unwind [e, b2, s, b1]

/-- A heap buffer `01 02 03 04` at cell 0 whose share-count has reached its maximum
`65535` (the cell is held by 65535 handles). -/
def Example.saturatedData : Heap :=
  { mem := memOfList 1 [0x01, 0x02, 0x03, 0x04]
    brk := 5
    cores := fun q => if q = 0 then some ⟨65535, 0, 4, 1, Buffer.heapManager⟩ else none
    nextCore := 1 }

/-- A manager that can allocate but cannot mutate (`flags = {memory = 1, modify = 0}`),
with the allocate and release functions of `heapManager`. -/
def Example.readOnlyOwningManager : BufferManager :=
  ⟨"readOnlyOwning", ⟨true, false⟩, .heapNew, .heapDelete⟩

/-- A second manager that can allocate and mutate, distinct from `heapManager`. -/
def Example.arenaManager : BufferManager :=
  ⟨"arenaManager", ⟨true, true⟩, .heapNew, .heapDelete⟩

/-- The enumerator `Buffer::HEX` of `Buffer::Representation`. -/
def Representation.HEX : Nat := 0x01

/-- The enumerator `Buffer::BINARY` of `Buffer::Representation`. -/
def Representation.BINARY : Nat := 0x02

/-- The enumerator `Buffer::LOWERCASE` of `Buffer::Representation`. -/
def Representation.LOWERCASE : Nat := 0x04

/-- The enumerator `Buffer::PREFIXED` of `Buffer::Representation`. -/
def Representation.PREFIXED : Nat := 0x08

/-- Insertion `stream << std::setfill(fill) << std::setw(width) << value` of an
unsigned value into a stream in mode `std::hex`, `std::noshowbase`, with the given
state of `std::uppercase`: the base-16 digits of the value without leading zeros
(`a`-`f`, or `A`-`F` with `std::uppercase`), padded with the fill character on the
left (the default adjustment) up to the field width. -/
def streamHex (uppercase : Bool) (fill : Char) (width v : Nat) : List Char :=
  let digits := if uppercase then (Nat.toDigits 16 v).map Char.toUpper else Nat.toDigits 16 v
  List.replicate (width - digits.length) fill ++ digits

/-- The inner loop `for (bit = 0x80; bit > 0; bit >>= 1) stream << (((v & bit) == bit) ? '1' : '0')`
of `Buffer::represent`; `bit` takes the values `0x80, 0x40, ..., 0x01`. -/
def streamBits (v : Nat) : List Char :=
  [0x80, 0x40, 0x20, 0x10, 0x08, 0x04, 0x02, 0x01].map
    (fun bit => if v &&& bit = bit then '1' else '0')

/-- The loops `for (index = 0; index < m_size; ++index) stream << ...` of
`Buffer::represent`, from `index` on with `n` iterations left; `item` renders one byte. -/
def representLoop (item : Nat → List Char) (mem : Nat → Byte) (address : Nat) :
    Nat → Nat → List Char
  | _, 0 => []
  | index, n + 1 =>
    item (mem (address + index)).val ++ representLoop item mem address (index + 1) n

/-- The method `Buffer::represent`; `form` is the `std::uint8_t` argument. -/
def Buffer.represent (h : Heap) (self : Buffer) (form : Nat) : Outcome String :=
  match self.m_core with
  | none => .ok "null" h
  | some p =>
    match h.cores p with
    | none => .undefined
    | some c =>
      if c.m_size = 0 then .ok "null" h
      else if form &&& Representation.HEX = Representation.HEX then
        .ok (String.mk
          ((if form &&& Representation.PREFIXED = Representation.PREFIXED
              then ['0', 'x'] else []) ++
            representLoop (streamHex (decide (form &&& Representation.LOWERCASE = 0)) '0' 2)
              h.mem c.m_address 0 c.m_size)) h
      else if form &&& Representation.BINARY = Representation.BINARY then
        .ok (String.mk
          ((if form &&& Representation.PREFIXED = Representation.PREFIXED
              then ['0', 'b'] else []) ++
            representLoop streamBits h.mem c.m_address 0 c.m_size)) h
      else .ok "null" h

/-- Specification of the digits: the base-16 digit of a value below 16, from `0-9A-F`,
or from `0-9a-f` in lowercase. -/
def specHexDigit (lowercase : Bool) (d : Nat) : Char :=
  (if lowercase then "0123456789abcdef" else "0123456789ABCDEF").data.getD d '?'

/-- Specification of the HEX form: for each byte its two base-16 digits, high nibble first. -/
def specHex (lowercase : Bool) : List Byte → List Char
  | [] => []
  | b :: bs => specHexDigit lowercase (b.val / 16) :: specHexDigit lowercase (b.val % 16) ::
      specHex lowercase bs

/-- Specification of the BINARY form of one byte: character `j` is `'1'` iff bit `7 - j`
of the byte is set. -/
def specBits (b : Byte) : List Char :=
  (List.range 8).map (fun j => if b.val.testBit (7 - j) then '1' else '0')

/-- Specification of the BINARY form: for each byte its eight bits, most significant first. -/
def specBinary : List Byte → List Char
  | [] => []
  | b :: bs => specBits b ++ specBinary bs

/-- The buffers of the test section "representation": the static buffer
`01 23 45 67 89 AB CD EF` at cell 0 and the static buffer `93` at cell 1. -/
def Example.representData : Heap :=
  { mem := memOfList 1 [0x01, 0x23, 0x45, 0x67, 0x89, 0xAB, 0xCD, 0xEF, 0x93]
    brk := 10
    cores := fun q =>
      if q = 0 then some ⟨1, 0, 8, 1, Buffer.staticManager⟩
      else if q = 1 then some ⟨1, 0, 1, 9, Buffer.staticManager⟩
      else none
    nextCore := 2 }

/-- The method `Iterator::value()` (both overloads, also `operator*`). -/
def Iterator.value (h : Heap) (it : Iterator) : Outcome Byte :=
  match it.m_data with
  | none => .threw .iter_invalid h
  | some p =>
    match h.cores p with
    | none => .undefined
    | some c =>
      if it.m_index ≥ c.m_size then .threw .iter_invalid h
      else .ok (h.mem (c.m_address + it.m_index)) h

/-- The method `Iterator::stepSelf(std::int32_t amount)`: the iterator after the call
and the outcome; `m_index + amount` and `m_index += amount` are formed in 32-bit
unsigned arithmetic. -/
def Iterator.stepSelf (h : Heap) (it : Iterator) (amount : Int) : Iterator × Outcome Unit :=
  match it.m_data with
  | none => (it, .threw .iter_invalid h)
  | some p =>
    match h.cores p with
    | none => (it, .undefined)
    | some c =>
      if (((it.m_index : Int) + amount) % 4294967296).toNat > c.m_size then
        (it, .threw .iter_end_increment h)
      else if (it.m_index : Int) + amount < 0 then (it, .threw .iter_begin_decrement h)
      else ({ it with m_index := (((it.m_index : Int) + amount) % 4294967296).toNat },
            .ok () h)

/-- The operator `Iterator::operator-(const Iterator &other)`: `m_index - other.m_index`
is formed in 32-bit unsigned arithmetic and then converted to `std::ptrdiff_t`
(64 bits), which keeps the value. -/
def Iterator.sub (h : Heap) (a other : Iterator) : Outcome Int :=
  if a.m_data = none ∨ a.m_data ≠ other.m_data then .threw .iter_invalid_sub h
  else .ok (((a.m_index + 4294967296 - other.m_index) % 4294967296 : Nat) : Int) h

/-- The operator `Iterator::operator!=`. -/
def Iterator.ne (a other : Iterator) : Bool :=
  decide (a.m_data ≠ other.m_data ∨ a.m_index ≠ other.m_index)

/-- The loop `for (; it != end; ++it) { visit(*it); }` of a range-based `for` over a
buffer: the bytes visited so far are collected in `visited`; `none` when the fuel
runs out before the loop ends. -/
def Buffer.forEachLoop (end_ : Iterator) : Nat → Heap → Iterator → List Byte →
    Option (Outcome (List Byte))
  | 0, _, _, _ => none
  | fuel + 1, h, it, visited =>
    if it.ne end_ then
      match it.value h with
      | .undefined => some .undefined
      | .threw e h1 => some (.threw e h1)
      | .ok v h1 =>
        match it.stepSelf h1 1 with
        | (_, .undefined) => some .undefined
        | (_, .threw e h2) => some (.threw e h2)
        | (it1, .ok _ h2) => Buffer.forEachLoop end_ fuel h2 it1 (visited ++ [v])
    else some (.ok visited h)

/-- The statement `for (auto v : X) visit(v);`: `begin()` and `end()` are constructed,
the loop runs, and both iterators are destroyed, whether the loop returned or threw. -/
def Buffer.forEach (h : Heap) (self : Buffer) (fuel : Nat) : Option (Outcome (List Byte)) :=
  match self.begin h with
  | .undefined => some .undefined
  | .threw e h1 => some (.threw e h1)
  | .ok b h1 =>
    match self.end h1 with
    | .undefined => some .undefined
    | .threw e h2 => some ((Outcome.threw e h2 : Outcome (List Byte)).unwind [b])
    | .ok e h2 =>
      match Buffer.forEachLoop e fuel h2 b [] with
      | none => none
      | some o => some (o.unwind [e, b])

/-- The operator `Buffer::operator=(const Buffer &other)`: the handle after the call
and the outcome. When `shareOrDetach` throws, `m_core` already holds the cell
pointer of `other`. -/
def Buffer.assign (h : Heap) (self other : Buffer) : Buffer × Outcome Unit :=
  match self.m_core with
  | some p =>
    match BufferCore.change h (some p) other.m_core with
    | .ok q h1 => (⟨q⟩, .ok () h1)
    | .threw e h1 => (⟨other.m_core⟩, .threw e h1)
    | .undefined => (self, .undefined)
  | none =>
    match BufferCore.shareOrDetach h other.m_core with
    | .ok q h1 => (⟨q⟩, .ok () h1)
    | .threw e h1 => (⟨other.m_core⟩, .threw e h1)
    | .undefined => (self, .undefined)

/-- The debug accessor `Buffer::refcount()`. -/
def Buffer.refcount (h : Heap) (self : Buffer) : Nat :=
  match h.cell self with
  | none => 0
  | some c => c.m_refcount

/-- A borrowed (stack) buffer `01 02 03 04` at cell 0 whose share-count has reached
its maximum `65535`, and a heap buffer `05 06` at cell 1. -/
def Example.saturatedStackData : Heap :=
  { mem := memOfList 1 [0x01, 0x02, 0x03, 0x04, 0x05, 0x06]
    brk := 7
    cores := fun q =>
      if q = 0 then some ⟨65535, 0, 4, 1, Buffer.stackManager⟩
      else if q = 1 then some ⟨1, 0, 2, 5, Buffer.heapManager⟩
      else none
    nextCore := 2 }

/-- The class `Exception` of `src/Exception.cpp`: a description and a call stack. -/
structure Exception where
  m_description : String
  m_callstack : List String
deriving DecidableEq, Repr

/-- The constructor `Exception::Exception(const std::string &function, const std::string &description)`. -/
def Exception.create (function description : String) : Exception :=
  { m_description := description, m_callstack := [function] }

/-- The constructor `Exception::Exception(const std::string &function, const Exception &lastInStack)`:
the call stack of `lastInStack` is copied and `function` is pushed at its back. -/
def Exception.wrap (function : String) (lastInStack : Exception) : Exception :=
  { m_description := lastInStack.m_description
    m_callstack := lastInStack.m_callstack ++ [function] }

/-- The method `Exception::getDescription`. -/
def Exception.getDescription (e : Exception) : String := e.m_description

/-- The method `Exception::getCallstack`. -/
def Exception.getCallstack (e : Exception) : List String := e.m_callstack

/-- The loop `for (...) exc = Exception(functions[i], exc);` of the test case
"cppx::Exception": the exception is wrapped once per function name, in order. -/
def Exception.wrapAll (exc : Exception) : List String → Exception
  | [] => exc
  | function :: rest => Exception.wrapAll (Exception.wrap function exc) rest

/-- The operator `Iterator::operator=(const Iterator &other)`: the iterator after the
call and the outcome. Only `m_data` is assigned; the source has no statement for
`m_index`. -/
def Iterator.assign (h : Heap) (a other : Iterator) : Iterator × Outcome Unit :=
  match a.m_data with
  | some p =>
    match BufferCore.change h (some p) other.m_data with
    | .ok q h1 => ({ a with m_data := q }, .ok () h1)
    | .threw e h1 => ({ a with m_data := other.m_data }, .threw e h1)
    | .undefined => (a, .undefined)
  | none =>
    match BufferCore.shareOrDetach h other.m_data with
    | .ok q h1 => ({ a with m_data := q }, .ok () h1)
    | .threw e h1 => ({ a with m_data := other.m_data }, .threw e h1)
    | .undefined => (a, .undefined)

/-- The operator `Iterator::operator==`. -/
def Iterator.eq (a other : Iterator) : Bool :=
  decide (a.m_data = other.m_data ∧ a.m_index = other.m_index)

/-- The macro `BUFFER_SAFE_INCREASE` on a 16-bit counter in the variant with compiler
builtins (`CPPX_BUFFER_BUILTINS`): `__builtin_add_overflow(x, 1, &x)` reports whether
`x + 1` fits the type of `x`; the new value, or `none` when `onoverflow` runs (the
counter is then restored). -/
def BUFFER_SAFE_INCREASE_BUILTIN (x : Nat) : Option Nat :=
  if x + 1 > 65535 then none else some ((x + 1) % 65536)

/-- The method `BufferCore::tryShare` compiled with `CPPX_BUFFER_BUILTINS`. -/
def BufferCore.tryShareBuiltin (c : BufferCore) : Bool × BufferCore :=
  match BUFFER_SAFE_INCREASE_BUILTIN c.m_refcount with
  | none => (false, c)
  | some y => (true, { c with m_refcount := y })

/-- An exclusively owned heap buffer `01 02 03` with headroom 5 at cell 0 (as after
`HeapPreall(8)` and an insertion of three bytes), and a static buffer `0A 0B` at cell 1. -/
def Example.headroomData : Heap :=
  { mem := memOfList 1 [0x01, 0x02, 0x03, 0x00, 0x00, 0x00, 0x00, 0x00, 0x0A, 0x0B]
    brk := 11
    cores := fun q =>
      if q = 0 then some ⟨1, 5, 3, 1, Buffer.heapManager⟩
      else if q = 1 then some ⟨1, 0, 2, 9, Buffer.staticManager⟩
      else none
    nextCore := 2 }

/-- An exclusively owned borrowed (stack) buffer of 70000 zero bytes at cell 0, with
headroom 0. -/
def Example.longStackData : Heap :=
  { mem := fun _ => 0
    brk := 70001
    cores := fun q => if q = 0 then some ⟨1, 0, 70000, 1, Buffer.stackManager⟩ else none
    nextCore := 1 }

/-- A heap buffer `01 02 03 04` with headroom 2 at cell 0 whose cell is shared by two
handles (share-count 2); the two headroom bytes hold `05 06`. -/
def Example.sharedHeadroomData : Heap :=
  { mem := memOfList 1 [0x01, 0x02, 0x03, 0x04, 0x05, 0x06]
    brk := 7
    cores := fun q => if q = 0 then some ⟨2, 2, 4, 1, Buffer.heapManager⟩ else none
    nextCore := 1 }

/-- The outcome of a self operation as an outcome that carries the handle (or iterator)
after the call, so that calls can be sequenced with `Outcome.bind`. -/
def Outcome.ofSelf {α : Type} (r : α × Outcome Unit) : Outcome α :=
  match r.2 with
  | .ok _ h => .ok r.1 h
  | .threw e h => .threw e h
  | .undefined => .undefined

/-- The heap that a call leaves behind when it returned or threw; `none` after
undefined behaviour. -/
def Outcome.heap? {α : Type} (o : Outcome α) : Option Heap :=
  match o with
  | .ok _ h => some h
  | .threw _ h => some h
  | .undefined => none

/-- A property of the heap that a call leaves behind, whether it returned or threw. -/
def Outcome.heapSatisfies {α : Type} (o : Outcome α) (P : Heap → Prop) : Prop :=
  match o with
  | .ok _ h => P h
  | .threw _ h => P h
  | .undefined => True

/-- Every cell of the heap was handed out by `new BufferCore` (its pointer lies below
`nextCore`), and its `m_size` and `m_preall` satisfy `m_size + m_preall <= max_size`
and `m_preall <= max_preall`. -/
def Heap.bounded (h : Heap) : Prop :=
  ∀ p c, h.cores p = some c →
    p < h.nextCore ∧ c.m_size + c.m_preall ≤ BufferCore.max_size ∧
      c.m_preall ≤ BufferCore.max_preall

/-- One step of a client program: a call of a public constructor, destructor, operator
or method of `Buffer` or `Buffer::Iterator` that can change the heap, with its
arguments, or a store of the client into memory (through a reference returned by
`at` or `value`, or into storage the client lent to a buffer). `iteratorCreate`
stands for every construction of an iterator (`begin`, `end`, `step`, the postfix
operators, the copy constructor); `selfCloneSelf` is `selfClone` with the buffer
itself as argument. Calls that are left out reach no further heap: the
`const` accessors, `compare`, `represent`, `value` and `stepSelf` leave the heap as
it is, and the overloads that take iterators check their arguments and then call the
overload on indices. -/
inductive Call where
  | sized (manager : BufferManager) (size : Nat)
  | fromExternal (manager : BufferManager) (pointer size : Nat)
  | HeapSized (size : Nat)
  | HeapPreall (size : Nat)
  | HeapFrom (ptr size : Nat)
  | Stack (ptr size : Nat)
  | Static (ptr size : Nat)
  | copy (other : Buffer)
  | destroy (self : Buffer)
  | assign (self other : Buffer)
  | clone (self : Buffer) (manager : Option BufferManager)
  | range (self : Buffer) (start end_ : Nat) (imanager : Option BufferManager)
  | reverse (self : Buffer) (start end_ : Nat) (imanager : Option BufferManager)
  | insert (self : Buffer) (index : Nat) (value : Buffer) (imanager : Option BufferManager)
  | erase (self : Buffer) (start end_ : Nat) (imanager : Option BufferManager)
  | selfClone (self other : Buffer) (imanager : Option BufferManager)
  | selfCloneSelf (self : Buffer) (imanager : Option BufferManager)
  | selfInsert (self : Buffer) (index : Nat) (value : Buffer)
  | selfErase (self : Buffer) (start end_ : Nat)
  | selfReverse (self : Buffer) (start end_ : Nat)
  | selfPreallocate (self : Buffer) (extra : Nat) (imanager : Option BufferManager)
  | iteratorCreate (data : Option Nat) (index : Nat)
  | iteratorDestroy (it : Iterator)
  | iteratorAssign (a other : Iterator)
  | store (address : Nat) (v : Byte)

/-- The heap after one step; `none` when the step has undefined behaviour. -/
def Call.run (c : Call) (h : Heap) : Option Heap :=
  match c with
  | .sized manager size => (Buffer.sized h manager size).heap?
  | .fromExternal manager pointer size => (Buffer.fromExternal h manager pointer size).heap?
  | .HeapSized size => (Buffer.HeapSized h size).heap?
  | .HeapPreall size => (Buffer.HeapPreall h size).heap?
  | .HeapFrom ptr size => (Buffer.HeapFrom h ptr size).heap?
  | .Stack ptr size => (Buffer.Stack h ptr size).heap?
  | .Static ptr size => (Buffer.Static h ptr size).heap?
  | .copy other => (Buffer.copy h other).heap?
  | .destroy self => Buffer.destroy h self
  | .assign self other => (Buffer.assign h self other).2.heap?
  | .clone self manager => (Buffer.clone h self manager).heap?
  | .range self start end_ imanager => (Buffer.range h self start end_ imanager).heap?
  | .reverse self start end_ imanager => (Buffer.reverse h self start end_ imanager).heap?
  | .insert self index value imanager => (Buffer.insert h self index value imanager).heap?
  | .erase self start end_ imanager => (Buffer.erase h self start end_ imanager).heap?
  | .selfClone self other imanager => (Buffer.selfClone h self other imanager).2.heap?
  | .selfCloneSelf self imanager => (Buffer.selfCloneSelf h self imanager).2.heap?
  | .selfInsert self index value => (Buffer.selfInsert h self index value).2.heap?
  | .selfErase self start end_ => (Buffer.selfErase h self start end_).2.heap?
  | .selfReverse self start end_ => (Buffer.selfReverse h self start end_).2.heap?
  | .selfPreallocate self extra imanager => (Buffer.selfPreallocate h self extra imanager).2.heap?
  | .iteratorCreate data index => (Iterator.create h data index).heap?
  | .iteratorDestroy it => Iterator.destroy h it
  | .iteratorAssign a other => (Iterator.assign h a other).2.heap?
  | .store address v => some (h.write address v)

/-- The heap after a sequence of steps, run one after the other; `none` when one of
them has undefined behaviour. -/
def Heap.runAll : Heap → List Call → Option Heap
  | h, [] => some h
  | h, c :: rest =>
    match c.run h with
    | none => none
    | some h1 => Heap.runAll h1 rest

/-! ## Comparison -/

theorem Buffer.size_eq_zero_of_null (h : Heap) (b : Buffer) (hb : b.m_core = none) :
    b.size h = 0 := by
  simp [Buffer.size, Heap.cell, hb]

theorem Buffer.at_ok (h : Heap) (b : Buffer) (i : Nat) (hb : h.live b) (hi : i < b.size h) :
    b.at h i = .ok (b.byte h i) h := by
  unfold Buffer.at Buffer.byte Buffer.data
  unfold Heap.live at hb
  unfold Buffer.size at hi
  unfold Heap.cell at *
  cases hc : b.m_core with
  | none => simp [hc] at hi
  | some p =>
    simp only [hc] at hb hi ⊢
    cases hp : h.cores p with
    | none => exact absurd hp hb
    | some c =>
      simp only [hp] at hi ⊢
      rw [if_neg (by omega)]

theorem Buffer.compareLoop_eq (h : Heap) (a b : Buffer) (ha : h.live a) (hb : h.live b) :
    ∀ (n i : Nat), i + n ≤ a.size h → i + n ≤ b.size h →
      Buffer.compareLoop h a b i n = .ok (firstDifference (a.byte h) (b.byte h) i n) h := by
  intro n
  induction n with
  | zero => intro i _ _; rfl
  | succ n ih =>
    intro i h1 h2
    unfold Buffer.compareLoop firstDifference
    rw [Buffer.at_ok h a i ha (by omega), Buffer.at_ok h b i hb (by omega)]
    simp only
    rw [ih (i + 1) (by omega) (by omega)]
    split_ifs <;> rfl

theorem Buffer.compare_eq (h : Heap) (a b : Buffer) (ha : h.live a) (hb : h.live b) :
    a.compare h b = .ok (if a.size h < b.size h then -1
      else if a.size h > b.size h then 1
      else firstDifference (a.byte h) (b.byte h) 0 (a.size h)) h := by
  unfold Buffer.compare
  split_ifs with h1 h2
  · rfl
  · rfl
  · exact Buffer.compareLoop_eq h a b ha hb _ 0 (by omega) (by omega)

theorem firstDifference_eq_zero_iff (f g : Nat → Byte) :
    ∀ (n i : Nat), firstDifference f g i n = 0 ↔ ∀ k, k < n → f (i + k) = g (i + k) := by
  intro n
  induction n with
  | zero => intro i; simp [firstDifference]
  | succ n ih =>
    intro i
    unfold firstDifference
    rcases lt_trichotomy (f i) (g i) with hlt | heq | hgt
    · rw [if_pos hlt]
      constructor
      · intro h; simp at h
      · intro h
        have h0 : f i = g i := by simpa using h 0 (by omega)
        rw [h0] at hlt; exact absurd hlt (lt_irrefl _)
    · rw [heq, if_neg (lt_irrefl _), if_neg (lt_irrefl _), ih (i + 1)]
      constructor
      · intro h k hk
        cases k with
        | zero => simpa using heq
        | succ k =>
          have e : i + (k + 1) = i + 1 + k := by omega
          rw [e]; exact h k (by omega)
      · intro h k hk
        have e : i + 1 + k = i + (k + 1) := by omega
        rw [e]; exact h (k + 1) (by omega)
    · rw [if_neg (lt_asymm hgt), if_pos hgt]
      constructor
      · intro h; simp at h
      · intro h
        have h0 : f i = g i := by simpa using h 0 (by omega)
        rw [h0] at hgt; exact absurd hgt (lt_irrefl _)

theorem firstDifference_neg (f g : Nat → Byte) :
    ∀ (n i : Nat), firstDifference f g i n = - firstDifference g f i n := by
  intro n
  induction n with
  | zero => intro i; simp [firstDifference]
  | succ n ih =>
    intro i
    unfold firstDifference
    rcases lt_trichotomy (f i) (g i) with hlt | heq | hgt
    · rw [if_pos hlt, if_neg (lt_asymm hlt), if_pos hlt]
    · rw [heq, if_neg (lt_irrefl _), if_neg (lt_irrefl _), if_neg (lt_irrefl _),
        if_neg (lt_irrefl _)]
      exact ih (i + 1)
    · rw [if_neg (lt_asymm hgt), if_pos hgt, if_pos hgt]
      rfl

theorem firstDifference_range (f g : Nat → Byte) :
    ∀ (n i : Nat), firstDifference f g i n = -1 ∨ firstDifference f g i n = 0 ∨
      firstDifference f g i n = 1 := by
  intro n
  induction n with
  | zero => intro i; simp [firstDifference]
  | succ n ih =>
    intro i
    unfold firstDifference
    split_ifs
    · simp
    · simp
    · exact ih (i + 1)

theorem firstDifference_first (f g : Nat → Byte) :
    ∀ (n i k : Nat), k < n → (∀ j, j < k → f (i + j) = g (i + j)) →
      (f (i + k) < g (i + k) → firstDifference f g i n = -1) ∧
      (f (i + k) > g (i + k) → firstDifference f g i n = 1) := by
  intro n
  induction n with
  | zero => intro i k hk; omega
  | succ n ih =>
    intro i k hk hpre
    cases k with
    | zero =>
      simp only [Nat.add_zero]
      unfold firstDifference
      constructor
      · intro hlt; rw [if_pos hlt]
      · intro hgt; rw [if_neg (lt_asymm hgt), if_pos hgt]
    | succ k =>
      have h0 : f i = g i := by simpa using hpre 0 (by omega)
      have hrec := ih (i + 1) k (by omega) (by
        intro j hj
        have e : i + 1 + j = i + (j + 1) := by omega
        rw [e]; exact hpre (j + 1) (by omega))
      unfold firstDifference
      rw [h0, if_neg (lt_irrefl _), if_neg (lt_irrefl _)]
      have e : i + (k + 1) = i + 1 + k := by omega
      rw [e]
      exact hrec

theorem firstDifference_trans (f g k : Nat → Byte) :
    ∀ (n i : Nat), firstDifference f g i n < 0 → firstDifference g k i n ≤ 0 →
      firstDifference f k i n < 0 := by
  intro n
  induction n with
  | zero => intro i h1; simp [firstDifference] at h1
  | succ n ih =>
    intro i h1 h2
    unfold firstDifference at h1 h2 ⊢
    rcases lt_trichotomy (f i) (g i) with hlt | heq | hgt
    · rcases lt_trichotomy (g i) (k i) with hlt2 | heq2 | hgt2
      · rw [if_pos (lt_trans hlt hlt2)]; decide
      · rw [← heq2, if_pos hlt]; decide
      · rw [if_neg (lt_asymm hgt2), if_pos hgt2] at h2; exact absurd h2 (by decide)
    · rw [heq, if_neg (lt_irrefl _), if_neg (lt_irrefl _)] at h1
      rw [heq]
      rcases lt_trichotomy (g i) (k i) with hlt2 | heq2 | hgt2
      · rw [if_pos hlt2]; decide
      · rw [heq2, if_neg (lt_irrefl _), if_neg (lt_irrefl _)] at h2 ⊢
        exact ih (i + 1) h1 h2
      · rw [if_neg (lt_asymm hgt2), if_pos hgt2] at h2; exact absurd h2 (by decide)
    · rw [if_neg (lt_asymm hgt), if_pos hgt] at h1; exact absurd h1 (by decide)

/-- C9. For all live buffers `A` and `B` (the empty buffer included) `compare`
returns, in an unchanged heap: `-1` when `A` is shorter, `1` when `A` is longer,
otherwise the sign given by the first index where the bytes differ, compared as
unsigned 8-bit values; and `0` exactly when the sizes and all bytes are equal. -/
theorem Buffer.compare_lexicographic (h : Heap) (A B : Buffer)
    (hA : h.live A) (hB : h.live B) :
    ∃ r : Int, A.compare h B = .ok r h ∧
      (A.size h < B.size h → r = -1) ∧
      (A.size h > B.size h → r = 1) ∧
      (A.size h = B.size h → ∀ k, k < A.size h →
        (∀ j, j < k → A.byte h j = B.byte h j) →
          (A.byte h k < B.byte h k → r = -1) ∧ (A.byte h k > B.byte h k → r = 1)) ∧
      (r = 0 ↔ A.size h = B.size h ∧ ∀ j, j < A.size h → A.byte h j = B.byte h j) := by
  refine ⟨_, Buffer.compare_eq h A B hA hB, ?_, ?_, ?_, ?_⟩
  · intro hlt; rw [if_pos hlt]
  · intro hgt; rw [if_neg (by omega), if_pos hgt]
  · intro heq k hk hpre
    rw [if_neg (by omega), if_neg (by omega)]
    have := firstDifference_first (A.byte h) (B.byte h) (A.size h) 0 k hk
      (by intro j hj; simpa using hpre j hj)
    simpa using this
  · split_ifs with h1 h2
    · constructor
      · intro h0; exact absurd h0 (by decide)
      · intro h0; omega
    · constructor
      · intro h0; exact absurd h0 (by decide)
      · intro h0; omega
    · rw [firstDifference_eq_zero_iff]
      constructor
      · intro h0; exact ⟨by omega, by intro j hj; simpa using h0 j hj⟩
      · intro h0 k hk; simpa using h0.2 k hk

/-- Witness for C9 on the data of the test section "comparisons":
`{00 01 02}` is shorter than `{00 01 02 03}`, so `compare` returns `-1`. -/
theorem Buffer.compare_lexicographic_witness :
    Example.comparisons.live ⟨some 0⟩ ∧ Example.comparisons.live ⟨some 1⟩ ∧
    ∃ r : Int, Buffer.compare Example.comparisons ⟨some 0⟩ ⟨some 1⟩
        = .ok r Example.comparisons ∧ r = -1 :=
  ⟨by decide, by decide, by
    obtain ⟨r, hr, hlt, _⟩ :=
      Buffer.compare_lexicographic Example.comparisons ⟨some 0⟩ ⟨some 1⟩ (by decide) (by decide)
    exact ⟨r, hr, hlt (by decide)⟩⟩

/-- C10. On live buffers the relation `A < B` (that is `compare(A, B) < 0`) is a
strict weak ordering: it is irreflexive and transitive, `compare(A, B)` is
`-compare(B, A)`, equivalence (`compare == 0`) is transitive, exactly one of
`A < B`, `A == B`, `A > B` holds, and the six relational operators return the
corresponding test on the sign of `compare`. -/
theorem Buffer.compare_strict_weak_order (h : Heap) (A B C : Buffer)
    (hA : h.live A) (hB : h.live B) (hC : h.live C) :
    ∃ aa ab ba bc ac : Int,
      A.compare h A = .ok aa h ∧ A.compare h B = .ok ab h ∧ B.compare h A = .ok ba h ∧
      B.compare h C = .ok bc h ∧ A.compare h C = .ok ac h ∧
      ¬ aa < 0 ∧
      (ab < 0 → bc < 0 → ac < 0) ∧
      ab = -ba ∧
      (ab = 0 → bc = 0 → ac = 0) ∧
      A.lt h B = .ok (decide (ab < 0)) h ∧ A.eq h B = .ok (decide (ab = 0)) h ∧
      A.gt h B = .ok (decide (ab > 0)) h ∧ A.ne h B = .ok (decide (ab ≠ 0)) h ∧
      A.ge h B = .ok (decide (ab ≥ 0)) h ∧ A.le h B = .ok (decide (ab ≤ 0)) h ∧
      ((ab < 0 ∧ ¬ ab = 0 ∧ ¬ ab > 0) ∨ (¬ ab < 0 ∧ ab = 0 ∧ ¬ ab > 0) ∨
        (¬ ab < 0 ∧ ¬ ab = 0 ∧ ab > 0)) := by
  have eAA := Buffer.compare_eq h A A hA hA
  have eAB := Buffer.compare_eq h A B hA hB
  have eBA := Buffer.compare_eq h B A hB hA
  have eBC := Buffer.compare_eq h B C hB hC
  have eAC := Buffer.compare_eq h A C hA hC
  refine ⟨_, _, _, _, _, eAA, eAB, eBA, eBC, eAC, ?_, ?_, ?_, ?_, ?_, ?_, ?_, ?_, ?_, ?_, ?_⟩
  · rw [if_neg (lt_irrefl _), if_neg (lt_irrefl _)]
    have : firstDifference (A.byte h) (A.byte h) 0 (A.size h) = 0 :=
      (firstDifference_eq_zero_iff _ _ _ _).2 (fun _ _ => rfl)
    omega
  · intro h1 h2
    by_cases s1 : A.size h < B.size h
    · by_cases s2 : B.size h < C.size h
      · rw [if_pos (by omega)]; decide
      · by_cases s3 : B.size h > C.size h
        · rw [if_neg s2, if_pos s3] at h2; exact absurd h2 (by decide)
        · rw [if_pos (by omega)]; decide
    · by_cases s1' : A.size h > B.size h
      · rw [if_neg s1, if_pos s1'] at h1; exact absurd h1 (by decide)
      · rw [if_neg s1, if_neg s1'] at h1
        by_cases s2 : B.size h < C.size h
        · rw [if_pos (by omega)]; decide
        · by_cases s3 : B.size h > C.size h
          · rw [if_neg s2, if_pos s3] at h2; exact absurd h2 (by decide)
          · rw [if_neg s2, if_neg s3] at h2
            rw [if_neg (by omega), if_neg (by omega)]
            have e : B.size h = A.size h := by omega
            rw [e] at h2
            exact firstDifference_trans _ _ _ _ 0 h1 (le_of_lt h2)
  · by_cases s1 : A.size h < B.size h
    · rw [if_pos s1, if_neg (by omega), if_pos s1]
    · by_cases s1' : A.size h > B.size h
      · rw [if_neg s1, if_pos s1', if_pos s1']
        rfl
      · rw [if_neg s1, if_neg s1', if_neg (by omega), if_neg (by omega)]
        have e : B.size h = A.size h := by omega
        rw [e]
        exact firstDifference_neg _ _ _ _
  · intro h1 h2
    by_cases s1 : A.size h < B.size h
    · rw [if_pos s1] at h1; exact absurd h1 (by decide)
    · by_cases s1' : A.size h > B.size h
      · rw [if_neg s1, if_pos s1'] at h1; exact absurd h1 (by decide)
      · rw [if_neg s1, if_neg s1'] at h1
        by_cases s2 : B.size h < C.size h
        · rw [if_pos s2] at h2; exact absurd h2 (by decide)
        · by_cases s3 : B.size h > C.size h
          · rw [if_neg s2, if_pos s3] at h2; exact absurd h2 (by decide)
          · rw [if_neg s2, if_neg s3] at h2
            rw [if_neg (by omega), if_neg (by omega)]
            have e : B.size h = A.size h := by omega
            rw [e] at h2
            rw [firstDifference_eq_zero_iff] at h1 h2 ⊢
            intro k hk
            rw [h1 k hk, h2 k hk]
  · unfold Buffer.lt Outcome.test; rw [eAB]
  · unfold Buffer.eq Outcome.test; rw [eAB]
  · unfold Buffer.gt Outcome.test; rw [eAB]
  · unfold Buffer.ne Outcome.test; rw [eAB]
  · unfold Buffer.ge Outcome.test; rw [eAB]
  · unfold Buffer.le Outcome.test; rw [eAB]
  · omega

/-- Witness for C10 on the data of the test section "comparisons". -/
theorem Buffer.compare_strict_weak_order_witness :
    Example.comparisons.live ⟨some 0⟩ ∧ Example.comparisons.live ⟨some 1⟩ ∧
    Example.comparisons.live ⟨some 2⟩ ∧
    ∃ ab bc ac : Int,
      Buffer.compare Example.comparisons ⟨some 0⟩ ⟨some 1⟩ = .ok ab Example.comparisons ∧
      Buffer.compare Example.comparisons ⟨some 1⟩ ⟨some 2⟩ = .ok bc Example.comparisons ∧
      Buffer.compare Example.comparisons ⟨some 0⟩ ⟨some 2⟩ = .ok ac Example.comparisons ∧
      (ab < 0 → bc < 0 → ac < 0) :=
  ⟨by decide, by decide, by decide, by
    obtain ⟨_, ab, _, bc, ac, _, e1, _, e2, e3, _, ht, _⟩ :=
      Buffer.compare_strict_weak_order Example.comparisons ⟨some 0⟩ ⟨some 1⟩ ⟨some 2⟩
        (by decide) (by decide) (by decide)
    exact ⟨ab, bc, ac, e1, e2, e3, ht⟩⟩

/-! ## Memory -/

theorem readBytes_length (mem : Nat → Byte) (a n : Nat) : (readBytes mem a n).length = n := by
  simp [readBytes]

theorem readBytes_congr (mem mem' : Nat → Byte) (a a' n : Nat)
    (hh : ∀ i, i < n → mem (a + i) = mem' (a' + i)) :
    readBytes mem a n = readBytes mem' a' n := by
  unfold readBytes
  apply List.map_congr_left
  intro i hi
  exact hh i (List.mem_range.mp hi)

theorem readBytes_append (mem : Nat → Byte) (a n m : Nat) :
    readBytes mem a (n + m) = readBytes mem a n ++ readBytes mem (a + n) m := by
  unfold readBytes
  rw [List.range_add, List.map_append, List.map_map]
  congr 1
  apply List.map_congr_left
  intro i _
  simp [Nat.add_assoc]

theorem readBytes_take (mem : Nat → Byte) (a n k : Nat) (hk : k ≤ n) :
    (readBytes mem a n).take k = readBytes mem a k := by
  obtain ⟨d, rfl⟩ : ∃ d, n = k + d := ⟨n - k, by omega⟩
  rw [readBytes_append, List.take_left' (readBytes_length _ _ _)]

theorem readBytes_drop (mem : Nat → Byte) (a n k : Nat) (hk : k ≤ n) :
    (readBytes mem a n).drop k = readBytes mem (a + k) (n - k) := by
  obtain ⟨d, rfl⟩ : ∃ d, n = k + d := ⟨n - k, by omega⟩
  rw [readBytes_append, List.drop_left' (readBytes_length _ _ _)]
  congr 1; omega

theorem reverseCopyLoop_apply (dst src : Nat) :
    ∀ (n i j : Nat) (mem : Nat → Byte) (a : Nat), (n ≠ 0 → src + j < dst) →
      reverseCopyLoop dst src n i j mem a =
        if dst + i ≤ a ∧ a < dst + i + n then mem (src + (j - (a - (dst + i)))) else mem a := by
  intro n
  induction n with
  | zero =>
    intro i j mem a _
    rw [reverseCopyLoop, if_neg (by omega)]
  | succ n ih =>
    intro i j mem a hsep
    have hj : src + j < dst := hsep (by omega)
    rw [reverseCopyLoop, ih (i + 1) (j - 1) _ a (by intro; omega)]
    split_ifs with h1 h2 h3 h4 h5
    all_goals first
      | rfl
      | (exfalso; omega)
      | (congr 2; omega)

theorem reverseSwapLoop_apply (address : Nat) :
    ∀ (n i j : Nat) (mem : Nat → Byte) (a : Nat), i + 2 * n ≤ j + 1 →
      reverseSwapLoop address n i j mem a =
        if (address + i ≤ a ∧ a < address + i + n) ∨ (address + j < a + n ∧ a ≤ address + j)
        then mem (address + (i + j - (a - address))) else mem a := by
  intro n
  induction n with
  | zero =>
    intro i j mem a _
    rw [reverseSwapLoop, if_neg (by omega)]
  | succ n ih =>
    intro i j mem a hij
    rw [reverseSwapLoop]
    simp only
    rw [ih (i + 1) (j - 1) _ a (by omega)]
    split_ifs with h1 h2 h3 h4 h5 h6 h7 h8
    all_goals first
      | rfl
      | (exfalso; omega)
      | (congr 2; omega)

/-! ## Construction -/

theorem Buffer.sized_ok (h : Heap) (m : BufferManager) (size : Nat)
    (hmem : m.flags.memory = true) (halloc : m.alloc = .heapNew)
    (hs : size ≤ BufferCore.max_size) :
    Buffer.sized h m size = .ok ⟨some h.nextCore⟩ (h.afterSized m size) := by
  unfold Buffer.sized Heap.afterSized
  have hs' : size % 4294967296 = size := Nat.mod_eq_of_lt (by unfold BufferCore.max_size at hs; omega)
  by_cases h0 : size = 0
  · subst h0
    simp [hmem, BufferCore.create]
  · have hgt : ¬ size > BufferCore.max_size := by omega
    simp [hmem, h0, BufferCore.create, BufferCore.tryAllocate, BufferCore.tryAllocateRaw,
      halloc, AllocateFunction.call, Heap.setCore, hgt, hs']
    funext q
    split_ifs <;> rfl

theorem Heap.afterSized_cell_new (h : Heap) (m : BufferManager) (size : Nat) :
    (h.afterSized m size).cell ⟨some h.nextCore⟩ =
      some ⟨1, 0, size, if size = 0 then 0 else h.brk + 1, m⟩ := by
  simp [Heap.afterSized, Heap.cell]

theorem Heap.afterSized_cores_old (h : Heap) (m : BufferManager) (size p : Nat)
    (hp : p < h.nextCore) :
    (h.afterSized m size).cores p = h.cores p := by
  simp only [Heap.afterSized]
  rw [if_neg (by omega)]

/-! ## Reversal -/

theorem reverse_mem (mem : Nat → Byte) (dst src size start end_ : Nat)
    (hse : start ≤ end_) (hes : end_ ≤ size) (hsep : size ≠ 0 → src + size ≤ dst) (a : Nat) :
    reverseCopyLoop dst src (end_ - start) start (end_ - 1)
        (BUFFER_COPY (BUFFER_COPY mem dst src start) (dst + end_) (src + end_) (size - end_)) a =
      if dst ≤ a ∧ a < dst + size then
        (if start ≤ a - dst ∧ a - dst < end_ then mem (src + (start + end_ - 1 - (a - dst)))
         else mem (src + (a - dst)))
      else mem a := by
  rw [reverseCopyLoop_apply dst src _ _ _ _ a (by intro hn; have := hsep (by omega); omega)]
  unfold BUFFER_COPY BUFFER_MOVE
  by_cases hz : size = 0
  · have e1 : end_ = 0 := by omega
    have e2 : start = 0 := by omega
    subst hz e1 e2
    split_ifs
    all_goals first
      | rfl
      | (exfalso; omega)
  have hsep' := hsep hz
  split_ifs
  all_goals first
    | rfl
    | (exfalso; omega)
    | (congr 1; omega)

theorem Buffer.reverse_ok (h : Heap) (X : Buffer) (p : Nat) (c : BufferCore)
    (hp : X.m_core = some p) (hcp : h.cores p = some c) (hwf : h.wfCore p c)
    (start end_ : Nat) (hse : start ≤ end_) (hes : end_ ≤ c.m_size)
    (im : Option BufferManager) (m : BufferManager) (hres : X.resolve h im = some m)
    (hmem : m.flags.memory = true) (halloc : m.alloc = .heapNew) :
    ∃ h', X.reverse h start end_ im = .ok ⟨some h.nextCore⟩ h' ∧
      h'.cores = (h.afterSized m c.m_size).cores ∧
      h'.brk = (h.afterSized m c.m_size).brk ∧
      h'.nextCore = h.nextCore + 1 ∧
      ∀ a, h'.mem a =
        if h.brk + 1 ≤ a ∧ a < h.brk + 1 + c.m_size then
          (if start ≤ a - (h.brk + 1) ∧ a - (h.brk + 1) < end_ then
            h.mem (c.m_address + (start + end_ - 1 - (a - (h.brk + 1))))
           else h.mem (c.m_address + (a - (h.brk + 1))))
        else h.mem a := by
  obtain ⟨hpn, hblk, hsz, -⟩ := hwf
  have hsize : X.size h = c.m_size := by simp [Buffer.size, Heap.cell, hp, hcp]
  have hcell : h.cell X = some c := by simp [Heap.cell, hp, hcp]
  have hcell1 : (h.afterSized m c.m_size).cell X = some c := by
    simp only [Heap.cell, hp]
    rw [Heap.afterSized_cores_old h m _ p hpn, hcp]
  unfold Buffer.reverse
  rw [if_neg (by omega), hres]
  simp only [hcell]
  rw [Buffer.sized_ok h m c.m_size hmem halloc hsz]
  simp only [Heap.afterSized_cell_new, hcell1]
  refine ⟨_, rfl, rfl, rfl, rfl, ?_⟩
  intro a
  simp only [Heap.withMem]
  by_cases h0 : c.m_size = 0
  · have e1 : end_ = 0 := by omega
    have e2 : start = 0 := by omega
    subst e1 e2
    simp only [h0, reverseCopyLoop, BUFFER_COPY, BUFFER_MOVE, Heap.afterSized]
    split_ifs
    all_goals first
      | rfl
      | (exfalso; omega)
  · rw [if_neg h0]
    exact reverse_mem _ _ _ _ _ _ hse hes (by intro _; omega) a


theorem Heap.valid_some (h : Heap) (X : Buffer) (p : Nat) (hX : h.valid X)
    (hp : X.m_core = some p) : ∃ c, h.cores p = some c ∧ h.wfCore p c := by
  unfold Heap.valid at hX
  rw [hp] at hX
  simp only at hX
  cases hc : h.cores p with
  | none => rw [hc] at hX; exact absurd hX (by simp)
  | some c => rw [hc] at hX; exact ⟨c, rfl, hX⟩

theorem Heap.valid_cell (h : Heap) (X : Buffer) (hX : h.valid X) (hc : X.m_core ≠ none) :
    ∃ p c, X.m_core = some p ∧ h.cores p = some c ∧ h.wfCore p c := by
  cases hp : X.m_core with
  | none => exact absurd hp hc
  | some p =>
    obtain ⟨c, h1, h2⟩ := Heap.valid_some h X p hX hp
    exact ⟨p, c, rfl, h1, h2⟩

theorem Heap.live_of_valid (h : Heap) (X : Buffer) (hX : h.valid X) : h.live X := by
  unfold Heap.live
  cases hp : X.m_core with
  | none => simp
  | some p =>
    obtain ⟨c, h1, _⟩ := Heap.valid_some h X p hX hp
    simp [h1]

/-- C5. For a valid buffer `X` with a cell: when `start <= end <= size`, the copying
`reverse(start, end, heapManager)` returns a buffer `R` of the size of `X` with
`R[i] = X[i]` outside `[start, end)` and `R[i] = X[start + end - 1 - i]` inside;
when `start > end` or `end > size` it throws the invalid-range error. -/
theorem Buffer.reverse_range (h : Heap) (X : Buffer) (start end_ : Nat)
    (hX : h.valid X) (hc : X.m_core ≠ none) :
    (start ≤ end_ → end_ ≤ X.size h →
      ∃ R h', X.reverse h start end_ (some Buffer.heapManager) = .ok R h' ∧
        R.size h' = X.size h ∧
        ∀ i, i < X.size h →
          R.at h' i = .ok (if start ≤ i ∧ i < end_ then X.byte h (start + end_ - 1 - i)
                           else X.byte h i) h') ∧
    (start > end_ ∨ end_ > X.size h →
      X.reverse h start end_ (some Buffer.heapManager) = .threw .invalid_range h) := by
  obtain ⟨p, c, hp, hcp, hwf⟩ := Heap.valid_cell h X hX hc
  have hsize : X.size h = c.m_size := by simp [Buffer.size, Heap.cell, hp, hcp]
  have hdata : X.data h = c.m_address := by simp [Buffer.data, Heap.cell, hp, hcp]
  constructor
  · intro hse hes
    rw [hsize] at hes
    obtain ⟨h', hrev, hcores, -, -, hmem⟩ :=
      Buffer.reverse_ok h X p c hp hcp hwf start end_ hse hes (some Buffer.heapManager)
        Buffer.heapManager rfl rfl rfl
    have hnew : h'.cores h.nextCore =
        some ⟨1, 0, c.m_size, if c.m_size = 0 then 0 else h.brk + 1, Buffer.heapManager⟩ := by
      rw [hcores]; simp [Heap.afterSized]
    refine ⟨_, h', hrev, ?_, ?_⟩
    · simp [Buffer.size, Heap.cell, hnew, hp, hcp]
    · intro i hi
      rw [hsize] at hi
      unfold Buffer.at Buffer.byte
      simp only [hnew, hdata]
      rw [if_neg (by omega), if_neg (by omega), hmem, if_pos (by omega)]
      have e : h.brk + 1 + i - (h.brk + 1) = i := by omega
      rw [e]
  · intro hbad
    unfold Buffer.reverse
    rw [if_pos (by omega)]


/-- Witness for C5 on the data of the test section "reverse": `reverse(1, 4)` of
`01 23 45 67 89 AB` is `01 67 45 23 89 AB`. -/
theorem Buffer.reverse_range_witness :
    Example.reverseData.valid ⟨some 0⟩ ∧ (⟨some 0⟩ : Buffer).m_core ≠ none ∧
    1 ≤ 4 ∧ 4 ≤ Buffer.size Example.reverseData ⟨some 0⟩ ∧
    ∃ R h', Buffer.reverse Example.reverseData ⟨some 0⟩ 1 4 (some Buffer.heapManager)
        = .ok R h' ∧ R.size h' = 6 ∧
      ∀ i, i < 6 → R.at h' i = .ok ([0x01, 0x67, 0x45, 0x23, 0x89, 0xAB].getD i 0) h' := by
  refine ⟨by decide, by decide, by decide, by decide, ?_⟩
  obtain ⟨R, h', hr, hs, hat⟩ :=
    (Buffer.reverse_range Example.reverseData ⟨some 0⟩ 1 4 (by decide) (by decide)).1
      (by decide) (by decide)
  refine ⟨R, h', hr, hs, ?_⟩
  intro i hi
  rw [hat i hi]
  congr 1
  interval_cases i <;> rfl


/-- C4. For a valid buffer `X` with a cell, `reverse(heapManager)` applied twice
(the second call with `heapManager` or, as in the test, with no manager
argument) returns a buffer that compares equal to `X`. -/
theorem Buffer.reverse_reverse (h : Heap) (X : Buffer) (im : Option BufferManager)
    (hX : h.valid X) (hc : X.m_core ≠ none)
    (him : im = none ∨ im = some Buffer.heapManager) :
    ∃ R1 h1 R2 h2, X.reverseAll h (some Buffer.heapManager) = .ok R1 h1 ∧
      R1.reverseAll h1 im = .ok R2 h2 ∧
      R2.compare h2 X = .ok 0 h2 ∧ R2.eq h2 X = .ok true h2 := by
  obtain ⟨p, c, hp, hcp, hwf⟩ := Heap.valid_cell h X hX hc
  have hwf' := hwf
  obtain ⟨hpn, hblk, hsz, hpre⟩ := hwf'
  have hsize : X.size h = c.m_size := by simp [Buffer.size, Heap.cell, hp, hcp]
  obtain ⟨h1, hrev1, hcores1, hbrk1, hnext1, hmem1⟩ :=
    Buffer.reverse_ok h X p c hp hcp hwf 0 c.m_size (by omega) (le_refl _)
      (some Buffer.heapManager) Buffer.heapManager rfl rfl rfl
  have hc1 : h1.cores h.nextCore =
      some ⟨1, 0, c.m_size, if c.m_size = 0 then 0 else h.brk + 1, Buffer.heapManager⟩ := by
    rw [hcores1]; simp [Heap.afterSized]
  have hbrk1' : h1.brk = if c.m_size = 0 then h.brk else h.brk + 1 + c.m_size := by
    rw [hbrk1]; rfl
  have hwf1 : h1.wfCore h.nextCore
      ⟨1, 0, c.m_size, if c.m_size = 0 then 0 else h.brk + 1, Buffer.heapManager⟩ := by
    unfold Heap.wfCore
    dsimp only
    refine ⟨by omega, ?_, hsz, by unfold BufferCore.max_preall; omega⟩
    simp only [hbrk1']
    split_ifs <;> omega
  have hsize1 : Buffer.size h1 ⟨some h.nextCore⟩ = c.m_size := by
    simp [Buffer.size, Heap.cell, hc1]
  have hres1 : Buffer.resolve h1 ⟨some h.nextCore⟩ im = some Buffer.heapManager := by
    rcases him with rfl | rfl
    · simp [Buffer.resolve, Buffer.manager, Heap.cell, hc1]
    · rfl
  obtain ⟨h2, hrev2, hcores2, -, -, hmem2⟩ :=
    Buffer.reverse_ok h1 ⟨some h.nextCore⟩ h.nextCore _ rfl hc1 hwf1 0 c.m_size (by omega)
      (le_refl _) im Buffer.heapManager hres1 rfl rfl
  dsimp only at hmem2 hcores2
  have hc2 : h2.cores h1.nextCore =
      some ⟨1, 0, c.m_size, if c.m_size = 0 then 0 else h1.brk + 1, Buffer.heapManager⟩ := by
    rw [hcores2]; simp [Heap.afterSized]
  have hcX1 : h1.cores p = some c := by
    rw [hcores1, Heap.afterSized_cores_old h _ _ p hpn, hcp]
  have hcX2 : h2.cores p = some c := by
    rw [hcores2, Heap.afterSized_cores_old h1 _ _ p (by omega), hcX1]
  have hlive2 : h2.live ⟨some h1.nextCore⟩ := by simp [Heap.live, hc2]
  have hliveX : h2.live X := by simp [Heap.live, hp, hcX2]
  have hsR2 : Buffer.size h2 ⟨some h1.nextCore⟩ = c.m_size := by
    simp [Buffer.size, Heap.cell, hc2]
  have hsX2 : X.size h2 = c.m_size := by simp [Buffer.size, Heap.cell, hp, hcX2]
  have hcmp : Buffer.compare h2 ⟨some h1.nextCore⟩ X = .ok 0 h2 := by
    rw [Buffer.compare_eq h2 _ X hlive2 hliveX, hsR2, hsX2, if_neg (lt_irrefl _),
      if_neg (lt_irrefl _)]
    congr 1
    rw [firstDifference_eq_zero_iff]
    intro k hk
    have hne : c.m_size ≠ 0 := by omega
    simp only [Buffer.byte, Buffer.data, Heap.cell, hc2, hp, hcX2, Nat.zero_add, if_neg hne]
    rw [hmem2 (h1.brk + 1 + k), if_pos (by omega), if_pos (by omega)]
    simp only [if_neg hne]
    rw [hmem1, if_pos (by omega), if_pos (by omega)]
    rw [hmem2 (c.m_address + k), if_neg (by rw [hbrk1', if_neg hne]; omega)]
    rw [hmem1 (c.m_address + k), if_neg (by omega)]
    congr 1
    rw [hbrk1', if_neg hne]
    omega
  refine ⟨⟨some h.nextCore⟩, h1, ⟨some h1.nextCore⟩, h2, ?_, ?_, hcmp, ?_⟩
  · unfold Buffer.reverseAll; rw [hsize]; exact hrev1
  · unfold Buffer.reverseAll; rw [hsize1]; exact hrev2
  · unfold Buffer.eq; rw [hcmp]; rfl

/-- Witness for C4 on the buffer of the test section "reverse". -/
theorem Buffer.reverse_reverse_witness :
    Example.reverseData.valid ⟨some 0⟩ ∧ (⟨some 0⟩ : Buffer).m_core ≠ none ∧
    ∃ R1 h1 R2 h2,
      Buffer.reverseAll Example.reverseData ⟨some 0⟩ (some Buffer.heapManager) = .ok R1 h1 ∧
      R1.reverseAll h1 none = .ok R2 h2 ∧
      R2.compare h2 ⟨some 0⟩ = .ok 0 h2 ∧ R2.eq h2 ⟨some 0⟩ = .ok true h2 :=
  ⟨by decide, by decide,
    Buffer.reverse_reverse Example.reverseData ⟨some 0⟩ none (by decide) (by decide)
      (Or.inl rfl)⟩


/-! ## Insertion -/

theorem BUFFER_COPY_zero (mem : Nat → Byte) (d s : Nat) : BUFFER_COPY mem d s 0 = mem := by
  funext a
  unfold BUFFER_COPY BUFFER_MOVE
  rw [if_neg (by omega)]

theorem Heap.valid_block (h : Heap) (X : Buffer) (hX : h.valid X) :
    X.data h + X.size h ≤ h.brk ∧ X.size h ≤ BufferCore.max_size := by
  cases hp : X.m_core with
  | none => simp [Buffer.data, Buffer.size, Heap.cell, hp]
  | some p =>
    obtain ⟨c, hc, -, h2, h3, -⟩ := Heap.valid_some h X p hX hp
    simp only [Buffer.data, Buffer.size, Heap.cell, hp, hc]
    exact ⟨by omega, h3⟩

theorem Heap.afterSized_cell_old (h : Heap) (m : BufferManager) (size : Nat) (X : Buffer)
    (hX : h.valid X) : (h.afterSized m size).cell X = h.cell X := by
  cases hp : X.m_core with
  | none => simp [Heap.cell, hp]
  | some p =>
    obtain ⟨c, hc, h1, -⟩ := Heap.valid_some h X p hX hp
    simp only [Heap.cell, hp]
    exact Heap.afterSized_cores_old h m size p h1

theorem Buffer.size_congr (h1 h2 : Heap) (X : Buffer) (hc : h1.cell X = h2.cell X) :
    X.size h1 = X.size h2 := by
  unfold Buffer.size; rw [hc]

theorem Buffer.data_congr (h1 h2 : Heap) (X : Buffer) (hc : h1.cell X = h2.cell X) :
    X.data h1 = X.data h2 := by
  unfold Buffer.data; rw [hc]

theorem Buffer.insert_ok (h : Heap) (X V : Buffer) (index : Nat)
    (im : Option BufferManager) (m : BufferManager)
    (hX : h.valid X) (hV : h.valid V) (hidx : index ≤ X.size h)
    (hres : X.resolve h im = some m) (hmem : m.flags.memory = true)
    (halloc : m.alloc = .heapNew) (hsum : X.size h + V.size h ≤ BufferCore.max_size) :
    ∃ h', X.insert h index V im = .ok ⟨some h.nextCore⟩ h' ∧
      h'.cores = (h.afterSized m (X.size h + V.size h)).cores ∧
      h'.brk = (h.afterSized m (X.size h + V.size h)).brk ∧
      h'.nextCore = h.nextCore + 1 ∧
      h'.mem =
        BUFFER_COPY
          (BUFFER_COPY
            (BUFFER_COPY h.mem (if X.size h + V.size h = 0 then 0 else h.brk + 1)
              (X.data h) index)
            ((if X.size h + V.size h = 0 then 0 else h.brk + 1) + index + V.size h)
            (X.data h + index) (X.size h - index))
          ((if X.size h + V.size h = 0 then 0 else h.brk + 1) + index) (V.data h)
          (V.size h) := by
  have hcX := Heap.afterSized_cell_old h m (X.size h + V.size h) X hX
  have hcV := Heap.afterSized_cell_old h m (X.size h + V.size h) V hV
  have hsX : X.size (h.afterSized m (X.size h + V.size h)) = X.size h :=
    Buffer.size_congr _ _ X hcX
  have hsV : V.size (h.afterSized m (X.size h + V.size h)) = V.size h :=
    Buffer.size_congr _ _ V hcV
  unfold Buffer.insert
  rw [if_neg (by omega), hres]
  simp only
  rw [Buffer.sized_ok h m _ hmem halloc hsum]
  simp only [Heap.afterSized_cell_new, hsX, hsV]
  cases hp : X.m_core with
  | none =>
    have hx0 : X.size h = 0 := Buffer.size_eq_zero_of_null h X hp
    have hi0 : index = 0 := by omega
    subst hi0
    simp only [hx0, BUFFER_COPY_zero, Nat.sub_zero, Nat.zero_add, Nat.add_zero]
    cases hq : V.m_core with
    | none =>
      have hv0 : V.size h = 0 := Buffer.size_eq_zero_of_null h V hq
      simp only [hv0, BUFFER_COPY_zero]
      exact ⟨_, rfl, rfl, rfl, rfl, rfl⟩
    | some q =>
      obtain ⟨v, hv, hvn, -⟩ := Heap.valid_some h V q hV hq
      have hv1 : (h.afterSized m (V.size h)).cores q = some v := by
        rw [Heap.afterSized_cores_old h m _ q hvn, hv]
      have hdV : V.data h = v.m_address := by simp [Buffer.data, Heap.cell, hq, hv]
      simp only [hv1, hdV]
      exact ⟨_, rfl, rfl, rfl, rfl, rfl⟩
  | some p =>
    obtain ⟨c, hc, hpn, -⟩ := Heap.valid_some h X p hX hp
    have hc1 : (h.afterSized m (X.size h + V.size h)).cores p = some c := by
      rw [Heap.afterSized_cores_old h m _ p hpn, hc]
    have hdX : X.data h = c.m_address := by simp [Buffer.data, Heap.cell, hp, hc]
    simp only [hc1, hdX]
    cases hq : V.m_core with
    | none =>
      have hv0 : V.size h = 0 := Buffer.size_eq_zero_of_null h V hq
      simp only [hv0, BUFFER_COPY_zero]
      exact ⟨_, rfl, rfl, rfl, rfl, rfl⟩
    | some q =>
      obtain ⟨v, hv, hvn, -⟩ := Heap.valid_some h V q hV hq
      have hv1 : (h.afterSized m (X.size h + V.size h)).cores q = some v := by
        rw [Heap.afterSized_cores_old h m _ q hvn, hv]
      have hdV : V.data h = v.m_address := by simp [Buffer.data, Heap.cell, hq, hv]
      simp only [hv1, hdV]
      exact ⟨_, rfl, rfl, rfl, rfl, rfl⟩

theorem insert_mem (mem : Nat → Byte) (dst xd sx vd sv index : Nat)
    (hidx : index ≤ sx) (hx : xd + sx < dst) (hv : vd + sv < dst) (a : Nat) :
    BUFFER_COPY (BUFFER_COPY (BUFFER_COPY mem dst xd index) (dst + index + sv) (xd + index)
        (sx - index)) (dst + index) vd sv a =
      if dst ≤ a ∧ a < dst + (sx + sv) then
        (if a - dst < index then mem (xd + (a - dst))
         else if a - dst < index + sv then mem (vd + (a - dst - index))
         else mem (xd + (a - dst - sv)))
      else mem a := by
  unfold BUFFER_COPY BUFFER_MOVE
  split_ifs
  all_goals first
    | rfl
    | (exfalso; omega)
    | (congr 1; omega)


theorem Buffer.insert_returns (h : Heap) (X V : Buffer) (index : Nat)
    (im : Option BufferManager) (m : BufferManager)
    (hX : h.valid X) (hV : h.valid V) (hidx : index ≤ X.size h)
    (hres : X.resolve h im = some m) (hmem : m.flags.memory = true)
    (halloc : m.alloc = .heapNew) (hsum : X.size h + V.size h ≤ BufferCore.max_size) :
    ∃ R h', X.insert h index V im = .ok R h' ∧
      R.size h' = X.size h + V.size h ∧ R.preallocated h' = 0 ∧
      R.bytes h' = (X.bytes h).take index ++ V.bytes h ++ (X.bytes h).drop index ∧
      h'.cell X = h.cell X ∧ h'.cell V = h.cell V ∧
      X.bytes h' = X.bytes h ∧ V.bytes h' = V.bytes h := by
  obtain ⟨h', hins, hcores, hbrk, hnext, hm⟩ :=
    Buffer.insert_ok h X V index im m hX hV hidx hres hmem halloc hsum
  obtain ⟨hbX, -⟩ := Heap.valid_block h X hX
  obtain ⟨hbV, -⟩ := Heap.valid_block h V hV
  have hnew : h'.cell ⟨some h.nextCore⟩ =
      some ⟨1, 0, X.size h + V.size h,
        if X.size h + V.size h = 0 then 0 else h.brk + 1, m⟩ := by
    simp only [Heap.cell, hcores]
    exact Heap.afterSized_cell_new h m _
  have hcX : h'.cell X = h.cell X := by
    rw [← Heap.afterSized_cell_old h m (X.size h + V.size h) X hX]
    simp only [Heap.cell, hcores]
  have hcV : h'.cell V = h.cell V := by
    rw [← Heap.afterSized_cell_old h m (X.size h + V.size h) V hV]
    simp only [Heap.cell, hcores]
  have hRs : Buffer.size h' ⟨some h.nextCore⟩ = X.size h + V.size h := by
    simp only [Buffer.size, hnew]
  have hRd : Buffer.data h' ⟨some h.nextCore⟩ =
      if X.size h + V.size h = 0 then 0 else h.brk + 1 := by
    simp only [Buffer.data, hnew]
  have hpt : X.size h + V.size h ≠ 0 → ∀ a, h'.mem a =
      if h.brk + 1 ≤ a ∧ a < h.brk + 1 + (X.size h + V.size h) then
        (if a - (h.brk + 1) < index then h.mem (X.data h + (a - (h.brk + 1)))
         else if a - (h.brk + 1) < index + V.size h then
           h.mem (V.data h + (a - (h.brk + 1) - index))
         else h.mem (X.data h + (a - (h.brk + 1) - V.size h)))
      else h.mem a := by
    intro hne a
    rw [hm, if_neg hne]
    exact insert_mem h.mem _ _ _ _ _ _ hidx (by omega) (by omega) a
  refine ⟨⟨some h.nextCore⟩, h', hins, hRs, ?_, ?_, hcX, hcV, ?_, ?_⟩
  · simp only [Buffer.preallocated, hnew]
  · unfold Buffer.bytes
    rw [hRs, hRd]
    by_cases h0 : X.size h + V.size h = 0
    · have hx0 : X.size h = 0 := by omega
      have hv0 : V.size h = 0 := by omega
      simp [h0, hx0, hv0, readBytes]
    · rw [if_neg h0]
      have e : X.size h + V.size h = index + (V.size h + (X.size h - index)) := by omega
      rw [readBytes_take _ _ _ _ hidx, readBytes_drop _ _ _ _ hidx, e, readBytes_append,
        readBytes_append, List.append_assoc]
      congr 1
      · apply readBytes_congr
        intro i hi
        rw [hpt h0, if_pos (by omega), if_pos (by omega)]
        congr 1; omega
      · congr 1
        · apply readBytes_congr
          intro i hi
          rw [hpt h0, if_pos (by omega), if_neg (by omega), if_pos (by omega)]
          congr 1; omega
        · apply readBytes_congr
          intro i hi
          rw [hpt h0, if_pos (by omega), if_neg (by omega), if_neg (by omega)]
          congr 1; omega
  · unfold Buffer.bytes
    rw [Buffer.size_congr _ _ X hcX, Buffer.data_congr _ _ X hcX]
    apply readBytes_congr
    intro i hi
    rw [hpt (by omega), if_neg (by omega)]
  · unfold Buffer.bytes
    rw [Buffer.size_congr _ _ V hcV, Buffer.data_congr _ _ V hcV]
    apply readBytes_congr
    intro i hi
    rw [hpt (by omega), if_neg (by omega)]

theorem Buffer.insert_overflow (h : Heap) (X V : Buffer) (index : Nat)
    (im : Option BufferManager) (m : BufferManager) (hidx : index ≤ X.size h)
    (hres : X.resolve h im = some m) (hmem : m.flags.memory = true)
    (hsum : X.size h + V.size h > BufferCore.max_size) :
    (X.insert h index V im).error? = some .buf_fail_alloc := by
  have hne : X.size h + V.size h ≠ 0 := by
    intro h0; rw [h0] at hsum; exact absurd hsum (by decide)
  unfold Buffer.insert
  rw [if_neg (by omega), hres]
  simp [Buffer.sized, hmem, hne, BufferCore.tryAllocate, BufferCore.tryAllocateRaw, hsum,
    Outcome.error?]

/-- C3 (amended). For valid buffers `X` and `V`, an index `<= X.size()` and a
resolved manager that can allocate (flag set, allocate function of `heapManager`):
when `X.size() + V.size()` is at most `2^32 - 1`, the copying `insert(index, V)`
returns a buffer of size `X.size() + V.size()` with `preallocated() == 0` and bytes
`X[0..index) ++ V ++ X[index..size)`, and leaves the cells and bytes of `X` and
`V` unchanged; when the sum exceeds `2^32 - 1` it throws the allocation-failed error. -/
theorem Buffer.insert_copy (h : Heap) (X V : Buffer) (index : Nat)
    (im : Option BufferManager) (m : BufferManager)
    (hX : h.valid X) (hV : h.valid V) (hidx : index ≤ X.size h)
    (hres : X.resolve h im = some m) (hmem : m.flags.memory = true)
    (halloc : m.alloc = .heapNew) :
    (X.size h + V.size h ≤ BufferCore.max_size →
      ∃ R h', X.insert h index V im = .ok R h' ∧
        R.size h' = X.size h + V.size h ∧ R.preallocated h' = 0 ∧
        R.bytes h' = (X.bytes h).take index ++ V.bytes h ++ (X.bytes h).drop index ∧
        h'.cell X = h.cell X ∧ h'.cell V = h.cell V ∧
        X.bytes h' = X.bytes h ∧ V.bytes h' = V.bytes h) ∧
    (X.size h + V.size h > BufferCore.max_size →
      (X.insert h index V im).error? = some .buf_fail_alloc) :=
  ⟨Buffer.insert_returns h X V index im m hX hV hidx hres hmem halloc,
   Buffer.insert_overflow h X V index im m hidx hres hmem⟩

/-- Witness for C3 on the data of the test section "insert": inserting
`01 02 03 04` at index 3 of `F0 E1 D2 C3 B4 A5 96 87`. -/
theorem Buffer.insert_copy_witness :
    Example.insertData.valid ⟨some 0⟩ ∧ Example.insertData.valid ⟨some 1⟩ ∧
    3 ≤ Buffer.size Example.insertData ⟨some 0⟩ ∧
    Buffer.resolve Example.insertData ⟨some 0⟩ none = some Buffer.heapManager ∧
    Buffer.size Example.insertData ⟨some 0⟩ + Buffer.size Example.insertData ⟨some 1⟩
      ≤ BufferCore.max_size ∧
    ∃ R h', Buffer.insert Example.insertData ⟨some 0⟩ 3 ⟨some 1⟩ none = .ok R h' ∧
      R.size h' = 12 ∧ R.preallocated h' = 0 ∧
      R.bytes h' = [0xF0, 0xE1, 0xD2, 0x01, 0x02, 0x03, 0x04, 0xC3, 0xB4, 0xA5, 0x96, 0x87] := by
  refine ⟨by decide, by decide, by decide, rfl, by decide, ?_⟩
  obtain ⟨R, h', hi, hs, hp, hb, -⟩ :=
    (Buffer.insert_copy Example.insertData ⟨some 0⟩ ⟨some 1⟩ 3 none Buffer.heapManager
      (by decide) (by decide) (by decide) rfl rfl rfl).1 (by decide)
  exact ⟨R, h', hi, hs.trans (by decide), hp, hb.trans (by decide)⟩

/-- Counterexample to C3 as stated: `X` is a static buffer of `2^32 - 1` bytes, `V`
a static buffer of one byte, the manager is `heapManager` and the index is 0
(`<= X.size()`); `insert` returns no buffer, it throws the allocation-failed error. -/
theorem Buffer.insert_copy_counterexample :
    Example.hugeData.valid ⟨some 0⟩ ∧ Example.hugeData.valid ⟨some 1⟩ ∧
    0 ≤ Buffer.size Example.hugeData ⟨some 0⟩ ∧
    Buffer.heapManager.flags.memory = true ∧
    (Buffer.insert Example.hugeData ⟨some 0⟩ 0 ⟨some 1⟩ (some Buffer.heapManager)).value?
      = none ∧
    (Buffer.insert Example.hugeData ⟨some 0⟩ 0 ⟨some 1⟩ (some Buffer.heapManager)).error?
      = some .buf_fail_alloc := by
  refine ⟨by decide, by decide, by decide, rfl, ?_, ?_⟩
  · rfl
  · rfl


/-! ## Erasure -/

/-- C2 (defect in `Buffer::erase`). For the static buffer `01 02 03`,
`erase(1, 2, heapManager)` returns two bytes that start with `03` (the second byte
is whatever the new block held, here `00`): the second `BUFFER_COPY` writes the
tail `X[end..size)` at offset 0 of the result instead of offset `start`, so the
prefix `X[0..start)` is overwritten; the specified result is `01 03`. -/
theorem Buffer.erase_overwrites_prefix :
    Example.eraseData.valid ⟨some 0⟩ ∧
    Buffer.bytes Example.eraseData ⟨some 0⟩ = [0x01, 0x02, 0x03] ∧
    (Buffer.erase Example.eraseData ⟨some 0⟩ 1 2 (some Buffer.heapManager)).bytes?
      = some [0x03, 0x00] ∧
    (Buffer.bytes Example.eraseData ⟨some 0⟩).take 1 ++
      (Buffer.bytes Example.eraseData ⟨some 0⟩).drop 2 = [0x01, 0x03] := by
  refine ⟨by decide, by decide, by decide, by decide⟩

/-- C1 (same defect in `Buffer::erase`). For `X = 01 02`, `V = 09` and `start = 1`,
`insert(X, 1, V)` is `01 09 02`, and `erase` of `[1, 2)` from it returns a buffer
that starts with `02`; compared with `X` it gives `1`, not `0`. -/
theorem Buffer.erase_insert_not_equal :
    Example.eraseInsertData.valid ⟨some 0⟩ ∧ Example.eraseInsertData.valid ⟨some 1⟩ ∧
    (Buffer.insert Example.eraseInsertData ⟨some 0⟩ 1 ⟨some 1⟩
      (some Buffer.heapManager)).bytes? = some [0x01, 0x09, 0x02] ∧
    ((Buffer.insert Example.eraseInsertData ⟨some 0⟩ 1 ⟨some 1⟩
        (some Buffer.heapManager)).bind fun I h1 =>
      Buffer.erase h1 I 1 (1 + Buffer.size h1 ⟨some 1⟩) (some Buffer.heapManager)).bytes?
      = some [0x02, 0x00] ∧
    (((Buffer.insert Example.eraseInsertData ⟨some 0⟩ 1 ⟨some 1⟩
        (some Buffer.heapManager)).bind fun I h1 =>
      Buffer.erase h1 I 1 (1 + Buffer.size h1 ⟨some 1⟩) (some Buffer.heapManager)).bind
        fun E h2 => Buffer.compare h2 E ⟨some 0⟩).value? = some 1 := by
  refine ⟨by decide, by decide, by decide, by decide, by decide⟩

/-- C7 (defect in the reallocating branch of `Buffer::selfErase`). For the heap
buffer `01 02 03 04` whose cell is shared by two handles, `selfErase(1, 2)` leaves
three bytes that start with `03 04`: the tail is copied to offset 0 of the new
cell instead of offset `start`; the specified result is `01 03 04`. -/
theorem Buffer.selfErase_shared_overwrites_prefix :
    Example.sharedData.valid ⟨some 0⟩ ∧
    Buffer.bytes Example.sharedData ⟨some 0⟩ = [0x01, 0x02, 0x03, 0x04] ∧
    selfBytes? (Buffer.selfErase Example.sharedData ⟨some 0⟩ 1 2) = some [0x03, 0x04, 0x00] := by
  refine ⟨by decide, by decide, by decide⟩

/-- C8 (defect in the shared branch of `Buffer::selfReverse`). For the heap buffer
`01 02 03 04` whose cell is shared by two handles, `selfReverse(0, 1)` leaves
`04 03 02 01`: the branch reverses `[0, size)` whatever `start` and `end` are,
while the copying `reverse(0, 1)` returns `01 02 03 04`. -/
theorem Buffer.selfReverse_shared_ignores_range :
    Example.sharedData.valid ⟨some 0⟩ ∧
    selfBytes? (Buffer.selfReverse Example.sharedData ⟨some 0⟩ 0 1)
      = some [0x04, 0x03, 0x02, 0x01] ∧
    (Buffer.reverse Example.sharedData ⟨some 0⟩ 0 1 none).bytes?
      = some [0x01, 0x02, 0x03, 0x04] := by
  refine ⟨by decide, by decide, by decide⟩


/-! ## In-place insertion -/

theorem BufferCore.create_fst (h : Heap) (m : BufferManager) (a b c : Nat) :
    (BufferCore.create h m a b c).1 = h.nextCore := rfl

theorem BufferCore.tryAllocate_create_fst (h : Heap) (m : BufferManager) (bytes : Nat)
    (hmem : m.flags.memory = true) (halloc : m.alloc = .heapNew)
    (hb : bytes ≤ BufferCore.max_size) :
    (BufferCore.tryAllocate (BufferCore.create h m 0 0 0).2 ⟨1, 0, 0, 0, m⟩ bytes).1 = true := by
  have hgt : ¬ bytes > BufferCore.max_size := by omega
  simp [BufferCore.tryAllocate, BufferCore.tryAllocateRaw, hmem, halloc, hgt,
    AllocateFunction.call, BufferCore.create]

theorem BufferCore.tryAllocate_create_core (h : Heap) (m : BufferManager) (bytes : Nat)
    (hmem : m.flags.memory = true) (halloc : m.alloc = .heapNew)
    (hb : bytes ≤ BufferCore.max_size) :
    (BufferCore.tryAllocate (BufferCore.create h m 0 0 0).2 ⟨1, 0, 0, 0, m⟩ bytes).2.1 =
      ⟨1, 0, bytes, h.brk + 1, m⟩ := by
  have hgt : ¬ bytes > BufferCore.max_size := by omega
  have hs' : bytes % 4294967296 = bytes :=
    Nat.mod_eq_of_lt (by unfold BufferCore.max_size at hb; omega)
  simp [BufferCore.tryAllocate, BufferCore.tryAllocateRaw, hmem, halloc, hgt,
    AllocateFunction.call, BufferCore.create, hs']

theorem BufferCore.tryAllocate_create_heap (h : Heap) (m : BufferManager) (bytes : Nat)
    (hmem : m.flags.memory = true) (halloc : m.alloc = .heapNew)
    (hb : bytes ≤ BufferCore.max_size) :
    (BufferCore.tryAllocate (BufferCore.create h m 0 0 0).2 ⟨1, 0, 0, 0, m⟩ bytes).2.2.setCore
        h.nextCore (some ⟨1, 0, bytes, h.brk + 1, m⟩) = h.afterAlloc m bytes := by
  have hgt : ¬ bytes > BufferCore.max_size := by omega
  simp [BufferCore.tryAllocate, BufferCore.tryAllocateRaw, hmem, halloc, hgt,
    AllocateFunction.call, BufferCore.create, Heap.setCore, Heap.afterAlloc]
  funext q
  split_ifs <;> rfl

theorem Heap.afterAlloc_cores_old (h : Heap) (m : BufferManager) (bytes p : Nat)
    (hp : p < h.nextCore) : (h.afterAlloc m bytes).cores p = h.cores p := by
  simp only [Heap.afterAlloc]
  rw [if_neg (by omega)]

theorem Heap.afterAlloc_cores_new (h : Heap) (m : BufferManager) (bytes : Nat) :
    (h.afterAlloc m bytes).cores h.nextCore = some ⟨1, 0, bytes, h.brk + 1, m⟩ := by
  simp [Heap.afterAlloc]


theorem Heap.cell_some (h : Heap) (X : Buffer) (c : BufferCore) (hc : h.cell X = some c) :
    ∃ p, X.m_core = some p ∧ h.cores p = some c := by
  unfold Heap.cell at hc
  cases hp : X.m_core with
  | none => rw [hp] at hc; exact absurd hc (by simp)
  | some p => rw [hp] at hc; exact ⟨p, rfl, hc⟩

/-- C18. The sized constructor `Buffer(manager, n)` throws the no-allocation error
when the manager lacks `canAllocate`; for a manager that can allocate (flag set,
allocate function returning storage as `heapManager`'s) and `n <= 2^32 - 1` it
returns a buffer with `size() == n`, `preallocated() == 0`, `manager() == manager`
and, for `n > 0`, `data() != nullptr`; for `n > 2^32 - 1` it returns no buffer: it
throws the allocation-failed error. -/
theorem Buffer.sized_spec (h : Heap) (manager : BufferManager) (n : Nat) :
    (manager.flags.memory = false → Buffer.sized h manager n = .threw .buf_no_alloc h) ∧
    (manager.flags.memory = true → manager.alloc = .heapNew → n ≤ BufferCore.max_size →
      ∃ B h', Buffer.sized h manager n = .ok B h' ∧ B.size h' = n ∧
        B.preallocated h' = 0 ∧ B.manager h' = some manager ∧ (0 < n → B.data h' ≠ 0)) ∧
    (manager.flags.memory = true → n > BufferCore.max_size →
      (Buffer.sized h manager n).value? = none ∧
      (Buffer.sized h manager n).error? = some .buf_fail_alloc) := by
  refine ⟨?_, ?_, ?_⟩
  · intro hm
    simp [Buffer.sized, hm]
  · intro hm ha hn
    refine ⟨⟨some h.nextCore⟩, h.afterSized manager n, Buffer.sized_ok h manager n hm ha hn,
      ?_, ?_, ?_, ?_⟩
    · simp only [Buffer.size, Heap.afterSized_cell_new]
    · simp only [Buffer.preallocated, Heap.afterSized_cell_new]
    · simp only [Buffer.manager, Heap.afterSized_cell_new]
    · intro hpos
      simp only [Buffer.data, Heap.afterSized_cell_new]
      rw [if_neg (by omega)]
      omega
  · intro hm hn
    have hne : n ≠ 0 := by
      intro h0; rw [h0] at hn; exact absurd hn (by decide)
    simp [Buffer.sized, hm, hne, BufferCore.tryAllocate, BufferCore.tryAllocateRaw, hn,
      Outcome.error?, Outcome.value?]

/-- Witness for C18 on the test section "size constructor": `Buffer(&heapManager, 4)`,
`Buffer(&stackManager, 4)` and a request of `2^32` bytes. -/
theorem Buffer.sized_spec_witness :
    (∃ B h', Buffer.sized Example.emptyHeap Buffer.heapManager 4 = .ok B h' ∧ B.size h' = 4 ∧
      B.preallocated h' = 0 ∧ B.manager h' = some Buffer.heapManager ∧ B.data h' ≠ 0) ∧
    Buffer.sized Example.emptyHeap Buffer.stackManager 4
      = .threw .buf_no_alloc Example.emptyHeap ∧
    (Buffer.sized Example.emptyHeap Buffer.heapManager 4294967296).error?
      = some .buf_fail_alloc := by
  have hs := Buffer.sized_spec Example.emptyHeap Buffer.heapManager 4
  have ht := Buffer.sized_spec Example.emptyHeap Buffer.stackManager 4
  have hb := Buffer.sized_spec Example.emptyHeap Buffer.heapManager 4294967296
  obtain ⟨B, h', e, h1, h2, h3, h4⟩ := hs.2.1 rfl rfl (by decide)
  exact ⟨⟨B, h', e, h1, h2, h3, h4 (by decide)⟩, ht.1 rfl, (hb.2.2 rfl (by decide)).2⟩

/-- C19. The external-data constructor `Buffer(manager, p, n)` throws the
data-not-owned error when the manager has `canAllocate`, and the size-overflow
error when the manager lacks it and `n > 2^32 - 1`; otherwise it returns a buffer
with `data() == p`, `size() == n`, `preallocated() == 0` and `manager() == manager`,
and neither memory nor the allocation frontier changes (no copy). -/
theorem Buffer.fromExternal_spec (h : Heap) (manager : BufferManager) (p n : Nat) :
    (manager.flags.memory = true →
      Buffer.fromExternal h manager p n = .threw .buf_data_not_owned h) ∧
    (manager.flags.memory = false → n > BufferCore.max_size →
      Buffer.fromExternal h manager p n = .threw .buf_size_overflow h) ∧
    (manager.flags.memory = false → n ≤ BufferCore.max_size →
      ∃ B h', Buffer.fromExternal h manager p n = .ok B h' ∧ B.data h' = p ∧
        B.size h' = n ∧ B.preallocated h' = 0 ∧ B.manager h' = some manager ∧
        h'.mem = h.mem ∧ h'.brk = h.brk) := by
  refine ⟨?_, ?_, ?_⟩
  · intro hm
    simp [Buffer.fromExternal, hm]
  · intro hm hn
    simp [Buffer.fromExternal, hm, hn]
  · intro hm hn
    have hgt : ¬ n > BufferCore.max_size := by omega
    have hmod : n % 4294967296 = n :=
      Nat.mod_eq_of_lt (by unfold BufferCore.max_size at hn; omega)
    refine ⟨⟨some h.nextCore⟩, (BufferCore.create h manager 0 n p).2, ?_, ?_, ?_, ?_, ?_, rfl, rfl⟩
    · simp [Buffer.fromExternal, hm, hgt, hmod, BufferCore.create]
    · simp [Buffer.data, Heap.cell, BufferCore.create]
    · simp [Buffer.size, Heap.cell, BufferCore.create]
    · simp [Buffer.preallocated, Heap.cell, BufferCore.create]
    · simp [Buffer.manager, Heap.cell, BufferCore.create]

/-- Witness for C19 on the test section "data constructor": borrowing three bytes
at address 1 through `stackManager`, and the rejected `heapManager`. -/
theorem Buffer.fromExternal_spec_witness :
    (∃ B h', Buffer.fromExternal Example.eraseData Buffer.stackManager 1 3 = .ok B h' ∧
      B.data h' = 1 ∧ B.size h' = 3 ∧ B.preallocated h' = 0) ∧
    Buffer.fromExternal Example.eraseData Buffer.heapManager 1 3
      = .threw .buf_data_not_owned Example.eraseData := by
  have hs := Buffer.fromExternal_spec Example.eraseData Buffer.stackManager 1 3
  have hh := Buffer.fromExternal_spec Example.eraseData Buffer.heapManager 1 3
  obtain ⟨B, h', e, h1, h2, h3, -⟩ := hs.2.2 rfl (by decide)
  exact ⟨⟨B, h', e, h1, h2, h3⟩, hh.1 rfl⟩

/-- C20 (amended). `HeapPreall(n)` never rejects `n`: for every `n` it returns a heap
buffer with `size() == 0` and `preallocated() == min(n, 65535)`, so a request above
65535 is clamped to 65535. -/
theorem Buffer.HeapPreall_clamps (h : Heap) (n : Nat) :
    ∃ B h', Buffer.HeapPreall h n = .ok B h' ∧ B.size h' = 0 ∧
      B.preallocated h' = min n 65535 ∧ B.manager h' = some Buffer.heapManager := by
  have hle : (if n > BufferCore.max_preall then BufferCore.max_preall else n)
      ≤ BufferCore.max_size := by
    unfold BufferCore.max_preall BufferCore.max_size
    split_ifs <;> omega
  have hmin : (if n > BufferCore.max_preall then BufferCore.max_preall else n) = min n 65535 := by
    unfold BufferCore.max_preall
    split_ifs <;> omega
  unfold Buffer.HeapPreall
  rw [Buffer.sized_ok h Buffer.heapManager _ rfl rfl hle]
  simp only [Heap.afterSized, if_true]
  refine ⟨_, _, rfl, ?_, ?_, ?_⟩
  · simp [Buffer.size, Heap.cell, Heap.setCore]
  · simp only [Buffer.preallocated, Heap.cell, Heap.setCore, if_true]
    rw [hmin]
    exact Nat.mod_eq_of_lt (by omega)
  · simp [Buffer.manager, Heap.cell, Heap.setCore]

/-- Counterexample to C20 as stated: `HeapPreall(65536)` is accepted (no error) and
returns a buffer with `size() == 0` and `preallocated() == 65535`. -/
theorem Buffer.HeapPreall_clamps_counterexample :
    (Buffer.HeapPreall Example.emptyHeap 65536).error? = none ∧
    (Buffer.HeapPreall Example.emptyHeap 65536).observe? (fun B h => B.size h) = some 0 ∧
    (Buffer.HeapPreall Example.emptyHeap 65536).observe? (fun B h => B.preallocated h)
      = some 65535 := by
  refine ⟨by decide, by decide, by decide⟩


/-! ## Cloning -/

theorem Buffer.sized_returns (h : Heap) (m : BufferManager) (size : Nat)
    (hmem : m.flags.memory = true) (halloc : size ≠ 0 → m.alloc = .heapNew)
    (hs : size ≤ BufferCore.max_size) :
    Buffer.sized h m size = .ok ⟨some h.nextCore⟩ (h.afterSized m size) := by
  by_cases h0 : size = 0
  · subst h0
    unfold Buffer.sized Heap.afterSized
    simp [hmem, BufferCore.create]
  · exact Buffer.sized_ok h m size hmem (halloc h0) hs

theorem Buffer.sized_fail_alloc (h : Heap) (m : BufferManager) (size : Nat)
    (hmem : m.flags.memory = true) (h0 : size ≠ 0)
    (halloc : m.alloc = .defaultAllocateFunction) :
    (Buffer.sized h m size).value? = none ∧
    (Buffer.sized h m size).error? = some .buf_fail_alloc := by
  simp [Buffer.sized, hmem, h0, BufferCore.tryAllocate, BufferCore.tryAllocateRaw, halloc,
    AllocateFunction.call, Outcome.error?, Outcome.value?]

theorem Heap.afterCopy_cell_new (h : Heap) (m : BufferManager) (src n : Nat) :
    (h.afterCopy m src n).cell ⟨some h.nextCore⟩ =
      some ⟨1, 0, n, if n = 0 then 0 else h.brk + 1, m⟩ :=
  Heap.afterSized_cell_new h m n

theorem Heap.afterCopy_cell_old (h : Heap) (m : BufferManager) (src n : Nat) (X : Buffer)
    (hX : h.valid X) : (h.afterCopy m src n).cell X = h.cell X :=
  Heap.afterSized_cell_old h m n X hX

theorem Heap.afterCopy_mem_old (h : Heap) (m : BufferManager) (src n a : Nat)
    (ha : a ≤ h.brk) : (h.afterCopy m src n).mem a = h.mem a := by
  unfold Heap.afterCopy Heap.withMem BUFFER_COPY BUFFER_MOVE
  simp only
  split_ifs
  all_goals first | rfl | (exfalso; omega)

theorem Heap.afterCopy_mem_new (h : Heap) (m : BufferManager) (src n i : Nat)
    (hi : i < n) : (h.afterCopy m src n).mem (h.brk + 1 + i) = h.mem (src + i) := by
  unfold Heap.afterCopy Heap.withMem BUFFER_COPY BUFFER_MOVE
  simp only
  split_ifs
  all_goals first | rfl | (exfalso; omega) | (congr 1; omega)

theorem Heap.afterCopy_valid_old (h : Heap) (m : BufferManager) (src n : Nat) (X : Buffer)
    (hX : h.valid X) : (h.afterCopy m src n).valid X := by
  cases hp : X.m_core with
  | none => simp [Heap.valid, hp]
  | some p =>
    obtain ⟨c, hc, h1, h2, h3, h4⟩ := Heap.valid_some h X p hX hp
    have hc2 : (h.afterCopy m src n).cores p = some c := by
      have := Heap.afterCopy_cell_old h m src n X hX
      simpa [Heap.cell, hp, hc] using this
    simp only [Heap.valid, hp, hc2]
    refine ⟨?_, ?_, h3, h4⟩
    · show p < h.nextCore + 1
      omega
    · show c.m_address + c.m_size + c.m_preall ≤ if n = 0 then h.brk else h.brk + 1 + n
      split_ifs <;> omega

theorem Heap.afterCopy_bytes_old (h : Heap) (m : BufferManager) (src n : Nat) (X : Buffer)
    (hX : h.valid X) : X.bytes (h.afterCopy m src n) = X.bytes h := by
  have hc := Heap.afterCopy_cell_old h m src n X hX
  have hb := (Heap.valid_block h X hX).1
  unfold Buffer.bytes
  rw [Buffer.size_congr _ _ X hc, Buffer.data_congr _ _ X hc]
  apply readBytes_congr
  intro i hi
  exact Heap.afterCopy_mem_old h m src n _ (by omega)

theorem Heap.afterCopy_bytes_new (h : Heap) (m : BufferManager) (src n : Nat) :
    Buffer.bytes (h.afterCopy m src n) ⟨some h.nextCore⟩ = readBytes h.mem src n := by
  unfold Buffer.bytes
  simp only [Buffer.size, Buffer.data, Heap.afterCopy_cell_new]
  apply readBytes_congr
  intro i hi
  rw [if_neg (by omega)]
  exact Heap.afterCopy_mem_new h m src n i hi

theorem Heap.afterCopy_live_new (h : Heap) (m : BufferManager) (src n : Nat) :
    (h.afterCopy m src n).live ⟨some h.nextCore⟩ := by
  simp [Heap.live, Heap.afterCopy, Heap.withMem, Heap.afterSized]

theorem readBytes_getElem? (mem : Nat → Byte) (a n k : Nat) (hk : k < n) :
    (readBytes mem a n)[k]? = some (mem (a + k)) := by
  simp [readBytes, hk]

theorem Buffer.compare_zero_of_bytes (h : Heap) (a b : Buffer) (ha : h.live a) (hb : h.live b)
    (hbytes : a.bytes h = b.bytes h) : a.compare h b = .ok 0 h := by
  have hs : a.size h = b.size h := by
    have := congrArg List.length hbytes
    simpa [Buffer.bytes, readBytes_length] using this
  rw [Buffer.compare_eq h a b ha hb, if_neg (by omega), if_neg (by omega)]
  congr 1
  rw [firstDifference_eq_zero_iff]
  intro k hk
  have h1 := congrArg (fun l => l[k]?) hbytes
  simp only [Buffer.bytes] at h1
  rw [readBytes_getElem? _ _ _ _ hk, readBytes_getElem? _ _ _ _ (by omega)] at h1
  simpa [Buffer.byte] using h1

theorem Buffer.resolve_cell (h : Heap) (X : Buffer) (M : Option BufferManager)
    (c : BufferCore) (hc : h.cell X = some c) :
    X.resolve h M = some (M.getD c.m_manager) := by
  cases M with
  | none => simp only [Buffer.resolve, Buffer.manager, hc, Option.getD]
  | some m => rfl

theorem Buffer.clone_ok (h : Heap) (X : Buffer) (M : Option BufferManager) (p : Nat)
    (c : BufferCore) (m : BufferManager)
    (hp : X.m_core = some p) (hcp : h.cores p = some c) (hwf : h.wfCore p c)
    (hres : X.resolve h M = some m) (hmem : m.flags.memory = true)
    (hmod : m.flags.modify = true) (halloc : c.m_size ≠ 0 → m.alloc = .heapNew) :
    X.clone h M = .ok ⟨some h.nextCore⟩ (h.afterCopy m c.m_address c.m_size) := by
  obtain ⟨hpn, -, hsz, -⟩ := hwf
  have hc : h.cell X = some c := by simp only [Heap.cell, hp, hcp]
  rw [Buffer.resolve_cell h X M c hc] at hres
  have hm : M.getD c.m_manager = m := Option.some.inj hres
  unfold Buffer.clone
  simp only [hp, hcp, hm, hmem, hmod, Bool.and_self, Bool.true_eq_false, if_false]
  rw [Buffer.sized_returns h _ c.m_size hmem halloc hsz]
  simp only [Heap.afterSized_cell_new, Heap.afterSized_cores_old h _ _ p hpn, hcp]
  rfl

theorem Buffer.clone_fail_flags (h : Heap) (X : Buffer) (M : Option BufferManager)
    (c : BufferCore) (m : BufferManager) (hc : h.cell X = some c)
    (hres : X.resolve h M = some m)
    (hflags : m.flags.memory = false ∨ m.flags.modify = false) :
    X.clone h M = .threw .buf_no_alloc h := by
  obtain ⟨p, hp, hcp⟩ := Heap.cell_some h X c hc
  rw [Buffer.resolve_cell h X M c hc] at hres
  have hm : M.getD c.m_manager = m := Option.some.inj hres
  unfold Buffer.clone
  simp only [hp, hcp, hm]
  rcases hflags with hf | hf <;> simp [hf]

theorem Buffer.clone_fail_alloc (h : Heap) (X : Buffer) (M : Option BufferManager)
    (c : BufferCore) (m : BufferManager) (hc : h.cell X = some c)
    (hres : X.resolve h M = some m) (hmem : m.flags.memory = true)
    (hmod : m.flags.modify = true) (h0 : c.m_size ≠ 0)
    (halloc : m.alloc = .defaultAllocateFunction) :
    (X.clone h M).value? = none := by
  obtain ⟨p, hp, hcp⟩ := Heap.cell_some h X c hc
  rw [Buffer.resolve_cell h X M c hc] at hres
  have hm : M.getD c.m_manager = m := Option.some.inj hres
  have hs := (Buffer.sized_fail_alloc h m c.m_size hmem h0 halloc).1
  unfold Buffer.clone
  simp only [hp, hcp, hm, hmem, hmod, Bool.and_self, Bool.true_eq_false, if_false]
  generalize Buffer.sized h m c.m_size = S at hs ⊢
  cases S with
  | ok v h1 => simp [Outcome.value?] at hs
  | threw e h1 => rfl
  | undefined => rfl

theorem Buffer.clone_null (h : Heap) (M : Option BufferManager) :
    Buffer.clone h ⟨none⟩ M = .ok Buffer.empty h := rfl

theorem Buffer.clone_explicit (h h' : Heap) (X Y : Buffer) (M : Option BufferManager)
    (p : Nat) (c : BufferCore) (hp : X.m_core = some p) (hcp : h.cores p = some c)
    (hwf : h.wfCore p c) (hclone : X.clone h M = .ok Y h') :
    Y = ⟨some h.nextCore⟩ ∧ h' = h.afterCopy (M.getD c.m_manager) c.m_address c.m_size ∧
    (M.getD c.m_manager).flags.memory = true ∧ (M.getD c.m_manager).flags.modify = true := by
  have hc : h.cell X = some c := by simp only [Heap.cell, hp, hcp]
  have hres := Buffer.resolve_cell h X M c hc
  cases hmem : (M.getD c.m_manager).flags.memory with
  | false =>
    rw [Buffer.clone_fail_flags h X M c _ hc hres (Or.inl hmem)] at hclone
    exact absurd hclone (by simp)
  | true =>
    cases hmod : (M.getD c.m_manager).flags.modify with
    | false =>
      rw [Buffer.clone_fail_flags h X M c _ hc hres (Or.inr hmod)] at hclone
      exact absurd hclone (by simp)
    | true =>
      by_cases halloc : c.m_size ≠ 0 → (M.getD c.m_manager).alloc = .heapNew
      · rw [Buffer.clone_ok h X M p c _ hp hcp hwf hres hmem hmod halloc] at hclone
        simp only [Outcome.ok.injEq] at hclone
        exact ⟨hclone.1.symm, hclone.2.symm, rfl, rfl⟩
      · have h0 : c.m_size ≠ 0 := fun e => halloc (fun h1 => absurd e h1)
        have ha : (M.getD c.m_manager).alloc = .defaultAllocateFunction := by
          cases hh : (M.getD c.m_manager).alloc with
          | defaultAllocateFunction => rfl
          | heapNew => exact absurd (fun _ => hh) halloc
        have := Buffer.clone_fail_alloc h X M c _ hc hres hmem hmod h0 ha
        rw [hclone] at this
        exact absurd this (by simp [Outcome.value?])

theorem Buffer.clone_returns (h h' : Heap) (X Y : Buffer) (M : Option BufferManager)
    (hX : h.valid X) (hclone : X.clone h M = .ok Y h') :
    Y.compare h' X = .ok 0 h' ∧ Y.size h' = X.size h ∧ Y.bytes h' = X.bytes h ∧
    h'.cell X = h.cell X ∧ X.bytes h' = X.bytes h ∧
    (0 < X.size h → Y.data h' ≠ X.data h') := by
  cases hp : X.m_core with
  | none =>
    obtain ⟨x⟩ := X
    simp only at hp
    subst hp
    rw [Buffer.clone_null] at hclone
    simp only [Outcome.ok.injEq] at hclone
    obtain ⟨rfl, rfl⟩ := hclone
    refine ⟨rfl, rfl, rfl, rfl, rfl, ?_⟩
    intro hpos
    exact absurd hpos (by simp [Buffer.size, Heap.cell])
  | some p =>
    obtain ⟨c, hcp, hwf⟩ := Heap.valid_some h X p hX hp
    obtain ⟨rfl, rfl, -, -⟩ := Buffer.clone_explicit h h' X Y M p c hp hcp hwf hclone
    have hc : h.cell X = some c := by simp only [Heap.cell, hp, hcp]
    have hcell := Heap.afterCopy_cell_old h (M.getD c.m_manager) c.m_address c.m_size X hX
    have hbold := Heap.afterCopy_bytes_old h (M.getD c.m_manager) c.m_address c.m_size X hX
    have hbnew := Heap.afterCopy_bytes_new h (M.getD c.m_manager) c.m_address c.m_size
    have hXb : X.bytes h = readBytes h.mem c.m_address c.m_size := by
      simp only [Buffer.bytes, Buffer.data, Buffer.size, hc]
    refine ⟨?_, ?_, ?_, hcell, hbold, ?_⟩
    · apply Buffer.compare_zero_of_bytes
      · exact Heap.afterCopy_live_new h _ _ _
      · exact Heap.live_of_valid _ X (Heap.afterCopy_valid_old h _ _ _ X hX)
      · rw [hbnew, hbold, hXb]
    · simp only [Buffer.size, Heap.afterCopy_cell_new, hc]
    · rw [hbnew, hXb]
    · intro hpos
      have hb := (Heap.valid_block h X hX).1
      rw [Buffer.data_congr _ _ X hcell]
      simp only [Buffer.size, hc] at hpos
      simp only [Buffer.data, Heap.afterCopy_cell_new]
      rw [if_neg (by omega)]
      simp only [Buffer.data, Buffer.size, hc] at hb ⊢
      omega

/-- C11. For a valid buffer `X` and a manager choice `M` for which `clone` returns a
buffer `Y`: `Y == X` holds (`compare` gives 0; same size, same bytes), `X` keeps its
cell (size, headroom, address) and its bytes, and when `X` is non-empty
`Y.data() != X.data()`; the clone of the empty buffer is the empty buffer. -/
theorem Buffer.clone_equal (h h' : Heap) (X Y : Buffer) (M : Option BufferManager)
    (hX : h.valid X) (hclone : X.clone h M = .ok Y h') :
    Y.eq h' X = .ok true h' ∧ Y.size h' = X.size h ∧ Y.bytes h' = X.bytes h ∧
    X.size h' = X.size h ∧ X.preallocated h' = X.preallocated h ∧
    X.data h' = X.data h ∧ X.bytes h' = X.bytes h ∧
    (0 < X.size h → Y.data h' ≠ X.data h') ∧
    Buffer.clone h Buffer.empty M = .ok Buffer.empty h := by
  obtain ⟨h1, h2, h3, h4, h5, h6⟩ := Buffer.clone_returns h h' X Y M hX hclone
  refine ⟨?_, h2, h3, Buffer.size_congr _ _ X h4, ?_, Buffer.data_congr _ _ X h4, h5, h6, rfl⟩
  · unfold Buffer.eq
    rw [h1]
    rfl
  · unfold Buffer.preallocated
    rw [h4]

/-- Witness for C11 on the test section "clone": the static buffer `01 02 03` cloned
with `heapManager`. -/
theorem Buffer.clone_equal_witness :
    Example.eraseData.valid ⟨some 0⟩ ∧
    ∃ Y h', Buffer.clone Example.eraseData ⟨some 0⟩ (some Buffer.heapManager) = .ok Y h' ∧
      Y.eq h' ⟨some 0⟩ = .ok true h' ∧ Y.size h' = 3 ∧ Y.bytes h' = [0x01, 0x02, 0x03] ∧
      Buffer.bytes h' ⟨some 0⟩ = [0x01, 0x02, 0x03] ∧
      Y.data h' ≠ Buffer.data h' ⟨some 0⟩ := by
  have hclone : Buffer.clone Example.eraseData ⟨some 0⟩ (some Buffer.heapManager)
      = .ok ⟨some 1⟩ (Example.eraseData.afterCopy Buffer.heapManager 1 3) :=
    Buffer.clone_ok Example.eraseData ⟨some 0⟩ (some Buffer.heapManager) 0
      ⟨1, 0, 3, 1, Buffer.staticManager⟩ Buffer.heapManager rfl rfl (by decide) rfl rfl rfl
      (fun _ => rfl)
  refine ⟨by decide, ⟨some 1⟩,
    Example.eraseData.afterCopy Buffer.heapManager 1 3, hclone, ?_⟩
  obtain ⟨h1, h2, h3, -, -, -, h7, h8, -⟩ :=
    Buffer.clone_equal Example.eraseData
      (Example.eraseData.afterCopy Buffer.heapManager 1 3) ⟨some 0⟩ ⟨some 1⟩
      (some Buffer.heapManager) (by decide) hclone
  exact ⟨h1, h2.trans (by decide), h3.trans (by decide), h7.trans (by decide),
    h8 (by decide)⟩

/-- C12 (amended). For an optional manager `M`: the clone of the empty buffer (no
cell) is the empty buffer, whatever `M` is, also when no manager is resolvable; for
a valid buffer `X` with a cell and resolved manager `m` (`M`, else the manager of
`X`), `clone` throws the no-allocation error exactly when `m` lacks `canAllocate`
or `canMutate`, and it returns a buffer when `m` has both flags and its allocate
function returns storage (as `heapManager`'s does) or `X.size()` is 0. -/
theorem Buffer.clone_fails_iff (h : Heap) (X : Buffer) (M : Option BufferManager) :
    Buffer.clone h Buffer.empty M = .ok Buffer.empty h ∧
    (∀ c m, h.valid X → h.cell X = some c → X.resolve h M = some m →
      ((X.clone h M).error? = some .buf_no_alloc ↔
        (m.flags.memory = false ∨ m.flags.modify = false)) ∧
      (m.flags.memory = true → m.flags.modify = true →
        (c.m_size ≠ 0 → m.alloc = .heapNew) → ∃ Y h', X.clone h M = .ok Y h')) := by
  refine ⟨rfl, ?_⟩
  intro c m hX hc hres
  obtain ⟨p, hp, hcp⟩ := Heap.cell_some h X c hc
  obtain ⟨c2, hcp2, hwf⟩ := Heap.valid_some h X p hX hp
  rw [hcp] at hcp2
  obtain rfl := Option.some.inj hcp2
  refine ⟨⟨?_, ?_⟩, ?_⟩
  · intro herr
    cases hmem : m.flags.memory with
    | false => exact Or.inl rfl
    | true =>
      cases hmod : m.flags.modify with
      | false => exact Or.inr rfl
      | true =>
        exfalso
        cases ha : m.alloc with
        | heapNew =>
          rw [Buffer.clone_ok h X M p c m hp hcp hwf hres hmem hmod (fun _ => ha)] at herr
          simp [Outcome.error?] at herr
        | defaultAllocateFunction =>
          by_cases h0 : c.m_size = 0
          · rw [Buffer.clone_ok h X M p c m hp hcp hwf hres hmem hmod
              (fun hne => absurd h0 hne)] at herr
            simp [Outcome.error?] at herr
          · rw [Buffer.resolve_cell h X M c hc] at hres
            have hm : M.getD c.m_manager = m := Option.some.inj hres
            have hs := (Buffer.sized_fail_alloc h m c.m_size hmem h0 ha).2
            unfold Buffer.clone at herr
            simp only [hp, hcp, hm, hmem, hmod, Bool.and_self, Bool.true_eq_false,
              if_false] at herr
            generalize Buffer.sized h m c.m_size = S at hs herr
            cases S with
            | ok v h1 => simp [Outcome.error?] at hs
            | threw e h1 =>
              simp only [Outcome.error?, Option.some.injEq] at hs herr
              rw [hs] at herr
              exact absurd herr (by decide)
            | undefined => simp [Outcome.error?] at hs
  · intro hflags
    rw [Buffer.clone_fail_flags h X M c m hc hres hflags]
    rfl
  · intro hmem hmod halloc
    exact ⟨_, _, Buffer.clone_ok h X M p c m hp hcp hwf hres hmem hmod halloc⟩

/-- Witness for C12 on the test section "clone": the static buffer `01 02 03` with
no manager argument (its own manager cannot allocate) and with `heapManager`. -/
theorem Buffer.clone_fails_iff_witness :
    Example.eraseData.valid ⟨some 0⟩ ∧
    (Buffer.clone Example.eraseData ⟨some 0⟩ none).error? = some .buf_no_alloc ∧
    (Buffer.clone Example.eraseData ⟨some 0⟩ (some Buffer.stackManager)).error?
      = some .buf_no_alloc ∧
    ∃ Y h', Buffer.clone Example.eraseData ⟨some 0⟩ (some Buffer.heapManager) = .ok Y h' := by
  have hn := (Buffer.clone_fails_iff Example.eraseData ⟨some 0⟩ none).2
    ⟨1, 0, 3, 1, Buffer.staticManager⟩ Buffer.staticManager (by decide) rfl rfl
  have hs := (Buffer.clone_fails_iff Example.eraseData ⟨some 0⟩ (some Buffer.stackManager)).2
    ⟨1, 0, 3, 1, Buffer.staticManager⟩ Buffer.stackManager (by decide) rfl rfl
  have hh := (Buffer.clone_fails_iff Example.eraseData ⟨some 0⟩ (some Buffer.heapManager)).2
    ⟨1, 0, 3, 1, Buffer.staticManager⟩ Buffer.heapManager (by decide) rfl rfl
  exact ⟨by decide, hn.1.2 (Or.inl rfl), hs.1.2 (Or.inl rfl), hh.2 rfl rfl (fun _ => rfl)⟩

/-- Counterexample to C12 as stated: the empty buffer has no manager and no manager
is passed, so no manager is resolvable, yet `clone` does not fail: it returns the
empty buffer (`REQUIRE(Buffer().clone() == Buffer())` in the tests). -/
theorem Buffer.clone_fails_iff_counterexample :
    Buffer.resolve Example.emptyHeap Buffer.empty none = none ∧
    Buffer.clone Example.emptyHeap Buffer.empty none = .ok Buffer.empty Example.emptyHeap ∧
    (Buffer.clone Example.emptyHeap Buffer.empty none).error? = none ∧
    (Buffer.clone Example.emptyHeap Buffer.empty (some Buffer.staticManager)).error? = none := by
  refine ⟨rfl, rfl, rfl, rfl⟩


/-! ## In-place cloning -/

theorem BufferCore.release_frame (h : Heap) (p : Nat) (c : BufferCore)
    (hcp : h.cores p = some c) :
    ∃ h0, BufferCore.release h (some p) = some h0 ∧ h0.mem = h.mem ∧ h0.brk = h.brk ∧
      h0.nextCore = h.nextCore ∧ (∀ q, q ≠ p → h0.cores q = h.cores q) ∧
      ((c.m_address = 0 ∨ 1 < c.m_refcount) → ∃ c', h0.cores p = some c' ∧
        c'.m_address = c.m_address ∧ c'.m_size = c.m_size ∧ c'.m_preall = c.m_preall ∧
        c'.m_manager = c.m_manager) := by
  unfold BufferCore.release
  simp only [hcp]
  split_ifs with h1 h2
  · refine ⟨_, rfl, rfl, rfl, rfl, ?_, ?_⟩
    · intro q hq
      simp only [Heap.setCore, if_neg hq, DeallocateFunction.call]
    · intro h3
      exfalso
      omega
  · refine ⟨_, rfl, rfl, rfl, rfl, ?_, ?_⟩
    · intro q hq
      simp only [Heap.setCore, if_neg hq]
    · intro h3
      exfalso
      omega
  · cases hd : BUFFER_SAFE_DECREASE c.m_refcount with
    | none => exact ⟨h, rfl, rfl, rfl, rfl, fun _ _ => rfl, fun _ => ⟨c, hcp, rfl, rfl, rfl, rfl⟩⟩
    | some y =>
      refine ⟨_, rfl, rfl, rfl, rfl, ?_, ?_⟩
      · intro q hq
        simp only [Heap.setCore, if_neg hq]
      · intro _
        exact ⟨{ c with m_refcount := y }, by simp only [Heap.setCore, if_true],
          rfl, rfl, rfl, rfl⟩

theorem Buffer.selfClone_empty (h : Heap) (T O : Buffer) (M : Option BufferManager)
    (hO : O.not h = true) : T.selfClone h O M = (T, .ok () h) := by
  unfold Buffer.selfClone
  rw [if_pos hO]

theorem Buffer.selfClone_returns (h : Heap) (T O : Buffer) (M : Option BufferManager)
    (m : BufferManager) (hT : h.live T) (hOv : h.valid O) (hO : O.not h = false)
    (hdist : T.m_core = O.m_core → ∀ o, h.cell O = some o → 1 < o.m_refcount)
    (hsep : ∀ c, h.cell T = some c → c.m_refcount ≤ 1 →
      O.data h + O.size h ≤ c.m_address ∨ c.m_address + c.m_size + c.m_preall ≤ O.data h)
    (hres : T.resolve h M = some m) (hmem : m.flags.memory = true)
    (hmod : m.flags.modify = true) (halloc : m.alloc = .heapNew) :
    ∃ T' h', T.selfClone h O M = (T', .ok () h') ∧ T'.compare h' O = .ok 0 h' ∧
      T'.size h' = O.size h ∧ T'.bytes h' = O.bytes h ∧ O.bytes h' = O.bytes h ∧
      T'.manager h' = some m ∧ T'.data h' ≠ O.data h' := by
  -- the cell of `O`
  cases hq : O.m_core with
  | none => simp [Buffer.not, Heap.cell, hq] at hO
  | some q =>
  obtain ⟨o, hcq, hqn, hoblk, hosz, -⟩ := Heap.valid_some h O q hOv hq
  have hcO : h.cell O = some o := by simp only [Heap.cell, hq, hcq]
  have hoa : o.m_address ≠ 0 := by
    intro e
    simp [Buffer.not, hcO, e] at hO
  -- the heap after the release of the old cell of `T`
  have hrel : ∃ h0, (match T.m_core with
        | none => some h
        | some p => BufferCore.release h (some p)) = some h0 ∧
      h0.mem = h.mem ∧ h0.brk = h.brk ∧ h0.nextCore = h.nextCore ∧
      ∃ o', h0.cores q = some o' ∧ o'.m_address = o.m_address ∧ o'.m_size = o.m_size := by
    cases hp : T.m_core with
    | none => exact ⟨h, rfl, rfl, rfl, rfl, o, hcq, rfl, rfl⟩
    | some p =>
      have hlive : h.cores p ≠ none := by
        unfold Heap.live at hT
        rw [hp] at hT
        exact hT
      cases hcp : h.cores p with
      | none => exact absurd hcp hlive
      | some c =>
        obtain ⟨h0, e0, e1, e2, e3, e4, e5⟩ := BufferCore.release_frame h p c hcp
        refine ⟨h0, e0, e1, e2, e3, ?_⟩
        by_cases hqp : q = p
        · subst hqp
          rw [hcq] at hcp
          obtain rfl := Option.some.inj hcp
          have hrc := hdist (by rw [hp, hq]) o hcO
          obtain ⟨c', hc', ha, hs, -, -⟩ := e5 (Or.inr hrc)
          exact ⟨c', hc', ha, hs⟩
        · rw [e4 q hqp]
          exact ⟨o, hcq, rfl, rfl⟩
  obtain ⟨h0, hrel0, hmem0, hbrk0, hnext0, o', hcq0, hoa0, hos0⟩ := hrel
  have hqn0 : q < h0.nextCore := by omega
  have hsz0 : o'.m_size ≤ BufferCore.max_size := by omega
  -- the bytes of `O` are not in storage that the release handed to `delete[]`
  have hrr : readsReleased (BufferCore.released h T.m_core) o'.m_address o'.m_size = false := by
    unfold BufferCore.released
    cases hp : T.m_core with
    | none => rfl
    | some p =>
      simp only
      cases hcp : h.cores p with
      | none => rfl
      | some c =>
        simp only
        split
        · rename_i hcond
          have hcT : h.cell T = some c := by simp only [Heap.cell, hp, hcp]
          have hs := hsep c hcT hcond.2.1
          simp only [Buffer.data, Buffer.size, hcO] at hs
          simp only [readsReleased, hoa0, hos0, decide_eq_false_iff_not]
          omega
        · rfl
  unfold Buffer.selfClone
  simp only [hO, hres, hmem, hmod, Bool.and_self, Bool.false_eq_true, Bool.true_eq_false,
    if_false, hrel0, Heap.cell, hq, hcq0, BufferCore.create_fst,
    BufferCore.tryAllocate_create_fst h0 m _ hmem halloc hsz0,
    BufferCore.tryAllocate_create_core h0 m _ hmem halloc hsz0,
    BufferCore.tryAllocate_create_heap h0 m _ hmem halloc hsz0,
    Heap.afterAlloc_cores_old h0 _ _ q hqn0, hrr]
  have hbnew : readBytes (BUFFER_COPY h0.mem (h0.brk + 1) o'.m_address o'.m_size)
      (h0.brk + 1) o'.m_size = readBytes h.mem o.m_address o.m_size := by
    rw [hos0, hoa0, hmem0]
    apply readBytes_congr
    intro i hi
    unfold BUFFER_COPY BUFFER_MOVE
    rw [if_pos (by omega)]
    congr 1
    omega
  have hbold : readBytes (BUFFER_COPY h0.mem (h0.brk + 1) o'.m_address o'.m_size)
      o'.m_address o'.m_size = readBytes h.mem o.m_address o.m_size := by
    rw [hos0, hoa0, hmem0]
    apply readBytes_congr
    intro i hi
    unfold BUFFER_COPY BUFFER_MOVE
    rw [if_neg (by omega)]
  have hOb : O.bytes h = readBytes h.mem o.m_address o.m_size := by
    simp only [Buffer.bytes, Buffer.data, Buffer.size, hcO]
  refine ⟨_, _, rfl, ?_, ?_, ?_, ?_, ?_, ?_⟩
  · apply Buffer.compare_zero_of_bytes
    · simp [Heap.live, Heap.withMem, Heap.afterAlloc]
    · simp [Heap.live, Heap.withMem, hq, Heap.afterAlloc_cores_old h0 _ _ q hqn0, hcq0]
    · simp only [Buffer.bytes, Buffer.data, Buffer.size, Heap.cell, hq, Heap.withMem,
        Heap.afterAlloc_cores_old h0 _ _ q hqn0, hcq0, Heap.afterAlloc_cores_new]
      rw [show (h0.afterAlloc m o'.m_size).mem = h0.mem from rfl, hbnew, hbold]
  · simp only [Buffer.size, Heap.cell, Heap.withMem, Heap.afterAlloc_cores_new, hq, hcq, hos0]
  · rw [hOb]
    simp only [Buffer.bytes, Buffer.data, Buffer.size, Heap.cell, Heap.withMem,
      Heap.afterAlloc_cores_new]
    rw [show (h0.afterAlloc m o'.m_size).mem = h0.mem from rfl, hbnew]
  · rw [hOb]
    simp only [Buffer.bytes, Buffer.data, Buffer.size, Heap.cell, hq, Heap.withMem,
      Heap.afterAlloc_cores_old h0 _ _ q hqn0, hcq0]
    rw [show (h0.afterAlloc m o'.m_size).mem = h0.mem from rfl, hbold]
  · simp only [Buffer.manager, Heap.cell, Heap.withMem, Heap.afterAlloc_cores_new]
  · simp only [Buffer.data, Heap.cell, hq, Heap.withMem,
      Heap.afterAlloc_cores_old h0 _ _ q hqn0, hcq0, Heap.afterAlloc_cores_new]
    omega


/-- C13 (evaluation). In `Example.insertData` the heap buffer `T` (cell 0) holds the
eight bytes `F0 E1 D2 C3 B4 A5 96 87`; it is non-empty and its manager can allocate
and mutate. The call `T.selfClone(T)` returns, and afterwards `T` has size 0 and no
bytes: the cell is released first, and the size is then read from the new, empty
cell. In `Example.aliasData` the heap buffer `T` (cell 0, bytes `01 02 03 04`,
headroom 2, share-count 1, storage block of 6 bytes at address 1) and the static
buffer `O` (cell 1, the two bytes `03 04` at address 3) are valid, `O` is non-empty,
and the resolved manager of `T.selfClone(O)` is the heap manager of `T`. The call
releases the cell of `T` first: its storage block `[1, 7)` is handed to `delete[]`;
it then reads the two bytes of `O` at address 3, inside the released block. That
call neither returns nor throws: the read is undefined behaviour, and `T == O` is
not established. With the borrowed buffer `O` of `Example.insertData`, whose bytes
lie outside the storage of `T`, `T.selfClone(O)` returns and `T == O`,
`T.manager()` is the heap manager and `T.data() != O.data()`. -/
theorem Buffer.selfClone_reads_released :
    Buffer.bytes Example.insertData ⟨some 0⟩
      = [0xF0, 0xE1, 0xD2, 0xC3, 0xB4, 0xA5, 0x96, 0x87] ∧
    Buffer.resolve Example.insertData ⟨some 0⟩ none = some Buffer.heapManager ∧
    observeSelf? (Buffer.selfCloneSelf Example.insertData ⟨some 0⟩ none)
        (fun T h => (T.size h, T.bytes h, T.manager h))
      = some (0, [], some Buffer.heapManager) ∧
    Example.aliasData.valid ⟨some 0⟩ ∧ Example.aliasData.valid ⟨some 1⟩ ∧
    Buffer.not Example.aliasData ⟨some 1⟩ = false ∧
    Buffer.bytes Example.aliasData ⟨some 1⟩ = [0x03, 0x04] ∧
    Buffer.resolve Example.aliasData ⟨some 0⟩ none = some Buffer.heapManager ∧
    BufferCore.released Example.aliasData (some 0) = some (1, 6) ∧
    (Buffer.data Example.aliasData ⟨some 1⟩, Buffer.size Example.aliasData ⟨some 1⟩) = (3, 2) ∧
    ((Buffer.selfClone Example.aliasData ⟨some 0⟩ ⟨some 1⟩ none).2.value?.isSome,
      (Buffer.selfClone Example.aliasData ⟨some 0⟩ ⟨some 1⟩ none).2.error?) = (false, none) ∧
    observeSelf? (Buffer.selfClone Example.insertData ⟨some 0⟩ ⟨some 1⟩ none)
        (fun T h => (T.bytes h, (T.eq h ⟨some 1⟩).value?, T.manager h,
          decide (T.data h ≠ Buffer.data h ⟨some 1⟩)))
      = some ([0x01, 0x02, 0x03, 0x04], some true, some Buffer.heapManager, true) := by
  refine ⟨by decide, rfl, by decide, by decide, by decide, by decide, by decide, rfl,
    by decide, by decide, by decide, by decide⟩


/-! ## Ranges -/

theorem Heap.eq_of_fields (h1 h2 : Heap) (hm : h1.mem = h2.mem) (hb : h1.brk = h2.brk)
    (hc : ∀ q, h1.cores q = h2.cores q) (hn : h1.nextCore = h2.nextCore) : h1 = h2 := by
  obtain ⟨m1, b1, c1, n1⟩ := h1
  obtain ⟨m2, b2, c2, n2⟩ := h2
  simp only at hm hb hc hn
  have hc' : c1 = c2 := funext hc
  subst hm hb hc' hn
  rfl

theorem Buffer.range_invalid (h : Heap) (X : Buffer) (start end_ : Nat)
    (M : Option BufferManager) (hbad : end_ < start ∨ end_ > X.size h) :
    X.range h start end_ M = .threw .invalid_range h := by
  unfold Buffer.range
  rw [if_pos hbad]

theorem Buffer.range_manager (h : Heap) (X : Buffer) (M : Option BufferManager)
    (c : BufferCore) (hc : h.cell X = some c) :
    (match M with
      | some m => some m
      | none =>
        match h.cell X with
        | none => none
        | some c => some c.m_manager) = some (M.getD c.m_manager) := by
  cases M with
  | none => simp only [hc, Option.getD]
  | some m => rfl

theorem Buffer.range_alias (h : Heap) (X : Buffer) (start end_ : Nat)
    (M : Option BufferManager) (p : Nat) (c : BufferCore) (m : BufferManager)
    (hp : X.m_core = some p) (hcp : h.cores p = some c)
    (hsz : c.m_size ≤ BufferCore.max_size)
    (hse : start ≤ end_) (hes : end_ ≤ c.m_size)
    (hres : X.resolve h M = some m) (hmem : m.flags.memory = false) :
    X.range h start end_ M =
      .ok ⟨some h.nextCore⟩ (BufferCore.create h m 0 (end_ - start) (c.m_address + start)).2 := by
  have hc : h.cell X = some c := by simp only [Heap.cell, hp, hcp]
  rw [Buffer.resolve_cell h X M c hc] at hres
  have hm : M.getD c.m_manager = m := Option.some.inj hres
  have hsize : X.size h = c.m_size := by simp only [Buffer.size, hc]
  have hgt : ¬ (end_ - start > BufferCore.max_size) := by omega
  have hmod : (end_ - start) % 4294967296 = end_ - start :=
    Nat.mod_eq_of_lt (by unfold BufferCore.max_size at hsz; omega)
  unfold Buffer.range
  rw [if_neg (by omega), Buffer.range_manager h X M c hc, hm]
  simp only [hp, hcp, hmem, or_true, if_true, Buffer.fromExternal, Bool.false_eq_true,
    if_false, hgt, hmod]
  rfl

theorem Buffer.range_readonly (h : Heap) (X : Buffer) (start end_ : Nat)
    (M : Option BufferManager) (c : BufferCore) (m : BufferManager)
    (hc : h.cell X = some c) (hse : start ≤ end_) (hes : end_ ≤ c.m_size)
    (hres : X.resolve h M = some m) (hmem : m.flags.memory = true)
    (hmod : m.flags.modify = false) :
    X.range h start end_ M = .threw .buf_data_not_owned h := by
  obtain ⟨p, hp, hcp⟩ := Heap.cell_some h X c hc
  rw [Buffer.resolve_cell h X M c hc] at hres
  have hm : M.getD c.m_manager = m := Option.some.inj hres
  have hsize : X.size h = c.m_size := by simp only [Buffer.size, hc]
  unfold Buffer.range
  rw [if_neg (by omega), Buffer.range_manager h X M c hc, hm]
  simp only [hp, hcp, hmem, hmod, true_or, if_true, Buffer.fromExternal]

theorem Buffer.range_copy (h : Heap) (X : Buffer) (start end_ : Nat)
    (M : Option BufferManager) (p : Nat) (c : BufferCore) (m : BufferManager)
    (hp : X.m_core = some p) (hcp : h.cores p = some c) (hpn : p < h.nextCore)
    (hsz : c.m_size ≤ BufferCore.max_size)
    (hse : start ≤ end_) (hes : end_ ≤ c.m_size)
    (hres : X.resolve h M = some m) (hmem : m.flags.memory = true)
    (hmod : m.flags.modify = true) (halloc : end_ - start ≠ 0 → m.alloc = .heapNew) :
    X.range h start end_ M =
      .ok ⟨some h.nextCore⟩ (h.afterCopy m (c.m_address + start) (end_ - start)) := by
  have hc : h.cell X = some c := by simp only [Heap.cell, hp, hcp]
  rw [Buffer.resolve_cell h X M c hc] at hres
  have hm : M.getD c.m_manager = m := Option.some.inj hres
  have hsize : X.size h = c.m_size := by simp only [Buffer.size, hc]
  unfold Buffer.range
  rw [if_neg (by omega), Buffer.range_manager h X M c hc, hm]
  simp only [hp, hcp, hmem, hmod, Bool.true_eq_false, or_self, if_false]
  rw [Buffer.sized_returns h m (end_ - start) hmem halloc (by omega)]
  simp only [Heap.afterSized_cell_new, Heap.afterSized_cores_old h _ _ p hpn, hcp]
  rfl

theorem Buffer.range_fail_alloc (h : Heap) (X : Buffer) (start end_ : Nat)
    (M : Option BufferManager) (c : BufferCore) (m : BufferManager)
    (hc : h.cell X = some c) (hse : start ≤ end_) (hes : end_ ≤ c.m_size)
    (hres : X.resolve h M = some m) (hmem : m.flags.memory = true)
    (hmod : m.flags.modify = true) (h0 : end_ - start ≠ 0)
    (halloc : m.alloc = .defaultAllocateFunction) :
    (X.range h start end_ M).error? = some .buf_fail_alloc := by
  obtain ⟨p, hp, hcp⟩ := Heap.cell_some h X c hc
  rw [Buffer.resolve_cell h X M c hc] at hres
  have hm : M.getD c.m_manager = m := Option.some.inj hres
  have hsize : X.size h = c.m_size := by simp only [Buffer.size, hc]
  have hs := (Buffer.sized_fail_alloc h m (end_ - start) hmem h0 halloc).2
  unfold Buffer.range
  rw [if_neg (by omega), Buffer.range_manager h X M c hc, hm]
  simp only [hp, hcp, hmem, hmod, Bool.true_eq_false, or_self, if_false]
  generalize Buffer.sized h m (end_ - start) = S at hs ⊢
  cases S with
  | ok v h1 => simp [Outcome.error?] at hs
  | threw e h1 => exact hs
  | undefined => simp [Outcome.error?] at hs

/-- The outcome of `range` on a valid range of a valid buffer with a cell, by the
capabilities of the resolved manager. -/
theorem Buffer.range_cases (h : Heap) (X : Buffer) (start end_ : Nat)
    (M : Option BufferManager) (p : Nat) (c : BufferCore) (m : BufferManager)
    (hp : X.m_core = some p) (hcp : h.cores p = some c) (hwf : h.wfCore p c)
    (hse : start ≤ end_) (hes : end_ ≤ c.m_size) (hres : X.resolve h M = some m) :
    (m.flags.memory = false ∧ X.range h start end_ M =
      .ok ⟨some h.nextCore⟩
        (BufferCore.create h m 0 (end_ - start) (c.m_address + start)).2) ∨
    (m.flags.memory = true ∧ m.flags.modify = false ∧
      X.range h start end_ M = .threw .buf_data_not_owned h) ∨
    (m.flags.memory = true ∧ m.flags.modify = true ∧
      (end_ - start ≠ 0 → m.alloc = .heapNew) ∧ X.range h start end_ M =
        .ok ⟨some h.nextCore⟩ (h.afterCopy m (c.m_address + start) (end_ - start))) ∨
    (m.flags.memory = true ∧ m.flags.modify = true ∧
      (X.range h start end_ M).error? = some .buf_fail_alloc) := by
  obtain ⟨hpn, -, hsz, -⟩ := hwf
  have hc : h.cell X = some c := by simp only [Heap.cell, hp, hcp]
  cases hmem : m.flags.memory with
  | false =>
    exact Or.inl ⟨rfl, Buffer.range_alias h X start end_ M p c m hp hcp hsz hse hes hres hmem⟩
  | true =>
    cases hmod : m.flags.modify with
    | false =>
      exact Or.inr (Or.inl ⟨rfl, rfl,
        Buffer.range_readonly h X start end_ M c m hc hse hes hres hmem hmod⟩)
    | true =>
      by_cases halloc : end_ - start ≠ 0 → m.alloc = .heapNew
      · exact Or.inr (Or.inr (Or.inl ⟨rfl, rfl, halloc,
          Buffer.range_copy h X start end_ M p c m hp hcp hpn hsz hse hes hres hmem hmod halloc⟩))
      · have h0 : end_ - start ≠ 0 := fun e => halloc (fun h1 => absurd e h1)
        have ha : m.alloc = .defaultAllocateFunction := by
          cases hh : m.alloc with
          | defaultAllocateFunction => rfl
          | heapNew => exact absurd (fun _ => hh) halloc
        exact Or.inr (Or.inr (Or.inr ⟨rfl, rfl,
          Buffer.range_fail_alloc h X start end_ M c m hc hse hes hres hmem hmod h0 ha⟩))


theorem Heap.setCore_setCore (h : Heap) (p : Nat) (x y : Option BufferCore) :
    (h.setCore p x).setCore p y = h.setCore p y := by
  apply Heap.eq_of_fields
  · rfl
  · rfl
  · intro q
    simp only [Heap.setCore]
    split_ifs <;> rfl
  · rfl

theorem Heap.setCore_cores (h : Heap) (p : Nat) (x : Option BufferCore) :
    (h.setCore p x).cores p = x := by
  simp only [Heap.setCore, if_true]

theorem Heap.setCore_create (h : Heap) (p : Nat) (x : Option BufferCore) (c : BufferCore)
    (m : BufferManager) (a b d : Nat) (hcp : h.cores p = some c) (hpn : p < h.nextCore) :
    (BufferCore.create (h.setCore p x) m a b d).2.setCore p (some c) =
      (BufferCore.create h m a b d).2 := by
  apply Heap.eq_of_fields
  · rfl
  · rfl
  · intro q
    simp only [Heap.setCore, BufferCore.create]
    by_cases hq : q = p
    · subst hq
      rw [if_pos rfl, if_neg (by omega), hcp]
    · rw [if_neg hq]
      split_ifs <;> rfl
  · rfl

theorem Heap.setCore_afterCopy (h : Heap) (p : Nat) (x : Option BufferCore) (c : BufferCore)
    (m : BufferManager) (src n : Nat) (hcp : h.cores p = some c) (hpn : p < h.nextCore) :
    ((h.setCore p x).afterCopy m src n).setCore p (some c) = h.afterCopy m src n := by
  apply Heap.eq_of_fields
  · rfl
  · rfl
  · intro q
    simp only [Heap.setCore, Heap.afterCopy, Heap.afterSized, Heap.withMem]
    by_cases hq : q = p
    · subst hq
      rw [if_pos rfl, if_neg (by omega), hcp]
    · rw [if_neg hq]
      split_ifs <;> rfl
  · rfl

theorem Iterator.create_ok (g : Heap) (p : Nat) (d : BufferCore) (index : Nat)
    (hd : g.cores p = some d) (hrc : d.m_refcount < 65535) :
    Iterator.create g (some p) index =
      .ok ⟨index, some p⟩ (g.setCore p (some { d with m_refcount := d.m_refcount + 1 })) := by
  have hinc : BUFFER_SAFE_INCREASE d.m_refcount = some (d.m_refcount + 1) := by
    unfold BUFFER_SAFE_INCREASE
    have : (d.m_refcount + 1) % 65536 = d.m_refcount + 1 := Nat.mod_eq_of_lt (by omega)
    simp only [this]
    rw [if_neg (by omega)]
  simp only [Iterator.create, hd, BufferCore.tryShare, hinc, Bool.true_eq_false, if_false]

theorem Iterator.step_ok (g : Heap) (p : Nat) (d : BufferCore) (amount : Nat)
    (hd : g.cores p = some d) (hrc : d.m_refcount < 65535)
    (hle : amount ≤ d.m_size) (hamt : amount < 2147483648) :
    Iterator.step g ⟨0, some p⟩ (toInt32 amount) =
      .ok ⟨amount, some p⟩ (g.setCore p (some { d with m_refcount := d.m_refcount + 1 })) := by
  have hmod : amount % 4294967296 = amount := Nat.mod_eq_of_lt (by omega)
  have hti : toInt32 amount = (amount : Int) := by
    unfold toInt32
    rw [hmod, if_pos hamt]
  have hsum : ((((0 : Nat) : Int) + (amount : Int)) % 4294967296).toNat = amount := by
    omega
  unfold Iterator.step
  simp only [hd, hti, hsum]
  rw [if_neg (by omega), if_neg (by omega)]
  exact Iterator.create_ok g p d amount hd hrc

theorem BufferCore.release_shared (g : Heap) (p : Nat) (d : BufferCore)
    (hd : g.cores p = some d) (hrc : 1 < d.m_refcount) (hle : d.m_refcount ≤ 65535) :
    BufferCore.release g (some p) =
      some (g.setCore p (some { d with m_refcount := d.m_refcount - 1 })) := by
  have hdec : BUFFER_SAFE_DECREASE d.m_refcount = some (d.m_refcount - 1) := by
    unfold BUFFER_SAFE_DECREASE
    have : (d.m_refcount + 65535) % 65536 = d.m_refcount - 1 := by omega
    simp only [this]
    rw [if_neg (by omega)]
  unfold BufferCore.release
  simp only [hd]
  rw [if_neg (by omega)]
  simp only [hdec]

theorem Iterator.destroyAll_shared (p : Nat) :
    ∀ (its : List Iterator) (g : Heap) (d : BufferCore), g.cores p = some d →
      (∀ it ∈ its, it.m_data = some p) → its.length < d.m_refcount → d.m_refcount ≤ 65535 →
      Iterator.destroyAll g its =
        some (g.setCore p (some { d with m_refcount := d.m_refcount - its.length })) := by
  intro its
  induction its with
  | nil =>
    intro g d hd _ _ _
    simp only [Iterator.destroyAll, List.length_nil, Nat.sub_zero]
    congr 1
    apply Heap.eq_of_fields
    · rfl
    · rfl
    · intro q
      simp only [Heap.setCore]
      split_ifs with hq
      · rw [hq, hd]
      · rfl
    · rfl
  | cons it rest ih =>
    intro g d hd hall hlen hle
    have hit : it.m_data = some p := hall it (List.mem_cons_self _ _)
    simp only [List.length_cons] at hlen
    simp only [Iterator.destroyAll, Iterator.destroy, hit,
      BufferCore.release_shared g p d hd (by omega) hle]
    rw [ih _ _ (Heap.setCore_cores _ _ _) (fun x hx => hall x (List.mem_cons_of_mem _ hx))
      (by simp only; omega) (by simp only; omega), Heap.setCore_setCore]
    simp only [List.length_cons]
    congr 4
    omega


theorem Buffer.range_returns (h h' : Heap) (X Y : Buffer) (start end_ : Nat)
    (M : Option BufferManager) (c : BufferCore) (hX : h.valid X) (hc : h.cell X = some c)
    (hrange : X.range h start end_ M = .ok Y h') :
    start ≤ end_ ∧ end_ ≤ X.size h ∧ Y.size h' = end_ - start ∧ Y.preallocated h' = 0 ∧
    ∀ i, i < end_ - start →
      Y.at h' i = .ok (X.byte h (start + i)) h' ∧
      X.at h (start + i) = .ok (X.byte h (start + i)) h := by
  obtain ⟨p, hp, hcp⟩ := Heap.cell_some h X c hc
  obtain ⟨c2, hcp2, hwf⟩ := Heap.valid_some h X p hX hp
  rw [hcp] at hcp2
  obtain rfl := Option.some.inj hcp2
  have hsize : X.size h = c.m_size := by simp only [Buffer.size, hc]
  have hdata : X.data h = c.m_address := by simp only [Buffer.data, hc]
  by_cases hbad : end_ < start ∨ end_ > X.size h
  · rw [Buffer.range_invalid h X start end_ M hbad] at hrange
    exact absurd hrange (by simp)
  · have hse : start ≤ end_ := by omega
    have hes : end_ ≤ c.m_size := by omega
    have hXat : ∀ i, i < end_ - start →
        X.at h (start + i) = .ok (X.byte h (start + i)) h := fun i hi =>
      Buffer.at_ok h X (start + i) (Heap.live_of_valid h X hX) (by omega)
    refine ⟨hse, by omega, ?_⟩
    rcases Buffer.range_cases h X start end_ M p c (M.getD c.m_manager) hp hcp hwf hse hes
      (Buffer.resolve_cell h X M c hc) with ⟨-, e⟩ | ⟨-, -, e⟩ | ⟨-, -, -, e⟩ | ⟨-, -, e⟩
    · rw [e] at hrange
      simp only [Outcome.ok.injEq] at hrange
      obtain ⟨rfl, rfl⟩ := hrange
      have hcY : (BufferCore.create h (M.getD c.m_manager) 0 (end_ - start)
          (c.m_address + start)).2.cell ⟨some h.nextCore⟩ =
          some ⟨1, 0, end_ - start, c.m_address + start, M.getD c.m_manager⟩ := by
        simp [Heap.cell, BufferCore.create]
      refine ⟨?_, ?_, ?_⟩
      · simp only [Buffer.size, hcY]
      · simp only [Buffer.preallocated, hcY]
      · intro i hi
        refine ⟨?_, hXat i hi⟩
        rw [Buffer.at_ok _ _ i (by simp [Heap.live, BufferCore.create])
          (by simp only [Buffer.size, hcY]; exact hi)]
        congr 1
        simp only [Buffer.byte, Buffer.data, hcY, hc]
        show h.mem (c.m_address + start + i) = h.mem (c.m_address + (start + i))
        rw [Nat.add_assoc]
    · rw [e] at hrange
      exact absurd hrange (by simp)
    · rw [e] at hrange
      simp only [Outcome.ok.injEq] at hrange
      obtain ⟨rfl, rfl⟩ := hrange
      refine ⟨?_, ?_, ?_⟩
      · simp only [Buffer.size, Heap.afterCopy_cell_new]
      · simp only [Buffer.preallocated, Heap.afterCopy_cell_new]
      · intro i hi
        refine ⟨?_, hXat i hi⟩
        rw [Buffer.at_ok _ _ i (Heap.afterCopy_live_new h _ _ _)
          (by simp only [Buffer.size, Heap.afterCopy_cell_new]; exact hi)]
        congr 1
        simp only [Buffer.byte, Buffer.data, Heap.afterCopy_cell_new, hc]
        rw [if_neg (by omega), Heap.afterCopy_mem_new h _ _ _ i hi, Nat.add_assoc]
    · rw [hrange] at e
      exact absurd e (by simp [Outcome.error?])

theorem Buffer.range_invalid_iff (h : Heap) (X : Buffer) (start end_ : Nat)
    (M : Option BufferManager) (c : BufferCore) (hX : h.valid X) (hc : h.cell X = some c) :
    (X.range h start end_ M).error? = some .invalid_range ↔
      (end_ < start ∨ end_ > X.size h) := by
  constructor
  · intro herr
    by_contra hbad
    obtain ⟨p, hp, hcp⟩ := Heap.cell_some h X c hc
    obtain ⟨c2, hcp2, hwf⟩ := Heap.valid_some h X p hX hp
    rw [hcp] at hcp2
    obtain rfl := Option.some.inj hcp2
    have hsize : X.size h = c.m_size := by simp only [Buffer.size, hc]
    rcases Buffer.range_cases h X start end_ M p c (M.getD c.m_manager) hp hcp hwf
      (by omega) (by omega) (Buffer.resolve_cell h X M c hc)
      with ⟨-, e⟩ | ⟨-, -, e⟩ | ⟨-, -, -, e⟩ | ⟨-, -, e⟩
    · rw [e] at herr
      simp [Outcome.error?] at herr
    · rw [e] at herr
      simp [Outcome.error?] at herr
    · rw [e] at herr
      simp [Outcome.error?] at herr
    · rw [e] at herr
      simp at herr
  · intro hbad
    rw [Buffer.range_invalid h X start end_ M hbad]
    rfl

theorem Buffer.rangeByIterators_eq (h h' : Heap) (X Y : Buffer) (start end_ : Nat)
    (M : Option BufferManager) (c : BufferCore) (hX : h.valid X) (hc : h.cell X = some c)
    (hrc1 : 1 ≤ c.m_refcount) (hrc : c.m_refcount + 4 ≤ 65535) (hend : end_ < 2147483648)
    (hrange : X.range h start end_ M = .ok Y h') :
    X.rangeByIterators h start end_ M = .ok Y h' := by
  obtain ⟨p, hp, hcp⟩ := Heap.cell_some h X c hc
  obtain ⟨c2, hcp2, hwf⟩ := Heap.valid_some h X p hX hp
  rw [hcp] at hcp2
  obtain rfl := Option.some.inj hcp2
  obtain ⟨hse, hes, -⟩ := Buffer.range_returns h h' X Y start end_ M c hX hc hrange
  have hsize : X.size h = c.m_size := by simp only [Buffer.size, hc]
  rw [hsize] at hes
  obtain ⟨hpn, hblk, hsz, hpre⟩ := hwf
  -- the four iterators
  have hb1 := Iterator.create_ok h p c 0 hcp (by omega)
  have hs1 := Iterator.step_ok (h.setCore p (some { c with m_refcount := c.m_refcount + 1 }))
    p _ start (Heap.setCore_cores _ _ _) (by simp only; omega) (by simp only; omega) (by omega)
  rw [Heap.setCore_setCore] at hs1
  have hb2 := Iterator.create_ok
    (h.setCore p (some { c with m_refcount := c.m_refcount + 1 + 1 })) p _ 0
    (Heap.setCore_cores _ _ _) (by simp only; omega)
  rw [Heap.setCore_setCore] at hb2
  have hs2 := Iterator.step_ok
    (h.setCore p (some { c with m_refcount := c.m_refcount + 1 + 1 + 1 }))
    p _ end_ (Heap.setCore_cores _ _ _) (by simp only; omega) (by simp only; omega) hend
  rw [Heap.setCore_setCore] at hs2
  simp only at hs1 hb2 hs2
  have e4 : c.m_refcount + 1 + 1 + 1 + 1 = c.m_refcount + 4 := by omega
  rw [e4] at hs2
  -- the heap in which `range` runs
  have hcp4 : (h.setCore p (some { c with m_refcount := c.m_refcount + 4 })).cores p =
      some { c with m_refcount := c.m_refcount + 4 } := Heap.setCore_cores _ _ _
  have hc4 : (h.setCore p (some { c with m_refcount := c.m_refcount + 4 })).cell X =
      some { c with m_refcount := c.m_refcount + 4 } := by
    simp only [Heap.cell, hp, hcp4]
  have hres4 := Buffer.resolve_cell _ X M _ hc4
  simp only at hres4
  unfold Buffer.rangeByIterators Buffer.begin
  simp only [hp, hb1, hs1, hb2, hs2, Buffer.rangeIter, ne_eq, not_true_eq_false, false_or,
    Nat.not_lt.mpr hse, if_false]
  have hrest : c.m_refcount + 4 - (0 + 1 + 1 + 1 + 1) = c.m_refcount := by omega
  have hall : ∀ it ∈ [(⟨end_, some p⟩ : Iterator), ⟨0, some p⟩, ⟨start, some p⟩, ⟨0, some p⟩],
      it.m_data = some p := by
    intro it hit
    simp only [List.mem_cons, List.mem_singleton, List.not_mem_nil, or_false] at hit
    rcases hit with rfl | rfl | rfl | rfl <;> rfl
  rcases Buffer.range_cases h X start end_ M p c (M.getD c.m_manager) hp hcp
      ⟨hpn, hblk, hsz, hpre⟩ hse hes (Buffer.resolve_cell h X M c hc)
    with ⟨hmem, e⟩ | ⟨-, -, e⟩ | ⟨hmem, hmod, halloc, e⟩ | ⟨-, -, e⟩
  · rw [e] at hrange
    simp only [Outcome.ok.injEq] at hrange
    obtain ⟨rfl, rfl⟩ := hrange
    rw [Buffer.range_alias _ X start end_ M p _ _ hp hcp4 hsz hse hes hres4 hmem]
    simp only [Outcome.unwind]
    rw [Iterator.destroyAll_shared p _ _ { c with m_refcount := c.m_refcount + 4 }
      (by simp [BufferCore.create, Heap.setCore, Nat.ne_of_lt hpn]) hall
      (by simp only [List.length_cons, List.length_nil]; omega) (by simp only; omega)]
    simp only [List.length_cons, List.length_nil]
    rw [hrest]
    exact congrArg (Outcome.ok _) (Heap.setCore_create h p _ c _ _ _ _ hcp hpn)
  · rw [e] at hrange
    exact absurd hrange (by simp)
  · rw [e] at hrange
    simp only [Outcome.ok.injEq] at hrange
    obtain ⟨rfl, rfl⟩ := hrange
    rw [Buffer.range_copy _ X start end_ M p _ _ hp hcp4 hpn hsz hse hes hres4 hmem hmod halloc]
    simp only [Outcome.unwind]
    rw [Iterator.destroyAll_shared p _ _ { c with m_refcount := c.m_refcount + 4 }
      (by simp [Heap.afterCopy, Heap.afterSized, Heap.withMem, Heap.setCore,
        Nat.ne_of_lt hpn]) hall
      (by simp only [List.length_cons, List.length_nil]; omega) (by simp only; omega)]
    simp only [List.length_cons, List.length_nil]
    rw [hrest]
    exact congrArg (Outcome.ok _) (Heap.setCore_afterCopy h p _ c _ _ _ hcp hpn)
  · rw [hrange] at e
    exact absurd e (by simp [Outcome.error?])


theorem Buffer.rangeByIterators_saturated (h : Heap) (X : Buffer) (start end_ : Nat)
    (M : Option BufferManager) (c : BufferCore) (hc : h.cell X = some c)
    (hrc : c.m_refcount = 65535) :
    (X.rangeByIterators h start end_ M).error? =
      some .iter_instantiation_fail_ref_overflow := by
  obtain ⟨p, hp, hcp⟩ := Heap.cell_some h X c hc
  have hinc : BUFFER_SAFE_INCREASE 65535 = none := by decide
  simp only [Buffer.rangeByIterators, Buffer.begin, hp, Iterator.create, hcp,
    BufferCore.tryShare, hrc, hinc, if_true, Outcome.error?]

theorem Iterator.create_full (g : Heap) (p : Nat) (d : BufferCore) (index : Nat)
    (hd : g.cores p = some d) (hrc : 65535 ≤ d.m_refcount) :
    Iterator.create g (some p) index = .threw .iter_instantiation_fail_ref_overflow g := by
  have hinc : BUFFER_SAFE_INCREASE d.m_refcount = none := by
    unfold BUFFER_SAFE_INCREASE
    have : (d.m_refcount + 1) % 65536 ≤ d.m_refcount := by omega
    simp only [this, if_true]
  simp only [Iterator.create, hd, BufferCore.tryShare, hinc, if_true]

theorem Iterator.step_full (g : Heap) (p : Nat) (d : BufferCore) (amount : Nat)
    (hd : g.cores p = some d) (hrc : 65535 ≤ d.m_refcount)
    (hle : amount ≤ d.m_size) (hamt : amount < 2147483648) :
    Iterator.step g ⟨0, some p⟩ (toInt32 amount) =
      .threw .iter_instantiation_fail_ref_overflow g := by
  have hmod : amount % 4294967296 = amount := Nat.mod_eq_of_lt (by omega)
  have hti : toInt32 amount = (amount : Int) := by
    unfold toInt32
    rw [hmod, if_pos hamt]
  have hsum : ((((0 : Nat) : Int) + (amount : Int)) % 4294967296).toNat = amount := by
    omega
  unfold Iterator.step
  simp only [hd, hti, hsum]
  rw [if_neg (by omega), if_neg (by omega)]
  exact Iterator.create_full g p d amount hd hrc

theorem Iterator.step_negative (g : Heap) (p : Nat) (d : BufferCore) (amount : Nat)
    (hd : g.cores p = some d) (hle : amount ≤ d.m_size) (hlo : 2147483648 ≤ amount)
    (hhi : amount < 4294967296) :
    Iterator.step g ⟨0, some p⟩ (toInt32 amount) = .threw .iter_begin_decrement g := by
  have hmod : amount % 4294967296 = amount := Nat.mod_eq_of_lt hhi
  have hti : toInt32 amount = (amount : Int) - 4294967296 := by
    unfold toInt32
    rw [hmod, if_neg (by omega)]
  have hsum : ((((0 : Nat) : Int) + ((amount : Int) - 4294967296)) % 4294967296).toNat
      = amount := by
    omega
  unfold Iterator.step
  simp only [hd, hti, hsum]
  rw [if_neg (by omega), if_pos (by omega)]

theorem Outcome.unwind_threw (p : Nat) (e : Error) (g : Heap) (its : List Iterator)
    (d : BufferCore) (hd : g.cores p = some d) (hall : ∀ it ∈ its, it.m_data = some p)
    (hlen : its.length < d.m_refcount) (hle : d.m_refcount ≤ 65535) :
    ((Outcome.threw e g : Outcome Buffer).unwind its).error? = some e ∧
    ((Outcome.threw e g : Outcome Buffer).unwind its).value? = none := by
  simp only [Outcome.unwind, Iterator.destroyAll_shared p its g d hd hall hlen hle]
  exact ⟨rfl, rfl⟩

/-- The iterator overload of `range` on a valid range when the share-count leaves no
room for four more shares or `end` does not fit the signed 32-bit offset. -/
theorem Buffer.rangeByIterators_fails (h : Heap) (X : Buffer) (start end_ : Nat)
    (M : Option BufferManager) (c : BufferCore) (hX : h.valid X) (hc : h.cell X = some c)
    (hrc1 : 1 ≤ c.m_refcount) (hse : start ≤ end_) (hes : end_ ≤ X.size h)
    (hbad : 65535 < c.m_refcount + 4 ∨ 2147483648 ≤ end_) :
    (X.rangeByIterators h start end_ M).value? = none ∧
    ((X.rangeByIterators h start end_ M).error? = some .iter_instantiation_fail_ref_overflow ∨
      (X.rangeByIterators h start end_ M).error? = some .iter_begin_decrement) ∧
    (end_ < 2147483648 →
      (X.rangeByIterators h start end_ M).error? =
        some .iter_instantiation_fail_ref_overflow) ∧
    (2147483648 ≤ end_ → c.m_refcount + 3 ≤ 65535 →
      (X.rangeByIterators h start end_ M).error? = some .iter_begin_decrement) := by
  obtain ⟨p, hp, hcp⟩ := Heap.cell_some h X c hc
  obtain ⟨c2, hcp2, hwf⟩ := Heap.valid_some h X p hX hp
  rw [hcp] at hcp2
  obtain rfl := Option.some.inj hcp2
  have hsize : X.size h = c.m_size := by simp only [Buffer.size, hc]
  rw [hsize] at hes
  obtain ⟨hpn, hblk, hsz, hpre⟩ := hwf
  simp only [BufferCore.max_size] at hsz
  -- the statement follows from the error, case by case
  have key : ∀ e, (X.rangeByIterators h start end_ M).error? = some e →
      (X.rangeByIterators h start end_ M).value? = none := by
    intro e he
    cases hr : X.rangeByIterators h start end_ M with
    | ok v g => rw [hr] at he; exact absurd he (by simp [Outcome.error?])
    | threw e2 g => rfl
    | undefined => rfl
  have fin1 : (X.rangeByIterators h start end_ M).error? =
        some .iter_instantiation_fail_ref_overflow →
      (end_ < 2147483648 ∨ 65535 < c.m_refcount + 3) →
      (X.rangeByIterators h start end_ M).value? = none ∧
      ((X.rangeByIterators h start end_ M).error? =
          some .iter_instantiation_fail_ref_overflow ∨
        (X.rangeByIterators h start end_ M).error? = some .iter_begin_decrement) ∧
      (end_ < 2147483648 →
        (X.rangeByIterators h start end_ M).error? =
          some .iter_instantiation_fail_ref_overflow) ∧
      (2147483648 ≤ end_ → c.m_refcount + 3 ≤ 65535 →
        (X.rangeByIterators h start end_ M).error? = some .iter_begin_decrement) := by
    intro he hor
    refine ⟨key _ he, Or.inl he, fun _ => he, fun h1 h2 => ?_⟩
    rcases hor with h3 | h3
    · exact absurd h1 (by omega)
    · exact absurd h2 (by omega)
  have fin2 : (X.rangeByIterators h start end_ M).error? = some .iter_begin_decrement →
      2147483648 ≤ end_ →
      (X.rangeByIterators h start end_ M).value? = none ∧
      ((X.rangeByIterators h start end_ M).error? =
          some .iter_instantiation_fail_ref_overflow ∨
        (X.rangeByIterators h start end_ M).error? = some .iter_begin_decrement) ∧
      (end_ < 2147483648 →
        (X.rangeByIterators h start end_ M).error? =
          some .iter_instantiation_fail_ref_overflow) ∧
      (2147483648 ≤ end_ → c.m_refcount + 3 ≤ 65535 →
        (X.rangeByIterators h start end_ M).error? = some .iter_begin_decrement) := by
    intro he hend
    exact ⟨key _ he, Or.inr he, fun h1 => absurd hend (by omega), fun _ _ => he⟩
  -- first iterator: `begin()`
  by_cases h0 : 65535 ≤ c.m_refcount
  · apply fin1 _ (Or.inr (by omega))
    simp only [Buffer.rangeByIterators, Buffer.begin, hp,
      Iterator.create_full h p c 0 hcp h0, Outcome.error?]
  have hb1 := Iterator.create_ok h p c 0 hcp (by omega)
  have hg1 : (h.setCore p (some { c with m_refcount := c.m_refcount + 1 })).cores p =
      some { c with m_refcount := c.m_refcount + 1 } := Heap.setCore_cores _ _ _
  have hall1 : ∀ it ∈ [(⟨0, some p⟩ : Iterator)], it.m_data = some p := by
    intro it hit
    simp only [List.mem_singleton] at hit
    rw [hit]
  -- second iterator: `begin() + start`
  by_cases hst : 2147483648 ≤ start
  · apply fin2 _ (by omega)
    have hs := Iterator.step_negative _ p _ start hg1 (by simp only; omega) hst (by omega)
    simp only [Buffer.rangeByIterators, Buffer.begin, hp, hb1, hs]
    exact (Outcome.unwind_threw p _ _ _ _ hg1 hall1
      (by simp only [List.length_cons, List.length_nil]; omega) (by simp only; omega)).1
  by_cases h1 : 65535 ≤ c.m_refcount + 1
  · apply fin1 _ (Or.inr (by omega))
    have hs := Iterator.step_full _ p _ start hg1 (by simp only; omega) (by simp only; omega)
      (by omega)
    simp only [Buffer.rangeByIterators, Buffer.begin, hp, hb1, hs]
    exact (Outcome.unwind_threw p _ _ _ _ hg1 hall1
      (by simp only [List.length_cons, List.length_nil]; omega) (by simp only; omega)).1
  have hs1 := Iterator.step_ok _ p _ start hg1 (by simp only; omega) (by simp only; omega)
    (by omega)
  rw [Heap.setCore_setCore] at hs1
  simp only at hs1
  have hg2 : (h.setCore p (some { c with m_refcount := c.m_refcount + 1 + 1 })).cores p =
      some { c with m_refcount := c.m_refcount + 1 + 1 } := Heap.setCore_cores _ _ _
  have hall2 : ∀ it ∈ [(⟨start, some p⟩ : Iterator), ⟨0, some p⟩], it.m_data = some p := by
    intro it hit
    simp only [List.mem_cons, List.mem_singleton, List.not_mem_nil, or_false] at hit
    rcases hit with rfl | rfl <;> rfl
  -- third iterator: `begin()`
  by_cases h2 : 65535 ≤ c.m_refcount + 1 + 1
  · apply fin1 _ (Or.inr (by omega))
    simp only [Buffer.rangeByIterators, Buffer.begin, hp, hb1, hs1,
      Iterator.create_full _ p _ 0 hg2 h2]
    exact (Outcome.unwind_threw p _ _ _ _ hg2 hall2
      (by simp only [List.length_cons, List.length_nil]; omega) (by simp only; omega)).1
  have hb2 := Iterator.create_ok _ p _ 0 hg2 (by simp only; omega)
  rw [Heap.setCore_setCore] at hb2
  simp only at hb2
  have hg3 : (h.setCore p (some { c with m_refcount := c.m_refcount + 1 + 1 + 1 })).cores p =
      some { c with m_refcount := c.m_refcount + 1 + 1 + 1 } := Heap.setCore_cores _ _ _
  have hall3 : ∀ it ∈ [(⟨0, some p⟩ : Iterator), ⟨start, some p⟩, ⟨0, some p⟩],
      it.m_data = some p := by
    intro it hit
    simp only [List.mem_cons, List.mem_singleton, List.not_mem_nil, or_false] at hit
    rcases hit with rfl | rfl | rfl <;> rfl
  -- fourth iterator: `begin() + end`
  by_cases hen : 2147483648 ≤ end_
  · apply fin2 _ hen
    have hs := Iterator.step_negative _ p _ end_ hg3 (by simp only; omega) hen (by omega)
    simp only [Buffer.rangeByIterators, Buffer.begin, hp, hb1, hs1, hb2, hs]
    exact (Outcome.unwind_threw p _ _ _ _ hg3 hall3
      (by simp only [List.length_cons, List.length_nil]; omega) (by simp only; omega)).1
  have h3 : 65535 ≤ c.m_refcount + 1 + 1 + 1 := by omega
  apply fin1 _ (Or.inl (by omega))
  have hs := Iterator.step_full _ p _ end_ hg3 (by simp only; omega) (by simp only; omega)
    (by omega)
  simp only [Buffer.rangeByIterators, Buffer.begin, hp, hb1, hs1, hb2, hs]
  exact (Outcome.unwind_threw p _ _ _ _ hg3 hall3
    (by simp only [List.length_cons, List.length_nil]; omega) (by simp only; omega)).1

/-- C14 (amended). For a valid buffer `X` with a cell and every manager choice `M`:
`range(start, end, M)` throws the invalid-range error if and only if `start > end`
or `end > X.size()`; when it returns a buffer `Y`, then `Y.size() == end - start`,
`Y.preallocated() == 0` and `Y.at(i) == X.at(start + i)` for every `i < end - start`;
and the iterator overload `range(begin() + start, begin() + end, M)` returns the same
buffer in the same heap provided that the share-count of `X` is at least 1 and at
most 65531 (the call constructs four iterators that share the cell) and
`end < 2^31` (iterator offsets are 32-bit signed). With share-count 65535 the
iterator overload throws the iterator-instantiation error. For every valid range
(`start <= end <= X.size()`) and share-count at least 1, when the share-count is
above 65531 or `end >= 2^31`, the iterator overload returns no buffer and throws
the iterator-instantiation error or the begin-decrement error: the
iterator-instantiation error when `end < 2^31`, and the begin-decrement error when
`end >= 2^31` and the share-count is at most 65532. -/
theorem Buffer.range_spec (h : Heap) (X : Buffer) (start end_ : Nat)
    (M : Option BufferManager) (c : BufferCore) (hX : h.valid X) (hc : h.cell X = some c) :
    ((X.range h start end_ M).error? = some .invalid_range ↔
      (end_ < start ∨ end_ > X.size h)) ∧
    (∀ Y h', X.range h start end_ M = .ok Y h' →
      Y.size h' = end_ - start ∧ Y.preallocated h' = 0 ∧
      (∀ i, i < end_ - start →
        Y.at h' i = .ok (X.byte h (start + i)) h' ∧
        X.at h (start + i) = .ok (X.byte h (start + i)) h) ∧
      (1 ≤ c.m_refcount → c.m_refcount + 4 ≤ 65535 → end_ < 2147483648 →
        X.rangeByIterators h start end_ M = .ok Y h')) ∧
    (c.m_refcount = 65535 →
      (X.rangeByIterators h start end_ M).error? =
        some .iter_instantiation_fail_ref_overflow) ∧
    (1 ≤ c.m_refcount → start ≤ end_ → end_ ≤ X.size h →
      (65535 < c.m_refcount + 4 ∨ 2147483648 ≤ end_) →
      (X.rangeByIterators h start end_ M).value? = none ∧
      ((X.rangeByIterators h start end_ M).error? =
          some .iter_instantiation_fail_ref_overflow ∨
        (X.rangeByIterators h start end_ M).error? = some .iter_begin_decrement) ∧
      (end_ < 2147483648 →
        (X.rangeByIterators h start end_ M).error? =
          some .iter_instantiation_fail_ref_overflow) ∧
      (2147483648 ≤ end_ → c.m_refcount + 3 ≤ 65535 →
        (X.rangeByIterators h start end_ M).error? = some .iter_begin_decrement)) := by
  refine ⟨Buffer.range_invalid_iff h X start end_ M c hX hc, ?_,
    Buffer.rangeByIterators_saturated h X start end_ M c hc,
    Buffer.rangeByIterators_fails h X start end_ M c hX hc⟩
  intro Y h' hrange
  obtain ⟨-, -, h1, h2, h3⟩ := Buffer.range_returns h h' X Y start end_ M c hX hc hrange
  exact ⟨h1, h2, h3, fun hrc1 hrc hend =>
    Buffer.rangeByIterators_eq h h' X Y start end_ M c hX hc hrc1 hrc hend hrange⟩

/-- Witness for C14 on the test section "ranges": `range(3, 5)` of the static buffer
`01 23 45 67 89 AB`, by indices and by iterators, and the rejected `range(5, 3)`. -/
theorem Buffer.range_spec_witness :
    Example.reverseData.valid ⟨some 0⟩ ∧
    (∃ Y h', Buffer.range Example.reverseData ⟨some 0⟩ 3 5 none = .ok Y h' ∧
      Y.size h' = 2 ∧ Y.preallocated h' = 0 ∧ Y.at h' 0 = .ok 0x67 h' ∧
      Y.at h' 1 = .ok 0x89 h' ∧
      Buffer.rangeByIterators Example.reverseData ⟨some 0⟩ 3 5 none = .ok Y h') ∧
    (Buffer.range Example.reverseData ⟨some 0⟩ 5 3 none).error? = some .invalid_range := by
  have hr : Buffer.range Example.reverseData ⟨some 0⟩ 3 5 none = .ok ⟨some 1⟩
      (BufferCore.create Example.reverseData Buffer.staticManager 0 (5 - 3) (1 + 3)).2 :=
    Buffer.range_alias Example.reverseData ⟨some 0⟩ 3 5 none 0
      ⟨1, 0, 6, 1, Buffer.staticManager⟩ Buffer.staticManager rfl rfl (by decide) (by decide)
      (by decide) rfl rfl
  have hs := Buffer.range_spec Example.reverseData ⟨some 0⟩ 3 5 none
    ⟨1, 0, 6, 1, Buffer.staticManager⟩ (by decide) rfl
  have hb := Buffer.range_spec Example.reverseData ⟨some 0⟩ 5 3 none
    ⟨1, 0, 6, 1, Buffer.staticManager⟩ (by decide) rfl
  obtain ⟨h1, h2, h3, h4⟩ := hs.2.1 _ _ hr
  exact ⟨by decide, ⟨_, _, hr, h1, h2, (h3 0 (by decide)).1, (h3 1 (by decide)).1,
    h4 (by decide) (by decide) (by decide)⟩, hb.1.2 (Or.inl (by decide))⟩

/-- Counterexample to C14 as stated. On the heap buffer `01 02 03 04` whose
share-count is 65535, `range(1, 3, staticManager)` returns a buffer of size 2, but
`range(begin() + 1, begin() + 3, staticManager)` returns none: `begin()` throws the
iterator-instantiation error. On the static buffer of `2^32 - 1` bytes,
`range(0, 2^31)` returns a buffer of size `2^31`, but the iterator overload throws:
the offset `2^31` does not fit the 32-bit signed parameter of `operator+`. -/
theorem Buffer.range_spec_counterexample :
    Example.saturatedData.valid ⟨some 0⟩ ∧
    (Buffer.range Example.saturatedData ⟨some 0⟩ 1 3 (some Buffer.staticManager)).observe?
      (fun Y h => Y.size h) = some 2 ∧
    (Buffer.rangeByIterators Example.saturatedData ⟨some 0⟩ 1 3
      (some Buffer.staticManager)).value? = none ∧
    (Buffer.rangeByIterators Example.saturatedData ⟨some 0⟩ 1 3
      (some Buffer.staticManager)).error? = some .iter_instantiation_fail_ref_overflow ∧
    Example.hugeData.valid ⟨some 0⟩ ∧
    (Buffer.range Example.hugeData ⟨some 0⟩ 0 2147483648 none).observe?
      (fun Y h => Y.size h) = some 2147483648 ∧
    (Buffer.rangeByIterators Example.hugeData ⟨some 0⟩ 0 2147483648 none).value? = none ∧
    (Buffer.rangeByIterators Example.hugeData ⟨some 0⟩ 0 2147483648 none).error?
      = some .iter_begin_decrement := by
  refine ⟨by decide, by decide, by decide, by decide, by decide, by decide, by decide,
    by decide⟩


theorem Buffer.assignAt_fresh (h : Heap) (m : BufferManager) (src n i : Nat) (v : Byte)
    (hmod : m.flags.modify = true) :
    (i < n → Buffer.assignAt (h.afterCopy m src n) ⟨some h.nextCore⟩ i v =
      .ok () ((h.afterCopy m src n).write (h.brk + 1 + i) v)) ∧
    (∀ h'', Buffer.assignAt (h.afterCopy m src n) ⟨some h.nextCore⟩ i v = .ok () h'' →
      i < n ∧ h'' = (h.afterCopy m src n).write (h.brk + 1 + i) v) := by
  have hcores : (h.afterCopy m src n).cores h.nextCore =
      some ⟨1, 0, n, if n = 0 then 0 else h.brk + 1, m⟩ := by
    have := Heap.afterCopy_cell_new h m src n
    simpa [Heap.cell] using this
  by_cases hi : i < n
  · have hval : Buffer.assignAt (h.afterCopy m src n) ⟨some h.nextCore⟩ i v =
        .ok () ((h.afterCopy m src n).write (h.brk + 1 + i) v) := by
      simp only [Buffer.assignAt, Buffer.atRef, hcores, hmod, Bool.true_eq_false, if_false]
      rw [if_neg (by omega), if_neg (by omega)]
    refine ⟨fun _ => hval, ?_⟩
    intro h'' e
    rw [hval] at e
    simp only [Outcome.ok.injEq, true_and] at e
    exact ⟨hi, e.symm⟩
  · refine ⟨fun hlt => absurd hlt hi, ?_⟩
    intro h'' e
    simp only [Buffer.assignAt, Buffer.atRef, hcores, hmod, Bool.true_eq_false, if_false] at e
    rw [if_pos (by omega)] at e
    exact absurd e (by simp)

theorem Buffer.range_deep_copy (h : Heap) (X : Buffer) (start end_ : Nat)
    (M : Option BufferManager) (c : BufferCore) (m : BufferManager)
    (hX : h.valid X) (hc : h.cell X = some c) (hse : start ≤ end_) (hes : end_ ≤ X.size h)
    (hres : X.resolve h M = some m) (hmem : m.flags.memory = true)
    (hmod : m.flags.modify = true) (halloc : end_ - start ≠ 0 → m.alloc = .heapNew) :
    ∃ Y h', X.range h start end_ M = .ok Y h' ∧ Y.manager h' = some m ∧
      (0 < end_ - start → h.brk < Y.data h') ∧ h'.cell X = h.cell X ∧
      X.bytes h' = X.bytes h ∧
      (∀ i v, i < end_ - start → ∃ h'', Y.assignAt h' i v = .ok () h'') ∧
      (∀ i v h'', Y.assignAt h' i v = .ok () h'' →
        (∀ a, a ≤ h.brk → h''.mem a = h.mem a) ∧ h''.cell X = h.cell X ∧
        X.bytes h'' = X.bytes h ∧ Y.at h'' i = .ok v h'') := by
  obtain ⟨p, hp, hcp⟩ := Heap.cell_some h X c hc
  obtain ⟨c2, hcp2, hwf⟩ := Heap.valid_some h X p hX hp
  rw [hcp] at hcp2
  obtain rfl := Option.some.inj hcp2
  have hsize : X.size h = c.m_size := by simp only [Buffer.size, hc]
  rw [hsize] at hes
  have hblk := (Heap.valid_block h X hX).1
  have hcellX := Heap.afterCopy_cell_old h m (c.m_address + start) (end_ - start) X hX
  refine ⟨⟨some h.nextCore⟩, h.afterCopy m (c.m_address + start) (end_ - start),
    Buffer.range_copy h X start end_ M p c m hp hcp hwf.1 hwf.2.2.1 hse hes hres hmem hmod halloc,
    ?_, ?_, hcellX, Heap.afterCopy_bytes_old h m _ _ X hX, ?_, ?_⟩
  · simp only [Buffer.manager, Heap.afterCopy_cell_new]
  · intro hpos
    simp only [Buffer.data, Heap.afterCopy_cell_new]
    rw [if_neg (by omega)]
    omega
  · intro i v hi
    exact ⟨_, (Buffer.assignAt_fresh h m _ _ i v hmod).1 hi⟩
  · intro i v h'' e
    obtain ⟨hi, rfl⟩ := (Buffer.assignAt_fresh h m _ _ i v hmod).2 h'' e
    have hmemold : ∀ a, a ≤ h.brk →
        ((h.afterCopy m (c.m_address + start) (end_ - start)).write (h.brk + 1 + i) v).mem a
          = h.mem a := by
      intro a ha
      simp only [Heap.write]
      rw [if_neg (by omega)]
      exact Heap.afterCopy_mem_old h m _ _ a ha
    have hcell'' : ((h.afterCopy m (c.m_address + start) (end_ - start)).write
        (h.brk + 1 + i) v).cell X = h.cell X := hcellX
    refine ⟨hmemold, hcell'', ?_, ?_⟩
    · unfold Buffer.bytes
      rw [Buffer.size_congr _ _ X hcell'', Buffer.data_congr _ _ X hcell'']
      apply readBytes_congr
      intro k hk
      exact hmemold _ (by omega)
    · have hcY : ((h.afterCopy m (c.m_address + start) (end_ - start)).write
          (h.brk + 1 + i) v).cell ⟨some h.nextCore⟩ =
          some ⟨1, 0, end_ - start, if end_ - start = 0 then 0 else h.brk + 1, m⟩ :=
        Heap.afterCopy_cell_new h m (c.m_address + start) (end_ - start)
      rw [Buffer.at_ok ((h.afterCopy m (c.m_address + start) (end_ - start)).write
          (h.brk + 1 + i) v) ⟨some h.nextCore⟩ i
        (Heap.afterCopy_live_new h m (c.m_address + start) (end_ - start))
        (by simp only [Buffer.size, hcY]; exact hi)]
      congr 1
      simp only [Buffer.byte, Buffer.data, hcY]
      rw [if_neg (by omega)]
      simp only [Heap.write, if_true]

/-- C15 (amended). For a valid buffer `X` with a cell, `start <= end <= X.size()` and the
resolved manager `m` (the argument, else the manager of `X`): if `m` lacks
`canAllocate`, `range` returns a zero-copy alias bound to `m` with
`data() == X.data() + start` and size `end - start`, and neither memory nor the
allocation frontier changes; if `m` has `canAllocate` but lacks `canMutate`, `range`
returns no buffer: it throws the data-not-owned error; if `m` has both (and its
allocate function returns storage, or the range is empty), `range` returns a deep
copy bound to `m` in storage allocated by the call, above every block that existed
before, and a later write `Y.at(i) = v` into the result succeeds for `i < end - start`,
is read back from the result, and changes no byte that existed before the call, so
no byte of `X`. -/
theorem Buffer.range_alias_or_copy (h : Heap) (X : Buffer) (start end_ : Nat)
    (M : Option BufferManager) (c : BufferCore) (m : BufferManager)
    (hX : h.valid X) (hc : h.cell X = some c) (hse : start ≤ end_) (hes : end_ ≤ X.size h)
    (hres : X.resolve h M = some m) :
    (m.flags.memory = false →
      ∃ Y h', X.range h start end_ M = .ok Y h' ∧ Y.data h' = X.data h + start ∧
        Y.size h' = end_ - start ∧ Y.manager h' = some m ∧ h'.mem = h.mem ∧
        h'.brk = h.brk) ∧
    (m.flags.memory = true → m.flags.modify = false →
      X.range h start end_ M = .threw .buf_data_not_owned h) ∧
    (m.flags.memory = true → m.flags.modify = true →
      (end_ - start ≠ 0 → m.alloc = .heapNew) →
      ∃ Y h', X.range h start end_ M = .ok Y h' ∧ Y.manager h' = some m ∧
        (0 < end_ - start → h.brk < Y.data h') ∧ h'.cell X = h.cell X ∧
        X.bytes h' = X.bytes h ∧
        (∀ i v, i < end_ - start → ∃ h'', Y.assignAt h' i v = .ok () h'') ∧
        (∀ i v h'', Y.assignAt h' i v = .ok () h'' →
          (∀ a, a ≤ h.brk → h''.mem a = h.mem a) ∧ h''.cell X = h.cell X ∧
          X.bytes h'' = X.bytes h ∧ Y.at h'' i = .ok v h'')) := by
  have hsize : X.size h = c.m_size := by simp only [Buffer.size, hc]
  have hdata : X.data h = c.m_address := by simp only [Buffer.data, hc]
  refine ⟨?_, ?_, ?_⟩
  · intro hmem
    obtain ⟨p, hp, hcp⟩ := Heap.cell_some h X c hc
    obtain ⟨c2, hcp2, hwf⟩ := Heap.valid_some h X p hX hp
    rw [hcp] at hcp2
    obtain rfl := Option.some.inj hcp2
    refine ⟨_, _, Buffer.range_alias h X start end_ M p c m hp hcp hwf.2.2.1 hse
      (by omega) hres hmem, ?_, ?_, ?_, rfl, rfl⟩
    · simp [Buffer.data, Heap.cell, BufferCore.create, hp, hcp]
    · simp [Buffer.size, Heap.cell, BufferCore.create]
    · simp [Buffer.manager, Heap.cell, BufferCore.create]
  · intro hmem hmod
    exact Buffer.range_readonly h X start end_ M c m hc hse (by omega) hres hmem hmod
  · intro hmem hmod halloc
    exact Buffer.range_deep_copy h X start end_ M c m hX hc hse hes hres hmem hmod halloc

/-- Witness for C15 on the test section "ranges": `range(3, 5)` of the static buffer
`01 23 45 67 89 AB` is an alias at `data() + 3`; `range(3, 5, onHeap)` is a copy, and
the write `range3[1] = 0x99` leaves the bytes of the static buffer as they were. -/
theorem Buffer.range_alias_or_copy_witness :
    Example.reverseData.valid ⟨some 0⟩ ∧
    (∃ Y h', Buffer.range Example.reverseData ⟨some 0⟩ 3 5 none = .ok Y h' ∧
      Y.data h' = Buffer.data Example.reverseData ⟨some 0⟩ + 3 ∧
      Y.manager h' = some Buffer.staticManager ∧ h'.brk = Example.reverseData.brk) ∧
    (∃ Y h' h'', Buffer.range Example.reverseData ⟨some 0⟩ 3 5 (some Buffer.heapManager)
        = .ok Y h' ∧ Y.manager h' = some Buffer.heapManager ∧
      Example.reverseData.brk < Y.data h' ∧ Y.assignAt h' 1 0x99 = .ok () h'' ∧
      Y.at h'' 1 = .ok 0x99 h'' ∧
      Buffer.bytes h'' ⟨some 0⟩ = [0x01, 0x23, 0x45, 0x67, 0x89, 0xAB]) := by
  have ha := Buffer.range_alias_or_copy Example.reverseData ⟨some 0⟩ 3 5 none
    ⟨1, 0, 6, 1, Buffer.staticManager⟩ Buffer.staticManager (by decide) rfl (by decide)
    (by decide) rfl
  have hh := Buffer.range_alias_or_copy Example.reverseData ⟨some 0⟩ 3 5
    (some Buffer.heapManager) ⟨1, 0, 6, 1, Buffer.staticManager⟩ Buffer.heapManager
    (by decide) rfl (by decide) (by decide) rfl
  obtain ⟨Y, h', e, h1, -, h3, -, h5⟩ := ha.1 rfl
  obtain ⟨Z, g, e2, g1, g2, -, -, g5, g6⟩ := hh.2.2 rfl rfl (fun _ => rfl)
  obtain ⟨g', e3⟩ := g5 1 0x99 (by decide)
  obtain ⟨-, -, k3, k4⟩ := g6 1 0x99 g' e3
  exact ⟨by decide, ⟨Y, h', e, h1, h3, h5⟩,
    ⟨Z, g, g', e2, g1, g2 (by decide), e3, k4, k3.trans (by decide)⟩⟩

/-- Counterexample to C15 as stated: the manager `readOnlyOwningManager` lacks
`canMutate`, yet `range(1, 3, manager)` of the heap buffer `01 02 03 04` returns no
alias: it throws the data-not-owned error, because the alias is built by the
external-data constructor, which rejects every manager that has `canAllocate`. -/
theorem Buffer.range_alias_or_copy_counterexample :
    Example.sharedData.valid ⟨some 0⟩ ∧
    Example.readOnlyOwningManager.flags.modify = false ∧
    1 ≤ 3 ∧ 3 ≤ Buffer.size Example.sharedData ⟨some 0⟩ ∧
    (Buffer.range Example.sharedData ⟨some 0⟩ 1 3
      (some Example.readOnlyOwningManager)).value? = none ∧
    (Buffer.range Example.sharedData ⟨some 0⟩ 1 3
      (some Example.readOnlyOwningManager)).error? = some .buf_data_not_owned := by
  refine ⟨by decide, rfl, by decide, by decide, by decide, by decide⟩


/-! ## Headroom -/

/-- C16 (evaluation). `Buffer::HeapPreall(4)` gives an exclusively owned heap buffer with
`size() == 0` and `preallocated() == 4`. `selfPreallocate(2^64 - 2)` on it returns, but
the test `preallocated() + extra > max_preall` is formed in `std::size_t` and wraps to
`2 > 65535`, so nothing is capped: the call allocates `(4 + 2^64 - 2) mod 2^64 = 2` bytes
and leaves `preallocated() == 2`, not `min(4 + (2^64 - 2), 65535) == 65535`. -/
theorem Buffer.selfPreallocate_wraps :
    (Buffer.HeapPreall Example.emptyHeap 4).observe? (fun X h => (X.size h, X.preallocated h))
      = some (0, 4) ∧
    observeSelf? ((Buffer.HeapPreall Example.emptyHeap 4).thenSelf
        (fun X h => X.selfPreallocate h 18446744073709551614 none))
      (fun X h => (X.size h, X.preallocated h)) = some (0, 2) ∧
    min (4 + 18446744073709551614) 65535 = 65535 := by
  refine ⟨by decide, by decide, by decide⟩

/-- C17 (evaluation). The borrowed buffer `01 02 03 04` at cell 1 is exclusively owned and
bound to `stackManager`; `heapManager` can allocate and mutate and differs from it.
`selfPreallocate(4, heapManager)` does not fork the buffer into a cell bound to
`heapManager`: it asks the old manager of the cell for storage and throws the
allocation-failed error, leaving the buffer bound to `stackManager` with headroom 0.
On the exclusively owned heap buffer at cell 0, `selfPreallocate(4, arenaManager)`
returns, but the buffer keeps its cell and stays bound to `heapManager`. The shared
heap buffer of `Example.sharedData` is forked into a new cell bound to the manager
passed. -/
theorem Buffer.selfPreallocate_ignores_manager :
    (Example.insertData.cell ⟨some 1⟩).map (fun c => (c.m_refcount, c.m_manager))
      = some (1, Buffer.stackManager) ∧
    Buffer.heapManager.flags.memory = true ∧ Buffer.heapManager.flags.modify = true ∧
    (Buffer.selfPreallocate Example.insertData ⟨some 1⟩ 4 (some Buffer.heapManager)).1
      = ⟨some 1⟩ ∧
    (Buffer.selfPreallocate Example.insertData ⟨some 1⟩ 4 (some Buffer.heapManager)).2.error?
      = some .buf_fail_alloc ∧
    observeSelf? (Buffer.selfPreallocate Example.insertData ⟨some 1⟩ 4
      (some Buffer.heapManager)) (fun X h => X.preallocated h) = none ∧
    (Buffer.selfPreallocate Example.insertData ⟨some 0⟩ 4 (some Example.arenaManager)).1
      = ⟨some 0⟩ ∧
    observeSelf? (Buffer.selfPreallocate Example.insertData ⟨some 0⟩ 4
      (some Example.arenaManager)) (fun X h => (X.manager h, X.preallocated h))
      = some (some Buffer.heapManager, 4) ∧
    observeSelf? (Buffer.selfPreallocate Example.sharedData ⟨some 0⟩ 4
      (some Example.arenaManager)) (fun X h => (X, X.manager h, X.preallocated h, X.bytes h))
      = some (⟨some 1⟩, some Example.arenaManager, 4, [0x01, 0x02, 0x03, 0x04]) := by
  refine ⟨by decide, rfl, rfl, by decide, by decide, by decide, by decide, by decide,
    by decide⟩


/-! ## Element access -/

theorem Buffer.at_cases (h : Heap) (X : Buffer) (i : Nat) :
    (X.m_core = none → X.at h i = .threw .buf_ref_empty h) ∧
    (∀ c, h.cell X = some c →
      (i < c.m_size → X.at h i = .ok (h.mem (c.m_address + i)) h) ∧
      (c.m_size ≤ i → X.at h i = .threw .buf_ref_index_invalid h)) := by
  refine ⟨?_, ?_⟩
  · intro hn
    simp only [Buffer.at, hn]
  · intro c hc
    obtain ⟨p, hp, hcp⟩ := Heap.cell_some h X c hc
    refine ⟨?_, ?_⟩
    · intro hi
      simp only [Buffer.at, hp, hcp]
      rw [if_neg (by omega)]
    · intro hi
      simp only [Buffer.at, hp, hcp]
      rw [if_pos hi]

theorem Buffer.atRef_cases (h : Heap) (X : Buffer) (i : Nat) :
    (X.m_core = none → X.atRef h i = .threw .buf_ref_empty h) ∧
    (∀ c, h.cell X = some c →
      (c.m_manager.flags.modify = false → X.atRef h i = .threw .buf_readonly h) ∧
      (c.m_manager.flags.modify = true → c.m_size ≤ i →
        X.atRef h i = .threw .buf_ref_index_invalid h) ∧
      (c.m_manager.flags.modify = true → i < c.m_size →
        X.atRef h i = .ok (c.m_address + i) h)) := by
  refine ⟨?_, ?_⟩
  · intro hn
    simp only [Buffer.atRef, hn]
  · intro c hc
    obtain ⟨p, hp, hcp⟩ := Heap.cell_some h X c hc
    refine ⟨?_, ?_, ?_⟩
    · intro hm
      simp only [Buffer.atRef, hp, hcp, hm, if_true]
    · intro hm hi
      simp only [Buffer.atRef, hp, hcp, hm, Bool.true_eq_false, if_false]
      rw [if_pos hi]
    · intro hm hi
      simp only [Buffer.atRef, hp, hcp, hm, Bool.true_eq_false, if_false]
      rw [if_neg (by omega)]

theorem Buffer.assignAt_ok (h : Heap) (X : Buffer) (i : Nat) (v : Byte) (c : BufferCore)
    (hc : h.cell X = some c) (hm : c.m_manager.flags.modify = true) (hi : i < c.m_size) :
    X.assignAt h i v = .ok () (h.write (c.m_address + i) v) := by
  simp only [Buffer.assignAt, ((Buffer.atRef_cases h X i).2 c hc).2.2 hm hi]

/-- C21. For a live buffer `X` and an index `i`: the read `at(i)` returns byte `i` (the
byte stored at `data() + i`) if and only if `X` has a cell and `i < X.size()`; it
throws the empty-buffer error when `X` has no cell and the invalid-index error when
`i >= size`. The mutable `at(i)` throws the empty-buffer error when `X` has no cell
and the read-only error when the manager of `X` lacks `canMutate` (so always on a
buffer bound to `staticManager`); when the manager has `canMutate` it throws the
invalid-index error for `i >= size` and returns a reference to the byte at
`data() + i` for `i < size`. A write `X.at(i) = v` through that reference stores
`v` at address `data() + i` of the memory that the buffer borrows, leaves every
other byte as it was, and is read back by `at(i)`. -/
theorem Buffer.at_spec (h : Heap) (X : Buffer) (i : Nat) (hX : h.live X) :
    ((X.at h i).value? ≠ none ↔ (h.cell X ≠ none ∧ i < X.size h)) ∧
    (X.m_core = none → X.at h i = .threw .buf_ref_empty h ∧
      X.atRef h i = .threw .buf_ref_empty h) ∧
    (∀ c, h.cell X = some c →
      (i < c.m_size → X.at h i = .ok (X.byte h i) h) ∧
      (c.m_size ≤ i → X.at h i = .threw .buf_ref_index_invalid h) ∧
      (c.m_manager.flags.modify = false → X.atRef h i = .threw .buf_readonly h) ∧
      (c.m_manager = Buffer.staticManager → X.atRef h i = .threw .buf_readonly h) ∧
      (c.m_manager.flags.modify = true → c.m_size ≤ i →
        X.atRef h i = .threw .buf_ref_index_invalid h) ∧
      (c.m_manager.flags.modify = true → i < c.m_size →
        X.atRef h i = .ok (X.data h + i) h ∧
        ∀ v, ∃ h', X.assignAt h i v = .ok () h' ∧ h'.mem (X.data h + i) = v ∧
          (∀ a, a ≠ X.data h + i → h'.mem a = h.mem a) ∧ h'.cell X = h.cell X ∧
          X.at h' i = .ok v h')) := by
  obtain ⟨hnull, hcell⟩ := Buffer.at_cases h X i
  obtain ⟨hrnull, hrcell⟩ := Buffer.atRef_cases h X i
  refine ⟨?_, fun hn => ⟨hnull hn, hrnull hn⟩, ?_⟩
  · cases hc : h.cell X with
    | none =>
      cases hp : X.m_core with
      | none => simp [hnull hp, Outcome.value?]
      | some p =>
        exfalso
        unfold Heap.live at hX
        rw [hp] at hX
        simp only [Heap.cell, hp] at hc
        exact hX hc
    | some c =>
      have hs : X.size h = c.m_size := by simp only [Buffer.size, hc]
      by_cases hi : i < c.m_size
      · simp [((hcell c hc).1 hi), Outcome.value?, hs, hi]
      · simp [((hcell c hc).2 (by omega)), Outcome.value?, hs, hi]
  · intro c hc
    have hd : X.data h = c.m_address := by simp only [Buffer.data, hc]
    obtain ⟨p, hp, hcp⟩ := Heap.cell_some h X c hc
    refine ⟨?_, (hcell c hc).2, (hrcell c hc).1, ?_, (hrcell c hc).2.1, ?_⟩
    · intro hi
      rw [(hcell c hc).1 hi]
      simp only [Buffer.byte, hd]
    · intro hs
      exact (hrcell c hc).1 (by rw [hs]; rfl)
    · intro hm hi
      rw [hd]
      refine ⟨(hrcell c hc).2.2 hm hi, ?_⟩
      intro v
      have hc' : (h.write (c.m_address + i) v).cell X = some c := hc
      refine ⟨_, Buffer.assignAt_ok h X i v c hc hm hi, ?_, ?_, hc'.trans hc.symm, ?_⟩
      · simp only [Heap.write, if_true]
      · intro a ha
        simp only [Heap.write]
        rw [if_neg ha]
      · rw [((Buffer.at_cases (h.write (c.m_address + i) v) X i).2 c hc').1 hi]
        simp only [Heap.write, if_true]

/-- Witness for C21 on the test section "modifying data": the borrowed (stack) buffer
`00 01 02` at address 1, and the static buffer `01 02 03`. -/
theorem Buffer.at_spec_witness :
    Example.comparisons.live ⟨some 0⟩ ∧
    Buffer.at Example.comparisons ⟨some 0⟩ 1 = .ok 0x01 Example.comparisons ∧
    Buffer.at Example.comparisons ⟨some 0⟩ 3
      = .threw .buf_ref_index_invalid Example.comparisons ∧
    (∃ h', Buffer.assignAt Example.comparisons ⟨some 0⟩ 1 0x10 = .ok () h' ∧
      h'.mem 2 = 0x10 ∧ Buffer.at h' ⟨some 0⟩ 1 = .ok 0x10 h') ∧
    Buffer.atRef Example.eraseData ⟨some 0⟩ 1 = .threw .buf_readonly Example.eraseData := by
  have hs := Buffer.at_spec Example.comparisons ⟨some 0⟩ 1 (by decide)
  have hb := Buffer.at_spec Example.comparisons ⟨some 0⟩ 3 (by decide)
  have ht := Buffer.at_spec Example.eraseData ⟨some 0⟩ 1 (by decide)
  obtain ⟨h1, -, -, -, -, h6⟩ := hs.2.2 ⟨1, 0, 3, 1, Buffer.stackManager⟩ rfl
  obtain ⟨h', e, m1, -, -, m4⟩ := (h6 rfl (by decide)).2 0x10
  exact ⟨by decide,
    (h1 (by decide)).trans
      (congrArg (fun b => Outcome.ok b Example.comparisons) (by decide)),
    (hb.2.2 ⟨1, 0, 3, 1, Buffer.stackManager⟩ rfl).2.1 (by decide),
    ⟨h', e, m1, m4⟩,
    (ht.2.2 ⟨1, 0, 3, 1, Buffer.staticManager⟩ rfl).2.2.2.1 rfl⟩


/-! ## Representation -/

theorem readBytes_succ (mem : Nat → Byte) (a n : Nat) :
    readBytes mem a (n + 1) = mem a :: readBytes mem (a + 1) n := by
  have e : n + 1 = 1 + n := Nat.add_comm n 1
  rw [e, readBytes_append]
  rfl

theorem representLoop_eq (item : Nat → List Char) (spec : List Byte → List Char)
    (hnil : spec [] = []) (hcons : ∀ b bs, spec (b :: bs) = item b.val ++ spec bs)
    (mem : Nat → Byte) (a : Nat) :
    ∀ (n i : Nat), representLoop item mem a i n = spec (readBytes mem (a + i) n) := by
  intro n
  induction n with
  | zero =>
    intro i
    simp only [representLoop, readBytes, List.range_zero, List.map_nil, hnil]
  | succ n ih =>
    intro i
    rw [readBytes_succ, hcons, representLoop, ih (i + 1), Nat.add_assoc]

set_option maxRecDepth 1000000 in
theorem streamHex_upper : ∀ b : Byte, streamHex true '0' 2 b.val =
    [specHexDigit false (b.val / 16), specHexDigit false (b.val % 16)] := by
  decide

set_option maxRecDepth 1000000 in
theorem streamHex_lower : ∀ b : Byte, streamHex false '0' 2 b.val =
    [specHexDigit true (b.val / 16), specHexDigit true (b.val % 16)] := by
  decide

set_option maxRecDepth 1000000 in
theorem streamBits_eq : ∀ b : Byte, streamBits b.val = specBits b := by
  decide

theorem Representation.flag_iff (form i : Nat) :
    (form &&& 2 ^ i = 2 ^ i) ↔ form.testBit i = true := by
  rw [Nat.and_two_pow]
  cases form.testBit i with
  | false =>
    simp only [Bool.toNat_false, Nat.zero_mul, Bool.false_eq_true, iff_false]
    exact (Nat.ne_of_gt (Nat.two_pow_pos i)).symm ∘ Eq.symm ∘ Eq.symm
  | true => simp

theorem Representation.flag_zero_iff (form i : Nat) :
    (form &&& 2 ^ i = 0) ↔ form.testBit i = false := by
  rw [Nat.and_two_pow]
  cases form.testBit i with
  | false => simp
  | true =>
    simp only [Bool.toNat_true, Nat.one_mul, Bool.true_eq_false, iff_false]
    exact Nat.ne_of_gt (Nat.two_pow_pos i)

theorem Buffer.represent_hex (h : Heap) (X : Buffer) (form : Nat) (c : BufferCore)
    (hc : h.cell X = some c) (hn : 0 < c.m_size) (hhex : form.testBit 0 = true) :
    X.represent h form = .ok (String.mk
      ((if form.testBit 3 then ['0', 'x'] else []) ++
        specHex (form.testBit 2) (X.bytes h))) h := by
  obtain ⟨p, hp, hcp⟩ := Heap.cell_some h X c hc
  have h1 : form &&& Representation.HEX = Representation.HEX :=
    (Representation.flag_iff form 0).2 hhex
  have hb : X.bytes h = readBytes h.mem (c.m_address + 0) c.m_size := by
    simp only [Buffer.bytes, Buffer.data, Buffer.size, hc, Nat.add_zero]
  simp only [Buffer.represent, hp, hcp, h1, if_true]
  rw [if_neg (by omega), hb]
  congr 2
  congr 1
  · have e : (form &&& Representation.PREFIXED = Representation.PREFIXED) ↔
        form.testBit 3 = true := Representation.flag_iff form 3
    simp only [e]
  · cases h2 : form.testBit 2 with
    | true =>
      have hz : ¬ (form &&& Representation.LOWERCASE = 0) := fun e => by
        have := (Representation.flag_zero_iff form 2).1 e
        rw [h2] at this
        exact absurd this (by decide)
      rw [decide_eq_false hz]
      exact representLoop_eq _ (specHex true) rfl
        (fun b bs => by rw [streamHex_lower b]; rfl) h.mem c.m_address c.m_size 0
    | false =>
      have hz : form &&& Representation.LOWERCASE = 0 :=
        (Representation.flag_zero_iff form 2).2 h2
      rw [decide_eq_true hz]
      exact representLoop_eq _ (specHex false) rfl
        (fun b bs => by rw [streamHex_upper b]; rfl) h.mem c.m_address c.m_size 0

theorem Buffer.represent_binary (h : Heap) (X : Buffer) (form : Nat) (c : BufferCore)
    (hc : h.cell X = some c) (hn : 0 < c.m_size) (hhex : form.testBit 0 = false)
    (hbin : form.testBit 1 = true) :
    X.represent h form = .ok (String.mk
      ((if form.testBit 3 then ['0', 'b'] else []) ++ specBinary (X.bytes h))) h := by
  obtain ⟨p, hp, hcp⟩ := Heap.cell_some h X c hc
  have h1 : ¬ (form &&& Representation.HEX = Representation.HEX) := fun e => by
    have := (Representation.flag_iff form 0).1 e
    rw [hhex] at this
    exact absurd this (by decide)
  have h2 : form &&& Representation.BINARY = Representation.BINARY :=
    (Representation.flag_iff form 1).2 hbin
  have hb : X.bytes h = readBytes h.mem (c.m_address + 0) c.m_size := by
    simp only [Buffer.bytes, Buffer.data, Buffer.size, hc, Nat.add_zero]
  simp only [Buffer.represent, hp, hcp, h1, h2, if_true, if_false]
  rw [if_neg (by omega), hb]
  congr 2
  congr 1
  · have e : (form &&& Representation.PREFIXED = Representation.PREFIXED) ↔
        form.testBit 3 = true := Representation.flag_iff form 3
    simp only [e]
  · exact representLoop_eq _ specBinary rfl
      (fun b bs => by rw [streamBits_eq b]; rfl) h.mem c.m_address c.m_size 0

theorem Buffer.represent_null (h : Heap) (X : Buffer) (form : Nat) (hX : h.live X)
    (hnull : h.cell X = none ∨ X.size h = 0 ∨
      (form.testBit 0 = false ∧ form.testBit 1 = false)) :
    X.represent h form = .ok "null" h := by
  cases hp : X.m_core with
  | none => simp only [Buffer.represent, hp]
  | some p =>
    cases hcp : h.cores p with
    | none =>
      unfold Heap.live at hX
      rw [hp] at hX
      exact absurd hcp hX
    | some c =>
      have hc : h.cell X = some c := by simp only [Heap.cell, hp, hcp]
      simp only [Buffer.represent, hp, hcp]
      by_cases h0 : c.m_size = 0
      · rw [if_pos h0]
      · rw [if_neg h0]
        rcases hnull with hn | hn | ⟨ha, hb⟩
        · rw [hc] at hn
          exact absurd hn (by simp)
        · simp only [Buffer.size, hc] at hn
          exact absurd hn h0
        · have h1 : ¬ (form &&& Representation.HEX = Representation.HEX) := fun e => by
            have := (Representation.flag_iff form 0).1 e
            rw [ha] at this
            exact absurd this (by decide)
          have h2 : ¬ (form &&& Representation.BINARY = Representation.BINARY) := fun e => by
            have := (Representation.flag_iff form 1).1 e
            rw [hb] at this
            exact absurd this (by decide)
          rw [if_neg h1, if_neg h2]


theorem specHex_length (l : Bool) : ∀ bs : List Byte, (specHex l bs).length = 2 * bs.length := by
  intro bs
  induction bs with
  | nil => rfl
  | cons b bs ih => simp only [specHex, List.length_cons, ih]; omega

theorem specHex_pair (l : Bool) : ∀ (bs : List Byte) (k : Nat) (b : Byte), bs[k]? = some b →
    (specHex l bs)[2 * k]? = some (specHexDigit l (b.val / 16)) ∧
    (specHex l bs)[2 * k + 1]? = some (specHexDigit l (b.val % 16)) := by
  intro bs
  induction bs with
  | nil => intro k b hk; simp at hk
  | cons a bs ih =>
    intro k b hk
    cases k with
    | zero =>
      simp only [List.getElem?_cons_zero, Option.some.injEq] at hk
      subst hk
      refine ⟨rfl, ?_⟩
      simp only [specHex, Nat.mul_zero, Nat.zero_add, List.getElem?_cons_succ,
        List.getElem?_cons_zero]
    | succ k =>
      simp only [List.getElem?_cons_succ] at hk
      obtain ⟨h1, h2⟩ := ih k b hk
      have e1 : 2 * (k + 1) = 2 * k + 1 + 1 := by omega
      have e2 : 2 * (k + 1) + 1 = 2 * k + 1 + 1 + 1 := by omega
      refine ⟨?_, ?_⟩
      · rw [e1]
        simp only [specHex, List.getElem?_cons_succ]
        exact h1
      · rw [e2]
        simp only [specHex, List.getElem?_cons_succ]
        exact h2

theorem specBits_length (b : Byte) : (specBits b).length = 8 := by
  simp [specBits]

theorem specBinary_length : ∀ bs : List Byte, (specBinary bs).length = 8 * bs.length := by
  intro bs
  induction bs with
  | nil => rfl
  | cons b bs ih =>
    simp only [specBinary, List.length_append, specBits_length, List.length_cons, ih]
    omega

theorem specBinary_bit : ∀ (bs : List Byte) (k j : Nat) (b : Byte), bs[k]? = some b → j < 8 →
    (specBinary bs)[8 * k + j]? = some (if b.val.testBit (7 - j) then '1' else '0') := by
  intro bs
  induction bs with
  | nil => intro k j b hk; simp at hk
  | cons a bs ih =>
    intro k j b hk hj
    cases k with
    | zero =>
      simp only [List.getElem?_cons_zero, Option.some.injEq] at hk
      subst hk
      simp only [specBinary, Nat.mul_zero, Nat.zero_add]
      rw [List.getElem?_append_left (by rw [specBits_length]; exact hj)]
      simp [specBits, hj]
    | succ k =>
      simp only [List.getElem?_cons_succ] at hk
      have e : 8 * (k + 1) + j = (specBits a).length + (8 * k + j) := by
        rw [specBits_length]
        omega
      simp only [specBinary]
      rw [e, List.getElem?_append_right (Nat.le_add_right _ _), Nat.add_sub_cancel_left]
      exact ih k j b hk hj

theorem Buffer.cell_of_size_pos (h : Heap) (X : Buffer) (hn : 0 < X.size h) :
    ∃ c, h.cell X = some c ∧ c.m_size = X.size h := by
  cases hc : h.cell X with
  | none => simp [Buffer.size, hc] at hn
  | some c => exact ⟨c, rfl, by simp only [Buffer.size, hc]⟩

theorem Buffer.bytes_getElem? (h : Heap) (X : Buffer) (k : Nat) (hk : k < X.size h) :
    (X.bytes h)[k]? = some (X.byte h k) := by
  simp only [Buffer.bytes, Buffer.byte]
  exact readBytes_getElem? _ _ _ _ hk

theorem Buffer.bytes_length (h : Heap) (X : Buffer) : (X.bytes h).length = X.size h := by
  simp only [Buffer.bytes, readBytes_length]

/-- C22. For a buffer `X` with size `n > 0` and a form with the `HEX` bit set (bit 0),
whatever the `BINARY` bit is: `represent(form)` returns the text made of `"0x"` if the
`PREFIXED` bit (bit 3) is set, else nothing, followed by `2n` characters, where the
characters `2k` and `2k + 1` are the base-16 digits of the high and the low nibble of
byte `k`, taken from `0-9A-F` when the `LOWERCASE` bit (bit 2) is clear and from
`0-9a-f` when it is set. -/
theorem Buffer.represent_hex_spec (h : Heap) (X : Buffer) (form : Nat)
    (hn : 0 < X.size h) (hhex : form.testBit 0 = true) :
    X.represent h form = .ok (String.mk
      ((if form.testBit 3 then ['0', 'x'] else []) ++
        specHex (form.testBit 2) (X.bytes h))) h ∧
    (specHex (form.testBit 2) (X.bytes h)).length = 2 * X.size h ∧
    ∀ k, k < X.size h →
      (specHex (form.testBit 2) (X.bytes h))[2 * k]? =
        some (specHexDigit (form.testBit 2) ((X.byte h k).val / 16)) ∧
      (specHex (form.testBit 2) (X.bytes h))[2 * k + 1]? =
        some (specHexDigit (form.testBit 2) ((X.byte h k).val % 16)) := by
  obtain ⟨c, hc, hs⟩ := Buffer.cell_of_size_pos h X hn
  refine ⟨Buffer.represent_hex h X form c hc (by omega) hhex, ?_, ?_⟩
  · rw [specHex_length, Buffer.bytes_length]
  · intro k hk
    exact specHex_pair _ _ k _ (Buffer.bytes_getElem? h X k hk)

/-- Witness for C22 on the test section "representation": the static buffer
`01 23 45 67 89 AB CD EF` in the forms `HEX`, `HEX | LOWERCASE | PREFIXED` and
`HEX | BINARY`. -/
theorem Buffer.represent_hex_spec_witness :
    0 < Buffer.size Example.representData ⟨some 0⟩ ∧
    Buffer.represent Example.representData ⟨some 0⟩ 1
      = .ok "0123456789ABCDEF" Example.representData ∧
    Buffer.represent Example.representData ⟨some 0⟩ 13
      = .ok "0x0123456789abcdef" Example.representData ∧
    Buffer.represent Example.representData ⟨some 0⟩ 3
      = .ok "0123456789ABCDEF" Example.representData := by
  have h1 := (Buffer.represent_hex_spec Example.representData ⟨some 0⟩ 1
    (by decide) (by decide)).1
  have h2 := (Buffer.represent_hex_spec Example.representData ⟨some 0⟩ 13
    (by decide) (by decide)).1
  have h3 := (Buffer.represent_hex_spec Example.representData ⟨some 0⟩ 3
    (by decide) (by decide)).1
  refine ⟨by decide, h1.trans ?_, h2.trans ?_, h3.trans ?_⟩
  · exact congrArg (fun s => Outcome.ok s Example.representData) (by decide)
  · exact congrArg (fun s => Outcome.ok s Example.representData) (by decide)
  · exact congrArg (fun s => Outcome.ok s Example.representData) (by decide)

/-- C23. For a buffer `X` with size `n > 0` and a form with the `BINARY` bit (bit 1)
set and the `HEX` bit (bit 0) clear: `represent(form)` returns the text made of `"0b"`
if the `PREFIXED` bit (bit 3) is set, else nothing, followed by `8n` characters, where
character `8k + j` is `'1'` if bit `7 - j` of byte `k` is set and `'0'` if not. -/
theorem Buffer.represent_binary_spec (h : Heap) (X : Buffer) (form : Nat)
    (hn : 0 < X.size h) (hhex : form.testBit 0 = false) (hbin : form.testBit 1 = true) :
    X.represent h form = .ok (String.mk
      ((if form.testBit 3 then ['0', 'b'] else []) ++ specBinary (X.bytes h))) h ∧
    (specBinary (X.bytes h)).length = 8 * X.size h ∧
    ∀ k j, k < X.size h → j < 8 →
      (specBinary (X.bytes h))[8 * k + j]? =
        some (if (X.byte h k).val.testBit (7 - j) then '1' else '0') := by
  obtain ⟨c, hc, hs⟩ := Buffer.cell_of_size_pos h X hn
  refine ⟨Buffer.represent_binary h X form c hc (by omega) hhex hbin, ?_, ?_⟩
  · rw [specBinary_length, Buffer.bytes_length]
  · intro k j hk hj
    exact specBinary_bit _ k j _ (Buffer.bytes_getElem? h X k hk) hj

/-- Witness for C23 on the test section "representation": the static buffer `93` in
the forms `BINARY` and `BINARY | PREFIXED`. -/
theorem Buffer.represent_binary_spec_witness :
    0 < Buffer.size Example.representData ⟨some 1⟩ ∧
    Buffer.represent Example.representData ⟨some 1⟩ 2
      = .ok "10010011" Example.representData ∧
    Buffer.represent Example.representData ⟨some 1⟩ 10
      = .ok "0b10010011" Example.representData := by
  have h1 := (Buffer.represent_binary_spec Example.representData ⟨some 1⟩ 2
    (by decide) (by decide) (by decide)).1
  have h2 := (Buffer.represent_binary_spec Example.representData ⟨some 1⟩ 10
    (by decide) (by decide) (by decide)).1
  refine ⟨by decide, h1.trans ?_, h2.trans ?_⟩
  · exact congrArg (fun s => Outcome.ok s Example.representData) (by decide)
  · exact congrArg (fun s => Outcome.ok s Example.representData) (by decide)


theorem specHexDigit_ne (l : Bool) (d : Nat) : specHexDigit l d ≠ 'n' := by
  by_cases hd : d < 16
  · interval_cases d <;> cases l <;> decide
  · have h16 : 16 ≤ d := by omega
    have hlen : ∀ b : Bool,
        (if b then "0123456789abcdef" else "0123456789ABCDEF").data.length = 16 := by
      decide
    simp only [specHexDigit]
    rw [List.getD_eq_default _ _ (by rw [hlen]; exact h16)]
    decide

theorem text_ne_null_of_head (l : List Char) (c : Char)
    (hl : l.head? = some c) (hc : c ≠ 'n') : String.mk l ≠ "null" := by
  intro e
  have h1 := congrArg String.data e
  have h2 : "null".data = ['n', 'u', 'l', 'l'] := rfl
  rw [h2] at h1
  simp only at h1
  rw [h1] at hl
  simp only [List.head?_cons, Option.some.injEq] at hl
  exact hc hl.symm

theorem specBits_head (b : Byte) (t : List Char) :
    (specBits b ++ t).head? = some (if b.val.testBit 7 then '1' else '0') := by
  have e : specBits b = (if b.val.testBit 7 then '1' else '0') ::
      (List.range 7).map (fun j => if b.val.testBit (7 - (j + 1)) then '1' else '0') := by
    simp only [specBits]
    rw [List.range_succ_eq_map, List.map_cons, List.map_map]
    rfl
  rw [e]
  rfl

theorem Buffer.represent_not_null (h : Heap) (X : Buffer) (form : Nat)
    (hn : 0 < X.size h) (hform : form.testBit 0 = true ∨ form.testBit 1 = true) :
    ∃ s, X.represent h form = .ok s h ∧ s ≠ "null" := by
  obtain ⟨c, hc, hs⟩ := Buffer.cell_of_size_pos h X hn
  have hbytes : ∃ b bs, X.bytes h = b :: bs := by
    cases hb : X.bytes h with
    | nil =>
      have := Buffer.bytes_length h X
      rw [hb] at this
      simp only [List.length_nil] at this
      omega
    | cons b bs => exact ⟨b, bs, rfl⟩
  obtain ⟨b, bs, hb⟩ := hbytes
  cases h0 : form.testBit 0 with
  | true =>
    refine ⟨_, Buffer.represent_hex h X form c hc (by omega) h0, ?_⟩
    cases h3 : form.testBit 3 with
    | true =>
      exact text_ne_null_of_head _ '0' (by simp only [if_true]; rfl) (by decide)
    | false =>
      rw [hb]
      exact text_ne_null_of_head _ (specHexDigit (form.testBit 2) (b.val / 16))
        (by simp only [Bool.false_eq_true, if_false, List.nil_append, specHex,
          List.head?_cons])
        (specHexDigit_ne _ _)
  | false =>
    have h1 : form.testBit 1 = true := by
      rcases hform with hf | hf
      · rw [h0] at hf
        exact absurd hf (by decide)
      · exact hf
    refine ⟨_, Buffer.represent_binary h X form c hc (by omega) h0 h1, ?_⟩
    cases h3 : form.testBit 3 with
    | true =>
      exact text_ne_null_of_head _ '0' (by simp only [if_true]; rfl) (by decide)
    | false =>
      rw [hb]
      refine text_ne_null_of_head _
        (if b.val.testBit 7 then '1' else '0') ?_ ?_
      · simp only [Bool.false_eq_true, if_false, List.nil_append, specBinary]
        exact specBits_head b _
      · split_ifs <;> decide

/-- C24. For a live buffer `X` and every form: `represent(form)` returns exactly the
text `"null"` when `X` has no cell, or `X.size()` is 0, or the form has neither the
`HEX` bit (bit 0) nor the `BINARY` bit (bit 1), whatever its other bits are; in every
other case it returns a text that is not `"null"`. -/
theorem Buffer.represent_null_iff (h : Heap) (X : Buffer) (form : Nat) (hX : h.live X) :
    ((X.m_core = none ∨ X.size h = 0 ∨
        (form.testBit 0 = false ∧ form.testBit 1 = false)) →
      X.represent h form = .ok "null" h) ∧
    (¬ (X.m_core = none ∨ X.size h = 0 ∨
        (form.testBit 0 = false ∧ form.testBit 1 = false)) →
      ∃ s, X.represent h form = .ok s h ∧ s ≠ "null") := by
  refine ⟨?_, ?_⟩
  · intro hnull
    apply Buffer.represent_null h X form hX
    rcases hnull with hn | hn | hn
    · exact Or.inl (by simp only [Heap.cell, hn])
    · exact Or.inr (Or.inl hn)
    · exact Or.inr (Or.inr hn)
  · intro hnot
    have hn : 0 < X.size h := by
      by_contra h0
      exact hnot (Or.inr (Or.inl (by omega)))
    have hform : form.testBit 0 = true ∨ form.testBit 1 = true := by
      cases h0 : form.testBit 0 with
      | true => exact Or.inl rfl
      | false =>
        cases h1 : form.testBit 1 with
        | true => exact Or.inr rfl
        | false => exact absurd (Or.inr (Or.inr ⟨h0, h1⟩)) hnot
    exact Buffer.represent_not_null h X form hn hform

/-- Witness for C24 on the test section "representation": `Buffer().represent()`, the
form `LOWERCASE | PREFIXED` on the buffer `93`, and the form `HEX` on it. -/
theorem Buffer.represent_null_iff_witness :
    Example.representData.live Buffer.empty ∧ Example.representData.live ⟨some 1⟩ ∧
    Buffer.represent Example.representData Buffer.empty 1
      = .ok "null" Example.representData ∧
    Buffer.represent Example.representData ⟨some 1⟩ 12
      = .ok "null" Example.representData ∧
    ∃ s, Buffer.represent Example.representData ⟨some 1⟩ 1 = .ok s Example.representData ∧
      s ≠ "null" := by
  have h1 := Buffer.represent_null_iff Example.representData Buffer.empty 1 (by decide)
  have h2 := Buffer.represent_null_iff Example.representData ⟨some 1⟩ 12 (by decide)
  have h3 := Buffer.represent_null_iff Example.representData ⟨some 1⟩ 1 (by decide)
  exact ⟨by decide, by decide, h1.1 (Or.inl rfl),
    h2.1 (Or.inr (Or.inr (by decide))), h3.2 (by decide)⟩


/-! ## Iterators -/

/-- C25 (evaluation). On the static buffer `01 02 03` (size 3) the iterator at index 0
stepped by `-1` gives `0 + (-1) < 0`, yet `step(-1)` and `stepSelf(-1)` throw the
past-end error `iter_end_increment`, not the before-begin error
`iter_begin_decrement`: the first test forms `m_index + amount` in 32-bit unsigned
arithmetic, where it wraps to `2^32 - 1 > 3`. The before-begin error is reached only
when the wrapped sum does not exceed the size, as on the buffer of `2^32 - 1` bytes.
Steps inside `[0, size]` succeed, and a step past the size throws the past-end error. -/
theorem Iterator.step_negative_reports_past_end :
    Buffer.size Example.eraseData ⟨some 0⟩ = 3 ∧
    (Iterator.step Example.eraseData ⟨0, some 0⟩ (-1)).error? = some .iter_end_increment ∧
    (Iterator.stepSelf Example.eraseData ⟨0, some 0⟩ (-1)).2.error?
      = some .iter_end_increment ∧
    (Iterator.step Example.eraseData ⟨2, some 0⟩ (-3)).error? = some .iter_end_increment ∧
    (Iterator.step Example.hugeData ⟨0, some 0⟩ (-1)).error? = some .iter_begin_decrement ∧
    (Iterator.step Example.eraseData ⟨1, some 0⟩ 2).value? = some ⟨3, some 0⟩ ∧
    (Iterator.stepSelf Example.eraseData ⟨3, some 0⟩ (-2)).1 = ⟨1, some 0⟩ ∧
    (Iterator.step Example.eraseData ⟨3, some 0⟩ 1).error? = some .iter_end_increment := by
  refine ⟨by decide, by decide, by decide, by decide, by decide, by decide, by decide,
    by decide⟩

/-- C26 (evaluation). On the static buffer `01 02 03` (size 3), with `b = begin()` and
`e = end()` on the same cell: `e - b` returns 3, but `b - e` returns `4294967293`
(`2^32 - 3`), not `-3`: `m_index - other.m_index` is formed in 32-bit unsigned
arithmetic before the conversion to `std::ptrdiff_t`. Iterators without a cell, or
of different cells, throw the invalid-subtraction error. -/
theorem Iterator.sub_wraps :
    ((Buffer.begin Example.eraseData ⟨some 0⟩).bind (fun b h1 =>
      (Buffer.end h1 ⟨some 0⟩).bind (fun e h2 => Iterator.sub h2 e b))).value? = some 3 ∧
    ((Buffer.begin Example.eraseData ⟨some 0⟩).bind (fun b h1 =>
      (Buffer.end h1 ⟨some 0⟩).bind (fun e h2 => Iterator.sub h2 b e))).value?
        = some 4294967293 ∧
    (Iterator.sub Example.eraseData ⟨0, some 0⟩ ⟨3, some 0⟩).value? ≠ some (-3) ∧
    (Iterator.sub Example.eraseData ⟨0, none⟩ ⟨0, none⟩).error? = some .iter_invalid_sub ∧
    (Iterator.sub Example.insertData ⟨0, some 0⟩ ⟨0, some 1⟩).error?
      = some .iter_invalid_sub := by
  refine ⟨by decide, by decide, by decide, by decide, by decide⟩


theorem Heap.setCore_self (h : Heap) (p : Nat) (c : BufferCore) (hcp : h.cores p = some c) :
    h.setCore p (some c) = h := by
  apply Heap.eq_of_fields
  · rfl
  · rfl
  · intro q
    simp only [Heap.setCore]
    split_ifs with hq
    · rw [hq, hcp]
    · rfl
  · rfl

theorem Iterator.value_cases (g : Heap) (p i : Nat) (d : BufferCore)
    (hd : g.cores p = some d) :
    (i < d.m_size → Iterator.value g ⟨i, some p⟩ = .ok (g.mem (d.m_address + i)) g) ∧
    (d.m_size ≤ i → Iterator.value g ⟨i, some p⟩ = .threw .iter_invalid g) := by
  refine ⟨?_, ?_⟩
  · intro hi
    simp only [Iterator.value, hd]
    rw [if_neg (by omega)]
  · intro hi
    simp only [Iterator.value, hd]
    rw [if_pos hi]

theorem Iterator.stepSelf_one (g : Heap) (p i : Nat) (d : BufferCore)
    (hd : g.cores p = some d) (hi : i < d.m_size) (hsz : d.m_size ≤ BufferCore.max_size) :
    Iterator.stepSelf g ⟨i, some p⟩ 1 = (⟨i + 1, some p⟩, .ok () g) := by
  have hmax : d.m_size ≤ 4294967295 := hsz
  have hsum : (((i : Nat) : Int) + 1) % 4294967296 = ((i + 1 : Nat) : Int) := by
    omega
  simp only [Iterator.stepSelf, hd, hsum, Int.toNat_ofNat]
  rw [if_neg (by omega), if_neg (by omega)]

theorem Buffer.forEachLoop_eq (g : Heap) (p : Nat) (d : BufferCore)
    (hd : g.cores p = some d) (hsz : d.m_size ≤ BufferCore.max_size) :
    ∀ (k i fuel : Nat) (visited : List Byte), i + k = d.m_size → k < fuel →
      Buffer.forEachLoop ⟨d.m_size, some p⟩ fuel g ⟨i, some p⟩ visited =
        some (.ok (visited ++ readBytes g.mem (d.m_address + i) k) g) := by
  intro k
  induction k with
  | zero =>
    intro i fuel visited hik hf
    obtain ⟨f, rfl⟩ : ∃ f, fuel = f + 1 := ⟨fuel - 1, by omega⟩
    have hi : i = d.m_size := by omega
    subst hi
    simp [Buffer.forEachLoop, Iterator.ne, readBytes]
  | succ k ih =>
    intro i fuel visited hik hf
    obtain ⟨f, rfl⟩ : ∃ f, fuel = f + 1 := ⟨fuel - 1, by omega⟩
    have hi : i < d.m_size := by omega
    have hne : Iterator.ne ⟨i, some p⟩ ⟨d.m_size, some p⟩ = true := by
      simp only [Iterator.ne, ne_eq, not_true_eq_false, false_or, decide_eq_true_eq]
      omega
    simp only [Buffer.forEachLoop, hne, if_true, (Iterator.value_cases g p i d hd).1 hi,
      Iterator.stepSelf_one g p i d hd hi hsz]
    rw [ih (i + 1) f _ (by omega) (by omega), readBytes_succ, List.append_assoc]
    rfl

theorem Buffer.forEach_returns (h : Heap) (X : Buffer) (c : BufferCore) (fuel : Nat)
    (hX : h.valid X) (hc : h.cell X = some c) (hrc1 : 1 ≤ c.m_refcount)
    (hrc : c.m_refcount + 2 ≤ 65535) (hfuel : c.m_size < fuel) :
    X.forEach h fuel = some (.ok (X.bytes h) h) := by
  obtain ⟨p, hp, hcp⟩ := Heap.cell_some h X c hc
  obtain ⟨c2, hcp2, hwf⟩ := Heap.valid_some h X p hX hp
  rw [hcp] at hcp2
  obtain rfl := Option.some.inj hcp2
  have hb := Iterator.create_ok h p c 0 hcp (by omega)
  have hsize1 : X.size (h.setCore p (some { c with m_refcount := c.m_refcount + 1 }))
      = c.m_size := by
    simp only [Buffer.size, Heap.cell, hp, Heap.setCore_cores]
  have he := Iterator.create_ok (h.setCore p (some { c with m_refcount := c.m_refcount + 1 }))
    p _ c.m_size (Heap.setCore_cores _ _ _) (by simp only; omega)
  rw [Heap.setCore_setCore] at he
  simp only at he
  have hd2 : (h.setCore p (some { c with m_refcount := c.m_refcount + 1 + 1 })).cores p =
      some { c with m_refcount := c.m_refcount + 1 + 1 } := Heap.setCore_cores _ _ _
  have hloop := Buffer.forEachLoop_eq _ p _ hd2 hwf.2.2.1 c.m_size 0 fuel []
    (by simp only; omega) hfuel
  simp only [List.nil_append] at hloop
  have hall : ∀ it ∈ [(⟨c.m_size, some p⟩ : Iterator), ⟨0, some p⟩], it.m_data = some p := by
    intro it hit
    simp only [List.mem_cons, List.mem_singleton, List.not_mem_nil, or_false] at hit
    rcases hit with rfl | rfl <;> rfl
  have hrest : c.m_refcount + 1 + 1 - (0 + 1 + 1) = c.m_refcount := by omega
  simp only [Buffer.forEach, Buffer.begin, Buffer.end, hp, hb, hsize1, he, hloop,
    Outcome.unwind]
  rw [Iterator.destroyAll_shared p _ _ { c with m_refcount := c.m_refcount + 1 + 1 }
    hd2 hall (by simp only [List.length_cons, List.length_nil]; omega) (by simp only; omega)]
  simp only [List.length_cons, List.length_nil, Heap.setCore_setCore]
  rw [hrest]
  have hfin : h.setCore p (some { c with m_refcount := c.m_refcount }) = h :=
    Heap.setCore_self h p c hcp
  rw [hfin]
  simp only [Buffer.bytes, Buffer.data, Buffer.size, hc, Nat.add_zero, Heap.setCore]

theorem Buffer.forEach_saturated (h : Heap) (X : Buffer) (c : BufferCore) (fuel : Nat)
    (hc : h.cell X = some c) (hrc : 65534 ≤ c.m_refcount) (hmax : c.m_refcount ≤ 65535) :
    ∃ o, X.forEach h fuel = some o ∧
      o.error? = some .iter_instantiation_fail_ref_overflow ∧ o.value? = none := by
  obtain ⟨p, hp, hcp⟩ := Heap.cell_some h X c hc
  have hfull : BUFFER_SAFE_INCREASE 65535 = none := by decide
  by_cases h5 : c.m_refcount = 65535
  · simp only [Buffer.forEach, Buffer.begin, hp, Iterator.create, hcp, BufferCore.tryShare,
      h5, hfull, if_true]
    exact ⟨_, rfl, rfl, rfl⟩
  · have h4 : c.m_refcount = 65534 := by omega
    have hb := Iterator.create_ok h p c 0 hcp (by omega)
    have hd1 : (h.setCore p (some { c with m_refcount := c.m_refcount + 1 })).cores p =
        some { c with m_refcount := c.m_refcount + 1 } := Heap.setCore_cores _ _ _
    have h65 : c.m_refcount + 1 = 65535 := by omega
    have hrel := BufferCore.release_shared
      (h.setCore p (some { c with m_refcount := c.m_refcount + 1 })) p _ hd1
      (by simp only; omega) (by simp only; omega)
    have hshare : BUFFER_SAFE_INCREASE (c.m_refcount + 1) = none := by
      rw [h65]
      exact hfull
    simp only [Buffer.forEach, Buffer.begin, Buffer.end, hp, hb]
    simp only [Iterator.create, hd1, BufferCore.tryShare, hshare, if_true, Outcome.unwind,
      Iterator.destroyAll, Iterator.destroy, hrel]
    exact ⟨_, rfl, rfl, rfl⟩


/-- C27 (amended). For a valid buffer `X` with a cell whose share-count is at least 1
and at most 65533 (`begin()` and `end()` each take a share of the cell): the
traversal `for (auto v : X)`, which starts at `begin()` and pre-increments until the
iterator equals `end()`, returns (with fuel above `X.size()`), visits exactly
`X.size()` bytes, the `k`-th visited byte is `X.at(k)`, the sum of the visited bytes
is the sum of `at(0..size-1)`, and the heap is left as it was. Dereferencing an
iterator of `X` whose index is `>= size` (such as `end()`), or an iterator without
a cell, throws the invalid-iterator error. With share-count 65534 or 65535 the
traversal visits nothing: it throws the iterator-instantiation error. -/
theorem Buffer.forEach_spec (h : Heap) (X : Buffer) (c : BufferCore) (fuel : Nat)
    (hX : h.valid X) (hc : h.cell X = some c) :
    (1 ≤ c.m_refcount → c.m_refcount + 2 ≤ 65535 → X.size h < fuel →
      ∃ visited, X.forEach h fuel = some (.ok visited h) ∧
        visited.length = X.size h ∧
        (∀ k, k < X.size h → ∃ b, visited[k]? = some b ∧ X.at h k = .ok b h) ∧
        (visited.map Fin.val).sum =
          ((List.range (X.size h)).map (fun k => (X.byte h k).val)).sum) ∧
    (∀ i, X.size h ≤ i → Iterator.value h ⟨i, X.m_core⟩ = .threw .iter_invalid h) ∧
    (∀ i, Iterator.value h ⟨i, none⟩ = .threw .iter_invalid h) ∧
    (65534 ≤ c.m_refcount → c.m_refcount ≤ 65535 →
      ∃ o, X.forEach h fuel = some o ∧
        o.error? = some .iter_instantiation_fail_ref_overflow ∧ o.value? = none) := by
  have hs : X.size h = c.m_size := by simp only [Buffer.size, hc]
  obtain ⟨p, hp, hcp⟩ := Heap.cell_some h X c hc
  refine ⟨?_, ?_, fun i => rfl, Buffer.forEach_saturated h X c fuel hc⟩
  · intro hrc1 hrc hfuel
    refine ⟨X.bytes h, Buffer.forEach_returns h X c fuel hX hc hrc1 hrc (by omega),
      Buffer.bytes_length h X, ?_, ?_⟩
    · intro k hk
      exact ⟨X.byte h k, Buffer.bytes_getElem? h X k hk,
        Buffer.at_ok h X k (Heap.live_of_valid h X hX) hk⟩
    · simp only [Buffer.bytes, readBytes, Buffer.byte, List.map_map]
      rfl
  · intro i hi
    rw [hp]
    exact (Iterator.value_cases h p i c hcp).2 (by omega)

/-- Witness for C27: the traversal of the static buffer `01 02 03` visits three bytes
with sum 6, the first being `at(0)`, and dereferencing its `end()` (index 3) throws. -/
theorem Buffer.forEach_spec_witness :
    Example.eraseData.valid ⟨some 0⟩ ∧
    (∃ visited, Buffer.forEach Example.eraseData ⟨some 0⟩ 4
        = some (.ok visited Example.eraseData) ∧
      visited.length = 3 ∧ (visited.map Fin.val).sum = 6 ∧
      ∃ b, visited[0]? = some b ∧
        Buffer.at Example.eraseData ⟨some 0⟩ 0 = .ok b Example.eraseData) ∧
    Iterator.value Example.eraseData ⟨3, some 0⟩ = .threw .iter_invalid Example.eraseData := by
  have hs := Buffer.forEach_spec Example.eraseData ⟨some 0⟩
    ⟨1, 0, 3, 1, Buffer.staticManager⟩ 4 (by decide) rfl
  obtain ⟨visited, e, hl, hk, hsum⟩ := hs.1 (by decide) (by decide) (by decide)
  exact ⟨by decide, ⟨visited, e, hl.trans (by decide), hsum.trans (by decide),
    hk 0 (by decide)⟩, hs.2.1 3 (by decide)⟩

/-- Counterexample to C27 as stated: the heap buffer `01 02 03 04` has a cell, but its
share-count is 65535, so the traversal visits no byte: `begin()` throws the
iterator-instantiation error. -/
theorem Buffer.forEach_spec_counterexample :
    Example.saturatedData.valid ⟨some 0⟩ ∧
    Buffer.size Example.saturatedData ⟨some 0⟩ = 4 ∧
    (Buffer.forEach Example.saturatedData ⟨some 0⟩ 5).map Outcome.value? = some none ∧
    (Buffer.forEach Example.saturatedData ⟨some 0⟩ 5).map Outcome.error?
      = some (some .iter_instantiation_fail_ref_overflow) := by
  refine ⟨by decide, by decide, by decide, by decide⟩


/-! ## Sharing -/

theorem BufferCore.shareOrDetach_share (h : Heap) (p : Nat) (c : BufferCore)
    (hcp : h.cores p = some c) (hrc : c.m_refcount < 65535) :
    BufferCore.shareOrDetach h (some p) =
      .ok (some p) (h.setCore p (some { c with m_refcount := c.m_refcount + 1 })) := by
  have hinc : BUFFER_SAFE_INCREASE c.m_refcount = some (c.m_refcount + 1) := by
    unfold BUFFER_SAFE_INCREASE
    have : (c.m_refcount + 1) % 65536 = c.m_refcount + 1 := Nat.mod_eq_of_lt (by omega)
    simp only [this]
    rw [if_neg (by omega)]
  simp only [BufferCore.shareOrDetach, hcp, BufferCore.tryShare, hinc, Bool.true_eq_false,
    if_false]

theorem BufferCore.release_after_share (h : Heap) (p : Nat) (c : BufferCore)
    (hcp : h.cores p = some c) (hrc1 : 1 ≤ c.m_refcount) (hrc : c.m_refcount < 65535) :
    BufferCore.release (h.setCore p (some { c with m_refcount := c.m_refcount + 1 })) (some p) =
      some h := by
  rw [BufferCore.release_shared _ p _ (Heap.setCore_cores _ _ _) (by simp only; omega)
    (by simp only; omega), Heap.setCore_setCore]
  simp only [Nat.add_sub_cancel]
  exact congrArg some (Heap.setCore_self h p c hcp)

theorem Buffer.copy_returns (h : Heap) (S : Buffer) (c : BufferCore)
    (hS : h.cell S = some c) (hrc1 : 1 ≤ c.m_refcount) (hrc : c.m_refcount < 65535) :
    ∃ h1, S.copy h = .ok S h1 ∧ h1.cell S = some { c with m_refcount := c.m_refcount + 1 } ∧
      h1.mem = h.mem ∧ h1.brk = h.brk ∧ S.compare h1 S = .ok 0 h1 ∧
      S.destroy h1 = some h ∧
      ∀ (O : Buffer) (d : BufferCore), h.cell O = some d → O.m_core ≠ S.m_core →
        d.m_refcount < 65535 →
        ∃ h2, S.assign h1 O = (O, .ok () h2) ∧ h2.cell S = some c ∧
          h2.cell O = some { d with m_refcount := d.m_refcount + 1 } ∧ h2.mem = h.mem ∧
          h2.brk = h.brk := by
  obtain ⟨p, hp, hcp⟩ := Heap.cell_some h S c hS
  have hcell1 : (h.setCore p (some { c with m_refcount := c.m_refcount + 1 })).cell S =
      some { c with m_refcount := c.m_refcount + 1 } := by
    simp only [Heap.cell, hp, Heap.setCore_cores]
  have hlive1 : (h.setCore p (some { c with m_refcount := c.m_refcount + 1 })).live S := by
    simp only [Heap.live, hp, Heap.setCore_cores]
    simp
  refine ⟨h.setCore p (some { c with m_refcount := c.m_refcount + 1 }), ?_, hcell1, rfl, rfl,
    Buffer.compare_zero_of_bytes _ S S hlive1 hlive1 rfl, ?_, ?_⟩
  · simp only [Buffer.copy, hp, BufferCore.shareOrDetach_share h p c hcp hrc]
    obtain ⟨x⟩ := S
    simp only at hp
    rw [hp]
  · simp only [Buffer.destroy, hp, BufferCore.release_after_share h p c hcp hrc1 hrc]
  · intro O d hO hne hd
    obtain ⟨q, hq, hcq⟩ := Heap.cell_some h O d hO
    have hqp : q ≠ p := by
      intro e
      apply hne
      rw [hq, hp, e]
    have hpq : p ≠ q := fun e => hqp e.symm
    refine ⟨h.setCore q (some { d with m_refcount := d.m_refcount + 1 }), ?_, ?_, ?_, rfl, rfl⟩
    · simp only [Buffer.assign, hp, BufferCore.change,
        BufferCore.release_after_share h p c hcp hrc1 hrc, hq,
        BufferCore.shareOrDetach_share h q d hcq hd]
      obtain ⟨x⟩ := O
      simp only at hq
      rw [hq]
    · simp only [Heap.cell, hp, Heap.setCore, if_neg hpq, hcp]
    · simp only [Heap.cell, hq, Heap.setCore_cores]

/-- C28 (amended). For a buffer `S` whose cell has share-count `c` with `1 <= c < 65535`:
copy-constructing a buffer from `S` returns a handle of the same cell, makes the
count `c + 1`, leaves size, headroom, address and memory unchanged, and the copy
compares equal to `S`; destroying the copy gives back the heap before the copy
(count `c`); and assigning to the copy a buffer `O` of another cell with
share-count `d < 65535` returns, makes the copy a handle of the cell of `O`,
brings the count of the old cell back to `c` and that of the new cell to `d + 1`,
and leaves size, headroom and address of both cells and the memory unchanged. -/
theorem Buffer.copy_counts (h : Heap) (S : Buffer) (c : BufferCore)
    (hS : h.cell S = some c) (hrc1 : 1 ≤ c.m_refcount) (hrc : c.m_refcount < 65535) :
    ∃ B h1, S.copy h = .ok B h1 ∧ B.m_core = S.m_core ∧
      B.refcount h1 = c.m_refcount + 1 ∧ S.refcount h1 = c.m_refcount + 1 ∧
      B.eq h1 S = .ok true h1 ∧
      S.size h1 = S.size h ∧ S.preallocated h1 = S.preallocated h ∧
      S.bytes h1 = S.bytes h ∧
      (∃ h0, B.destroy h1 = some h0 ∧ S.refcount h0 = c.m_refcount ∧ h0 = h) ∧
      ∀ (O : Buffer) (d : BufferCore), h.cell O = some d → O.m_core ≠ S.m_core →
        d.m_refcount < 65535 →
        ∃ B' h2, B.assign h1 O = (B', .ok () h2) ∧ B'.m_core = O.m_core ∧
          S.refcount h2 = c.m_refcount ∧ O.refcount h2 = d.m_refcount + 1 ∧
          S.size h2 = S.size h ∧ S.preallocated h2 = S.preallocated h ∧
          S.bytes h2 = S.bytes h ∧
          O.size h2 = O.size h ∧ O.preallocated h2 = O.preallocated h ∧
          O.bytes h2 = O.bytes h := by
  obtain ⟨h1, e1, hc1, hm1, -, hcmp, hdes, hassign⟩ := Buffer.copy_returns h S c hS hrc1 hrc
  refine ⟨S, h1, e1, rfl, ?_, ?_, ?_, ?_, ?_, ?_, ⟨h, hdes, ?_, rfl⟩, ?_⟩
  · simp only [Buffer.refcount, hc1]
  · simp only [Buffer.refcount, hc1]
  · unfold Buffer.eq
    rw [hcmp]
    rfl
  · simp only [Buffer.size, hc1, hS]
  · simp only [Buffer.preallocated, hc1, hS]
  · simp only [Buffer.bytes, Buffer.size, Buffer.data, hc1, hS, hm1]
  · simp only [Buffer.refcount, hS]
  · intro O d hO hne hd
    obtain ⟨h2, e2, hcS, hcO, hm2, -⟩ := hassign O d hO hne hd
    refine ⟨O, h2, e2, rfl, ?_, ?_, ?_, ?_, ?_, ?_, ?_, ?_⟩
    · simp only [Buffer.refcount, hcS]
    · simp only [Buffer.refcount, hcO]
    · simp only [Buffer.size, hcS, hS]
    · simp only [Buffer.preallocated, hcS, hS]
    · simp only [Buffer.bytes, Buffer.size, Buffer.data, hcS, hS, hm2]
    · simp only [Buffer.size, hcO, hO]
    · simp only [Buffer.preallocated, hcO, hO]
    · simp only [Buffer.bytes, Buffer.size, Buffer.data, hcO, hO, hm2]

/-- Witness for C28 on the test section "assignment": `Buffer buf2(borrowed)` makes the
count of the borrowed cell 2, and `buf2 = heapbuf` makes the counts 2 (heap cell)
and 1 (borrowed cell). -/
theorem Buffer.copy_counts_witness :
    Example.insertData.cell ⟨some 1⟩ = some ⟨1, 0, 4, 9, Buffer.stackManager⟩ ∧
    ∃ B h1, Buffer.copy Example.insertData ⟨some 1⟩ = .ok B h1 ∧
      Buffer.refcount h1 ⟨some 1⟩ = 2 ∧ B.eq h1 ⟨some 1⟩ = .ok true h1 ∧
      B.destroy h1 = some Example.insertData ∧
      ∃ B' h2, B.assign h1 ⟨some 0⟩ = (B', .ok () h2) ∧
        Buffer.refcount h2 ⟨some 0⟩ = 2 ∧ Buffer.refcount h2 ⟨some 1⟩ = 1 := by
  obtain ⟨B, h1, e1, -, -, r1, q1, -, -, -, ⟨h0, d0, -, d2⟩, ha⟩ :=
    Buffer.copy_counts Example.insertData ⟨some 1⟩ ⟨1, 0, 4, 9, Buffer.stackManager⟩ rfl
      (by decide) (by decide)
  obtain ⟨B', h2, e2, -, a1, a2, -⟩ :=
    ha ⟨some 0⟩ ⟨1, 0, 8, 1, Buffer.heapManager⟩ rfl (by decide) (by decide)
  exact ⟨rfl, B, h1, e1, r1, q1, d2 ▸ d0, B', h2, e2, a2, a1⟩


/-- Counterexample to C28 as stated: the share-count of the other cell is not bounded
by the claim. In `Example.saturatedStackData` the heap buffer `S` (cell 1) has
share-count 1, below the maximum, and `O` (cell 0, borrowed) has share-count 65535;
after `Buffer B(S)` the assignment `B = O` throws the detach error and the count of
the cell of `O` is still 65535, not increased by one. With a heap buffer `O` of
share-count 65535 (`Example.saturatedData`) and a new heap buffer `S` of two bytes,
`B = O` returns, but `B` then holds a new cell and the count of the cell of `O` is
65534, decreased by one. -/
theorem Buffer.copy_counts_counterexample :
    (Buffer.refcount Example.saturatedStackData ⟨some 1⟩,
      Buffer.refcount Example.saturatedStackData ⟨some 0⟩) = (1, 65535) ∧
    (Buffer.copy Example.saturatedStackData ⟨some 1⟩).observe?
        (fun B h1 => (B.m_core, B.refcount h1)) = some (some 1, 2) ∧
    ((Buffer.copy Example.saturatedStackData ⟨some 1⟩).bind (fun B h1 =>
        Outcome.ofSelf (B.assign h1 ⟨some 0⟩))).error? = some .bufcore_fail_detach ∧
    ((Buffer.copy Example.saturatedStackData ⟨some 1⟩).bind (fun B h1 =>
        Outcome.ofSelf (B.assign h1 ⟨some 0⟩))).heap?.map
      (fun h2 => (Buffer.refcount h2 ⟨some 1⟩, Buffer.refcount h2 ⟨some 0⟩))
      = some (1, 65535) ∧
    (Buffer.HeapSized Example.saturatedData 2).observe?
        (fun S h0 => (S.m_core, S.refcount h0, Buffer.refcount h0 ⟨some 0⟩))
      = some (some 1, 1, 65535) ∧
    (((Buffer.HeapSized Example.saturatedData 2).bind (fun S h0 => Buffer.copy h0 S)).bind
        (fun B h1 => Outcome.ofSelf (B.assign h1 ⟨some 0⟩))).observe?
      (fun B h2 => (B.m_core, B.refcount h2, Buffer.refcount h2 ⟨some 1⟩,
        Buffer.refcount h2 ⟨some 0⟩)) = some (some 2, 1, 1, 65534) := by
  refine ⟨by decide, by decide, by decide, by decide, by decide, by decide⟩


/-- C29 (evaluation). `A` is the heap buffer `F0 E1 D2 C3 B4 A5 96 87` (manager with
`canMutate`), `B` is copy-constructed from `A`, so both share one cell with
share-count 2. The write `A.at(1) = 0x99` forces no private copy: `A` keeps the
shared cell and the share-count stays 2, the byte is stored in the shared storage,
and `B.at(1)` returns `0x99`, not the value `0xE1` it had before the write. -/
theorem Buffer.assignAt_shared_writes_through :
    (Buffer.at Example.insertData ⟨some 0⟩ 1).value? = some 0xE1 ∧
    (Buffer.copy Example.insertData ⟨some 0⟩).observe?
      (fun B h1 => (B, B.refcount h1, (B.at h1 1).value?)) = some (⟨some 0⟩, 2, some 0xE1) ∧
    ((Buffer.copy Example.insertData ⟨some 0⟩).bind (fun B h1 =>
      (Buffer.assignAt h1 ⟨some 0⟩ 1 0x99).bind (fun _ h2 => B.at h2 1))).value?
        = some 0x99 ∧
    ((Buffer.copy Example.insertData ⟨some 0⟩).bind (fun _ h1 =>
      (Buffer.assignAt h1 ⟨some 0⟩ 1 0x99).bind (fun _ h2 =>
        Outcome.ok (Buffer.refcount h2 ⟨some 0⟩, Buffer.data h2 ⟨some 0⟩) h2))).value?
        = some (2, 1) := by
  refine ⟨by decide, by decide, by decide, by decide⟩


theorem List.getLast?_cons_getLastD {α : Type} : ∀ (l : List α) (a : α),
    (a :: l).getLast? = some (l.getLastD a) := by
  intro l
  induction l with
  | nil => intro a; rfl
  | cons b t ih =>
    intro a
    rw [List.getLast?_cons_cons, ih b, List.getLastD_cons]

theorem Exception.wrapAll_callstack : ∀ (fs : List String) (e : Exception),
    (Exception.wrapAll e fs).getCallstack = e.getCallstack ++ fs ∧
    (Exception.wrapAll e fs).getDescription = e.getDescription := by
  intro fs
  induction fs with
  | nil =>
    intro e
    simp only [Exception.wrapAll, List.append_nil, and_self]
  | cons f fs ih =>
    intro e
    obtain ⟨h1, h2⟩ := ih (Exception.wrap f e)
    refine ⟨?_, ?_⟩
    · rw [Exception.wrapAll, h1]
      simp only [Exception.getCallstack, Exception.wrap, List.append_assoc,
        List.singleton_append]
    · rw [Exception.wrapAll, h2]
      rfl

/-- C32. For every function name `f`, description `d` and exception `e`:
`Exception(f, d)` has description `d` and call stack `[f]`; `Exception(f, e)` has the
description of `e` and the call stack of `e` with `f` appended at the end; so
wrapping `Exception(f0, d)` with the `n` names `fs`, in order, keeps the description
and yields the call stack `f0 :: fs` of length `n + 1`, whose first entry is the
original function `f0` and whose last entry is the most recent name. -/
theorem Exception.callstack_spec (f f0 d : String) (e : Exception) (fs : List String) :
    (Exception.create f d).getDescription = d ∧
    (Exception.create f d).getCallstack = [f] ∧
    (Exception.wrap f e).getDescription = e.getDescription ∧
    (Exception.wrap f e).getCallstack = e.getCallstack ++ [f] ∧
    (Exception.wrapAll (Exception.create f0 d) fs).getDescription = d ∧
    (Exception.wrapAll (Exception.create f0 d) fs).getCallstack = f0 :: fs ∧
    (Exception.wrapAll (Exception.create f0 d) fs).getCallstack.length = fs.length + 1 ∧
    (Exception.wrapAll (Exception.create f0 d) fs).getCallstack.head? = some f0 ∧
    (Exception.wrapAll (Exception.create f0 d) fs).getCallstack.getLast? =
      some (fs.getLastD f0) ∧
    (Exception.wrapAll (Exception.create f0 d) (fs ++ [f])).getCallstack.getLast? = some f := by
  obtain ⟨h1, h2⟩ := Exception.wrapAll_callstack fs (Exception.create f0 d)
  obtain ⟨h3, -⟩ := Exception.wrapAll_callstack (fs ++ [f]) (Exception.create f0 d)
  have hc : (Exception.create f0 d).getCallstack ++ fs = f0 :: fs := rfl
  have hc2 : (Exception.create f0 d).getCallstack ++ (fs ++ [f]) = (f0 :: fs) ++ [f] := rfl
  refine ⟨rfl, rfl, rfl, rfl, h2, h1.trans hc, ?_, ?_, ?_, ?_⟩
  · rw [h1, hc, List.length_cons]
  · rw [h1, hc, List.head?_cons]
  · rw [h1, hc]
    exact List.getLast?_cons_getLastD fs f0
  · rw [h3, hc2, List.getLast?_append]
    rfl

/-! ## Guarded counters -/

/-- C40. For a cell whose share-count `c` is a 16-bit value: with either variant of
the guarded-increment macro, `tryShare` returns `true` and sets the count to `c + 1`
when `c < 65535`, and returns `false` and leaves the count at `65535` when
`c == 65535`; the count after the call is never 0 when `c > 0`, and never below `c`. -/
theorem BufferCore.tryShare_spec (c : BufferCore) (hc : c.m_refcount ≤ 65535) :
    (c.m_refcount < 65535 →
      c.tryShare = (true, { c with m_refcount := c.m_refcount + 1 }) ∧
      c.tryShareBuiltin = (true, { c with m_refcount := c.m_refcount + 1 })) ∧
    (c.m_refcount = 65535 →
      c.tryShare = (false, c) ∧ c.tryShareBuiltin = (false, c) ∧
      c.tryShare.2.m_refcount = 65535 ∧ c.tryShareBuiltin.2.m_refcount = 65535) ∧
    c.m_refcount ≤ c.tryShare.2.m_refcount ∧
    c.m_refcount ≤ c.tryShareBuiltin.2.m_refcount ∧
    c.tryShare.2.m_refcount ≤ 65535 ∧ c.tryShareBuiltin.2.m_refcount ≤ 65535 := by
  by_cases hlt : c.m_refcount < 65535
  · have hm : (c.m_refcount + 1) % 65536 = c.m_refcount + 1 := Nat.mod_eq_of_lt (by omega)
    have h1 : BUFFER_SAFE_INCREASE c.m_refcount = some (c.m_refcount + 1) := by
      unfold BUFFER_SAFE_INCREASE
      simp only [hm]
      rw [if_neg (by omega)]
    have h2 : BUFFER_SAFE_INCREASE_BUILTIN c.m_refcount = some (c.m_refcount + 1) := by
      unfold BUFFER_SAFE_INCREASE_BUILTIN
      rw [if_neg (by omega), hm]
    have e1 : c.tryShare = (true, { c with m_refcount := c.m_refcount + 1 }) := by
      simp only [BufferCore.tryShare, h1]
    have e2 : c.tryShareBuiltin = (true, { c with m_refcount := c.m_refcount + 1 }) := by
      simp only [BufferCore.tryShareBuiltin, h2]
    refine ⟨fun _ => ⟨e1, e2⟩, fun h => absurd h (by omega), ?_, ?_, ?_, ?_⟩
    · rw [e1]; simp only; omega
    · rw [e2]; simp only; omega
    · rw [e1]; simp only; omega
    · rw [e2]; simp only; omega
  · have heq : c.m_refcount = 65535 := by omega
    have h1 : BUFFER_SAFE_INCREASE c.m_refcount = none := by rw [heq]; decide
    have h2 : BUFFER_SAFE_INCREASE_BUILTIN c.m_refcount = none := by rw [heq]; decide
    have e1 : c.tryShare = (false, c) := by simp only [BufferCore.tryShare, h1]
    have e2 : c.tryShareBuiltin = (false, c) := by simp only [BufferCore.tryShareBuiltin, h2]
    refine ⟨fun h => absurd h hlt, fun _ => ⟨e1, e2, ?_, ?_⟩, ?_, ?_, ?_, ?_⟩
    · rw [e1]; exact heq
    · rw [e2]; exact heq
    · rw [e1]
    · rw [e2]
    · rw [e1]; exact hc
    · rw [e2]; exact hc

/-- Witness for C40: a cell with share-count 1 is shared (count 2), and a cell with
share-count 65535 is refused with the count left at 65535, in both variants. -/
theorem BufferCore.tryShare_spec_witness :
    (1 : Nat) ≤ 65535 ∧
    (BufferCore.tryShare ⟨1, 0, 4, 1, Buffer.heapManager⟩).1 = true ∧
    (BufferCore.tryShare ⟨1, 0, 4, 1, Buffer.heapManager⟩).2.m_refcount = 2 ∧
    (BufferCore.tryShareBuiltin ⟨1, 0, 4, 1, Buffer.heapManager⟩).2.m_refcount = 2 ∧
    BufferCore.tryShare ⟨65535, 0, 4, 1, Buffer.heapManager⟩
      = (false, ⟨65535, 0, 4, 1, Buffer.heapManager⟩) ∧
    BufferCore.tryShareBuiltin ⟨65535, 0, 4, 1, Buffer.heapManager⟩
      = (false, ⟨65535, 0, 4, 1, Buffer.heapManager⟩) := by
  have h1 := BufferCore.tryShare_spec ⟨1, 0, 4, 1, Buffer.heapManager⟩ (by decide)
  have h2 := BufferCore.tryShare_spec ⟨65535, 0, 4, 1, Buffer.heapManager⟩ (by decide)
  obtain ⟨a1, a2⟩ := h1.1 (by decide)
  obtain ⟨b1, b2, -, -⟩ := h2.2.1 rfl
  exact ⟨by decide, by rw [a1], by rw [a1], by rw [a2], b1, b2⟩


/-! ## Headroom accounting -/

/-- C33 (evaluation). On an exclusively held heap buffer with size 3 and headroom 5,
inserting the 2 bytes of another buffer at index 1 takes the in-place path and gives
size 5, headroom 3 and the same total 8; inserting the buffer into itself at index 0
also takes the in-place path (same cell, same storage address) and gives size 6 with
headroom 65535 and total 65541 rather than headroom 2 and total 8. -/
theorem Buffer.selfInsert_self_headroom :
    (Buffer.size Example.headroomData ⟨some 0⟩, Buffer.preallocated Example.headroomData ⟨some 0⟩,
      Buffer.totalsize Example.headroomData ⟨some 0⟩, Buffer.data Example.headroomData ⟨some 0⟩,
      Buffer.refcount Example.headroomData ⟨some 0⟩) = (3, 5, 8, 1, 1) ∧
    observeSelf? (Buffer.selfInsert Example.headroomData ⟨some 0⟩ 1 ⟨some 1⟩)
        (fun b h => (b.m_core, b.data h, b.bytes h)) = some (some 0, 1, [1, 10, 11, 2, 3]) ∧
    observeSelf? (Buffer.selfInsert Example.headroomData ⟨some 0⟩ 1 ⟨some 1⟩)
        (fun b h => (b.size h, b.preallocated h, b.totalsize h)) = some (5, 3, 8) ∧
    observeSelf? (Buffer.selfInsert Example.headroomData ⟨some 0⟩ 0 ⟨some 0⟩)
        (fun b h => (b.m_core, b.data h, b.bytes h)) = some (some 0, 1, [1, 2, 3, 1, 2, 3]) ∧
    observeSelf? (Buffer.selfInsert Example.headroomData ⟨some 0⟩ 0 ⟨some 0⟩)
        (fun b h => (b.size h, b.preallocated h, b.totalsize h)) = some (6, 65535, 65541) := by
  refine ⟨by decide, by decide, by decide, by decide, by decide⟩

/-- C34 (evaluation). On an exclusively held stack buffer of 70000 bytes with no
headroom, `selfErase(0, 65535)` works in place and keeps the total (size 4465,
headroom 65535, total 70000), but `selfErase(0, 65536)` and `selfErase(0, 65537)` also
work in place (same cell, same address) and leave headroom 0 and 1 with totals 4464:
the headroom did not grow by the erased span and the total changed. -/
theorem Buffer.selfErase_long_span_headroom :
    Buffer.size Example.longStackData ⟨some 0⟩ = 70000 ∧
    Buffer.preallocated Example.longStackData ⟨some 0⟩ = 0 ∧
    Buffer.totalsize Example.longStackData ⟨some 0⟩ = 70000 ∧
    Buffer.refcount Example.longStackData ⟨some 0⟩ = 1 ∧
    observeSelf? (Buffer.selfErase Example.longStackData ⟨some 0⟩ 0 65535)
        (fun b h => (b.m_core, b.size h, b.preallocated h, b.totalsize h, b.data h))
      = some (some 0, 4465, 65535, 70000, 1) ∧
    observeSelf? (Buffer.selfErase Example.longStackData ⟨some 0⟩ 0 65536)
        (fun b h => (b.m_core, b.size h, b.preallocated h, b.totalsize h, b.data h))
      = some (some 0, 4464, 0, 4464, 1) ∧
    observeSelf? (Buffer.selfErase Example.longStackData ⟨some 0⟩ 0 65537)
        (fun b h => (b.m_core, b.size h, b.preallocated h, b.totalsize h, b.data h))
      = some (some 0, 4463, 1, 4464, 1) := by
  refine ⟨by decide, by decide, by decide, by decide, by decide, by decide, by decide⟩

/-! ## Forking a cell -/

/-- C35 (evaluation). Detaching the heap cell of `Example.sharedHeadroomData`
(share-count 2, size 4, headroom 2, bytes 01 02 03 04) yields a new cell with size 6,
headroom 0 and bytes 00 00 00 00 00 00 in fresh storage, while the original keeps
size 4, headroom 2 and its bytes; the forked handle compares greater than the
original instead of equal. -/
theorem BufferCore.detach_drops_bytes :
    (Buffer.size Example.sharedHeadroomData ⟨some 0⟩,
      Buffer.preallocated Example.sharedHeadroomData ⟨some 0⟩,
      Buffer.refcount Example.sharedHeadroomData ⟨some 0⟩,
      Buffer.bytes Example.sharedHeadroomData ⟨some 0⟩) = (4, 2, 2, [1, 2, 3, 4]) ∧
    ((BufferCore.detach Example.sharedHeadroomData (some 0)).bind (fun q h =>
        Outcome.ok (q, Buffer.size h ⟨q⟩, Buffer.preallocated h ⟨q⟩, Buffer.data h ⟨q⟩) h)).value?
      = some (some 1, 6, 0, 8) ∧
    ((BufferCore.detach Example.sharedHeadroomData (some 0)).bind (fun q h =>
        Outcome.ok (Buffer.bytes h ⟨q⟩) h)).value? = some [0, 0, 0, 0, 0, 0] ∧
    ((BufferCore.detach Example.sharedHeadroomData (some 0)).bind (fun _ h =>
        Outcome.ok (Buffer.size h ⟨some 0⟩, Buffer.preallocated h ⟨some 0⟩,
          Buffer.bytes h ⟨some 0⟩) h)).value? = some (4, 2, [1, 2, 3, 4]) ∧
    ((BufferCore.detach Example.sharedHeadroomData (some 0)).bind (fun q h =>
        Buffer.compare h ⟨q⟩ ⟨some 0⟩)).value? = some 1 := by
  refine ⟨by decide, by decide, by decide, by decide, by decide⟩

/-- C36 (evaluation). Inserting 4 bytes into the exclusively held 8-byte heap buffer
of `Example.insertData` goes through the reallocating path; the handle then refers to
a new cell of size 12 whose share-count is 2, although that handle is the only one
referring to it. A directly following `selfPreallocate(4)` therefore forks again
(new cell with headroom 4 and share-count 2), and the `selfInsert` of 4 bytes that
follows it, which fits in the headroom of 4, does not work in place either: it moves
the handle to yet another cell. -/
theorem Buffer.selfInsert_realloc_count :
    Buffer.refcount Example.insertData ⟨some 0⟩ = 1 ∧
    (Outcome.ofSelf (Buffer.selfInsert Example.insertData ⟨some 0⟩ 3 ⟨some 1⟩)).observe?
        (fun b h => (b.m_core, b.size h, b.preallocated h, b.refcount h))
      = some (some 2, 12, 0, 2) ∧
    ((Outcome.ofSelf (Buffer.selfInsert Example.insertData ⟨some 0⟩ 3 ⟨some 1⟩)).bind
        (fun b h => Outcome.ofSelf (b.selfPreallocate h 4 none))).observe?
        (fun b h => (b.m_core, b.size h, b.preallocated h, b.refcount h))
      = some (some 3, 12, 4, 2) ∧
    Buffer.size Example.insertData ⟨some 1⟩ = 4 ∧
    (((Outcome.ofSelf (Buffer.selfInsert Example.insertData ⟨some 0⟩ 3 ⟨some 1⟩)).bind
        (fun b h => Outcome.ofSelf (b.selfPreallocate h 4 none))).bind
        (fun b h => Outcome.ofSelf (b.selfInsert h 0 ⟨some 1⟩))).observe?
        (fun b h => (b.m_core, b.size h, b.preallocated h, b.refcount h))
      = some (some 4, 16, 0, 2) := by
  refine ⟨by decide, by decide, by decide, by decide, by decide⟩

/-- C37 (evaluation). Copying a handle of the heap cell of `Example.saturatedData`,
whose share-count is 65535, succeeds by forking: the new handle refers to a new cell
with share-count 1, and the share-count of the original cell is 65534 afterwards,
one less than the number of handles that still refer to it. -/
theorem Buffer.copy_saturated_decrements :
    Buffer.refcount Example.saturatedData ⟨some 0⟩ = 65535 ∧
    (Buffer.copy Example.saturatedData ⟨some 0⟩).observe?
        (fun b h => (b.m_core, b.refcount h, Buffer.refcount h ⟨some 0⟩))
      = some (some 1, 1, 65534) := by
  refine ⟨by decide, by decide⟩

/-! ## Iterator assignment -/

/-- C38 (evaluation). Over the buffer `01 02 03` of `Example.eraseData` (share-count 1),
`a = begin()` and `b = end()` are the iterators `(cell 0, index 0)` and
`(cell 0, index 3)`; the assignment `a = b` succeeds and leaves `a` at index 0, so
`a == b` is false. With `a = begin()` of the first buffer and `b = end()` of the second
buffer of `Example.insertData`, `a = b` succeeds and `a` takes the cell of `b` but keeps
index 0, so again `a == b` is false. -/
theorem Iterator.assign_keeps_index :
    ((Buffer.begin Example.eraseData ⟨some 0⟩).bind (fun a h1 =>
      (Buffer.end h1 ⟨some 0⟩).bind (fun b h2 =>
        (Outcome.ofSelf (Iterator.assign h2 a b)).bind (fun a1 h3 =>
          Outcome.ok (a, b, a1, Iterator.eq a1 b) h3)))).value?
      = some (⟨0, some 0⟩, ⟨3, some 0⟩, ⟨0, some 0⟩, false) ∧
    ((Buffer.begin Example.insertData ⟨some 0⟩).bind (fun a h1 =>
      (Buffer.end h1 ⟨some 1⟩).bind (fun b h2 =>
        (Outcome.ofSelf (Iterator.assign h2 a b)).bind (fun a1 h3 =>
          Outcome.ok (a, b, a1, Iterator.eq a1 b) h3)))).value?
      = some (⟨0, some 0⟩, ⟨4, some 1⟩, ⟨0, some 1⟩, false) := by
  refine ⟨by decide, by decide⟩

/-! ## The empty buffer -/

/-- C39 (evaluation). On the empty buffer, which has no cell, each of `range(0, 0)`,
`erase(0, 0)`, `reverse(0, 0, heapManager)`, `selfReverse(0, 0)` and
`selfPreallocate(4, heapManager)` neither returns a result nor throws an error: each
reads a field through the null cell pointer, which is undefined behaviour. -/
theorem Buffer.empty_calls_undefined :
    ((Buffer.range Example.emptyHeap Buffer.empty 0 0 none).value?.isSome,
      (Buffer.range Example.emptyHeap Buffer.empty 0 0 none).error?) = (false, none) ∧
    ((Buffer.erase Example.emptyHeap Buffer.empty 0 0 none).value?.isSome,
      (Buffer.erase Example.emptyHeap Buffer.empty 0 0 none).error?) = (false, none) ∧
    ((Buffer.reverse Example.emptyHeap Buffer.empty 0 0 (some Buffer.heapManager)).value?.isSome,
      (Buffer.reverse Example.emptyHeap Buffer.empty 0 0 (some Buffer.heapManager)).error?)
      = (false, none) ∧
    ((Buffer.selfReverse Example.emptyHeap Buffer.empty 0 0).2.value?.isSome,
      (Buffer.selfReverse Example.emptyHeap Buffer.empty 0 0).2.error?) = (false, none) ∧
    ((Buffer.selfPreallocate Example.emptyHeap Buffer.empty 4 (some Buffer.heapManager)).2.value?.isSome,
      (Buffer.selfPreallocate Example.emptyHeap Buffer.empty 4
        (some Buffer.heapManager)).2.error?) = (false, none) := by
  refine ⟨by decide, by decide, by decide, by decide, by decide⟩


/-! ## Bounds of the counters -/

theorem Outcome.heapSatisfies_heap? {α : Type} (o : Outcome α) (P : Heap → Prop)
    (ho : o.heapSatisfies P) (g : Heap) (hg : o.heap? = some g) : P g := by
  cases o with
  | ok v h =>
    simp only [Outcome.heap?, Option.some.injEq] at hg
    exact hg ▸ ho
  | threw e h =>
    simp only [Outcome.heap?, Option.some.injEq] at hg
    exact hg ▸ ho
  | undefined => simp only [Outcome.heap?] at hg; exact absurd hg (by simp)

theorem Heap.bounded_of_fields (h g : Heap) (hc : g.cores = h.cores)
    (hn : g.nextCore = h.nextCore) (hI : h.bounded) : g.bounded := by
  intro p c hp
  rw [hc] at hp
  rw [hn]
  exact hI p c hp

theorem Heap.bounded_withMem (h : Heap) (m : Nat → Byte) (hI : h.bounded) :
    (h.withMem m).bounded :=
  Heap.bounded_of_fields h _ rfl rfl hI

theorem Heap.bounded_write (h : Heap) (a : Nat) (v : Byte) (hI : h.bounded) :
    (h.write a v).bounded :=
  Heap.bounded_of_fields h _ rfl rfl hI

theorem Heap.bounded_setCore_none (h : Heap) (p : Nat) (hI : h.bounded) :
    (h.setCore p none).bounded := by
  intro q c hq
  simp only [Heap.setCore] at hq ⊢
  by_cases hqp : q = p
  · simp [hqp] at hq
  · rw [if_neg hqp] at hq
    exact hI q c hq

theorem Heap.bounded_setCore_some (h : Heap) (p : Nat) (c : BufferCore) (hI : h.bounded)
    (hp : p < h.nextCore) (hs : c.m_size + c.m_preall ≤ BufferCore.max_size)
    (hpre : c.m_preall ≤ BufferCore.max_preall) :
    (h.setCore p (some c)).bounded := by
  intro q d hq
  simp only [Heap.setCore] at hq ⊢
  by_cases hqp : q = p
  · rw [if_pos hqp, Option.some.injEq] at hq
    subst hq
    exact ⟨hqp ▸ hp, hs, hpre⟩
  · rw [if_neg hqp] at hq
    exact hI q d hq

theorem BufferCore.create_bounded (h : Heap) (manager : BufferManager) (preall size address : Nat)
    (hI : h.bounded) (hs : size + preall ≤ BufferCore.max_size)
    (hpre : preall ≤ BufferCore.max_preall) :
    (BufferCore.create h manager preall size address).2.bounded := by
  intro q d hq
  simp only [BufferCore.create] at hq ⊢
  by_cases hqp : q = h.nextCore
  · rw [if_pos hqp, Option.some.injEq] at hq
    subst hq
    exact ⟨by omega, hs, hpre⟩
  · rw [if_neg hqp] at hq
    obtain ⟨h1, h2⟩ := hI q d hq
    exact ⟨by omega, h2⟩

theorem AllocateFunction.call_fields (f : AllocateFunction) (h : Heap) (bytes : Nat) :
    (f.call h bytes).2.cores = h.cores ∧ (f.call h bytes).2.nextCore = h.nextCore := by
  cases f <;> exact ⟨rfl, rfl⟩

theorem BufferCore.tryAllocateRaw_fields (h : Heap) (c : BufferCore) (bytes : Nat) :
    (c.tryAllocateRaw h bytes).2.cores = h.cores ∧
    (c.tryAllocateRaw h bytes).2.nextCore = h.nextCore ∧
    ((c.tryAllocateRaw h bytes).1 ≠ 0 → bytes ≤ BufferCore.max_size) := by
  unfold BufferCore.tryAllocateRaw
  split
  · exact ⟨rfl, rfl, fun hne => absurd rfl hne⟩
  · rename_i hcond
    have hb : bytes ≤ BufferCore.max_size := by
      by_contra hgt
      exact hcond (Or.inr (by omega))
    exact ⟨(AllocateFunction.call_fields _ h bytes).1, (AllocateFunction.call_fields _ h bytes).2,
      fun _ => hb⟩

theorem BufferCore.tryAllocate_fields (h : Heap) (c : BufferCore) (bytes : Nat) :
    (c.tryAllocate h bytes).2.2.cores = h.cores ∧
    (c.tryAllocate h bytes).2.2.nextCore = h.nextCore ∧
    (c.tryAllocate h bytes).2.1.m_size = bytes % 4294967296 ∧
    (c.tryAllocate h bytes).2.1.m_preall = 0 ∧
    ((c.tryAllocate h bytes).1 = true → bytes ≤ BufferCore.max_size) := by
  obtain ⟨h1, h2, h3⟩ := BufferCore.tryAllocateRaw_fields h c bytes
  refine ⟨h1, h2, rfl, rfl, ?_⟩
  intro ht
  simp only [BufferCore.tryAllocate, decide_eq_true_eq] at ht
  exact h3 ht

theorem BufferCore.tryAllocate_bounded (h : Heap) (c : BufferCore) (bytes p : Nat)
    (hI : h.bounded) (hp : p < h.nextCore) :
    ((c.tryAllocate h bytes).2.2.setCore p (some (c.tryAllocate h bytes).2.1)).bounded := by
  obtain ⟨h1, h2, h3, h4, -⟩ := BufferCore.tryAllocate_fields h c bytes
  apply Heap.bounded_setCore_some
  · exact Heap.bounded_of_fields h _ h1 h2 hI
  · rw [h2]; exact hp
  · rw [h3, h4]
    have : bytes % 4294967296 < 4294967296 := Nat.mod_lt _ (by decide)
    simp only [BufferCore.max_size]
    omega
  · rw [h4]; exact Nat.zero_le _

/-- The cell made by `create` followed by `tryAllocate`, stored back. -/
theorem BufferCore.create_tryAllocate_bounded (h : Heap) (manager : BufferManager) (bytes : Nat)
    (c : BufferCore) (hI : h.bounded) :
    ((c.tryAllocate (BufferCore.create h manager 0 0 0).2 bytes).2.2.setCore
      (BufferCore.create h manager 0 0 0).1
      (some (c.tryAllocate (BufferCore.create h manager 0 0 0).2 bytes).2.1)).bounded := by
  apply BufferCore.tryAllocate_bounded
  · exact BufferCore.create_bounded h manager 0 0 0 hI (by decide) (by decide)
  · simp only [BufferCore.create]; omega

theorem BufferCore.release_bounded (h : Heap) (core : Option Nat) (hI : h.bounded) (g : Heap)
    (hg : BufferCore.release h core = some g) : g.bounded := by
  unfold BufferCore.release at hg
  split at hg
  · exact absurd hg (by simp)
  · rename_i p
    split at hg
    · exact absurd hg (by simp)
    · rename_i c hc
      split at hg
      · simp only [Option.some.injEq] at hg
        subst hg
        apply Heap.bounded_setCore_none
        split
        · exact Heap.bounded_of_fields h _ rfl rfl hI
        · exact hI
      · split at hg
        · simp only [Option.some.injEq] at hg
          exact hg ▸ hI
        · simp only [Option.some.injEq] at hg
          subst hg
          obtain ⟨a1, a2, a3⟩ := hI p c hc
          exact Heap.bounded_setCore_some h p _ hI a1 a2 a3

theorem BufferCore.detach_bounded (h : Heap) (core : Option Nat) (hI : h.bounded) :
    (BufferCore.detach h core).heapSatisfies Heap.bounded := by
  unfold BufferCore.detach
  split
  · trivial
  · rename_i p
    split
    · trivial
    · rename_i c hc
      obtain ⟨a1, a2, a3⟩ := hI p c hc
      have hcr : (BufferCore.create h c.m_manager c.m_preall c.m_size c.m_address).2.bounded :=
        BufferCore.create_bounded h _ _ _ _ hI a2 a3
      split
      · simp only
        split
        · split
          · simp only [Outcome.heapSatisfies]
            apply Heap.bounded_setCore_none
            obtain ⟨f1, f2, -⟩ := BufferCore.tryAllocate_fields
              (BufferCore.create h c.m_manager c.m_preall c.m_size c.m_address).2
              ⟨1, c.m_preall, c.m_size, c.m_address, c.m_manager⟩
              ((c.m_size + c.m_preall) % 4294967296)
            exact Heap.bounded_of_fields _ _ f1 f2 hcr
          · have hb := BufferCore.tryAllocate_bounded
              (BufferCore.create h c.m_manager c.m_preall c.m_size c.m_address).2
              ⟨1, c.m_preall, c.m_size, c.m_address, c.m_manager⟩
              ((c.m_size + c.m_preall) % 4294967296)
              (BufferCore.create h c.m_manager c.m_preall c.m_size c.m_address).1 hcr
              (by simp only [BufferCore.create]; omega)
            split
            · trivial
            · rename_i h2 hr
              exact BufferCore.release_bounded _ _ hb h2 hr
        · split
          · trivial
          · rename_i h2 hr
            exact BufferCore.release_bounded _ _ hcr h2 hr
      · exact hI

theorem BufferCore.tryShare_fields (c : BufferCore) :
    c.tryShare.2.m_size = c.m_size ∧ c.tryShare.2.m_preall = c.m_preall := by
  unfold BufferCore.tryShare
  split <;> exact ⟨rfl, rfl⟩

theorem BufferCore.tryShare_bounded (h : Heap) (p : Nat) (c : BufferCore) (hI : h.bounded)
    (hc : h.cores p = some c) : (h.setCore p (some c.tryShare.2)).bounded := by
  obtain ⟨a1, a2, a3⟩ := hI p c hc
  obtain ⟨s1, s2⟩ := BufferCore.tryShare_fields c
  exact Heap.bounded_setCore_some h p _ hI a1 (by rw [s1, s2]; exact a2) (by rw [s2]; exact a3)

theorem BufferCore.shareOrDetach_bounded (h : Heap) (core : Option Nat) (hI : h.bounded) :
    (BufferCore.shareOrDetach h core).heapSatisfies Heap.bounded := by
  unfold BufferCore.shareOrDetach
  split
  · exact hI
  · rename_i p
    split
    · trivial
    · rename_i c hc
      simp only
      split
      · exact BufferCore.detach_bounded _ _ (BufferCore.tryShare_bounded h p c hI hc)
      · exact BufferCore.tryShare_bounded h p c hI hc

theorem BufferCore.change_bounded (h : Heap) (core newcore : Option Nat) (hI : h.bounded) :
    (BufferCore.change h core newcore).heapSatisfies Heap.bounded := by
  unfold BufferCore.change
  split
  · trivial
  · rename_i h1 hr
    exact BufferCore.shareOrDetach_bounded _ _ (BufferCore.release_bounded h core hI h1 hr)

theorem Buffer.sized_bounded (h : Heap) (manager : BufferManager) (size : Nat) (hI : h.bounded) :
    (Buffer.sized h manager size).heapSatisfies Heap.bounded := by
  unfold Buffer.sized
  split
  · exact hI
  · simp only
    split
    · split
      · exact BufferCore.create_tryAllocate_bounded h manager size _ hI
      · exact BufferCore.create_tryAllocate_bounded h manager size _ hI
    · exact BufferCore.create_bounded h manager 0 0 0 hI (by decide) (by decide)

theorem Buffer.fromExternal_bounded (h : Heap) (manager : BufferManager) (pointer size : Nat)
    (hI : h.bounded) : (Buffer.fromExternal h manager pointer size).heapSatisfies Heap.bounded := by
  unfold Buffer.fromExternal
  split
  · exact hI
  · split
    · exact hI
    · apply BufferCore.create_bounded h manager 0 _ pointer hI
      · have : size % 4294967296 < 4294967296 := Nat.mod_lt _ (by decide)
        simp only [BufferCore.max_size]; omega
      · exact Nat.zero_le _

theorem Outcome.heapSatisfies_of_ok {α : Type} {o : Outcome α} {P : Heap → Prop} {v : α}
    {g : Heap} (ho : o.heapSatisfies P) (heq : o = .ok v g) : P g := by
  rw [heq] at ho
  exact ho

theorem Outcome.heapSatisfies_of_threw {α : Type} {o : Outcome α} {P : Heap → Prop} {e : Error}
    {g : Heap} (ho : o.heapSatisfies P) (heq : o = .threw e g) : P g := by
  rw [heq] at ho
  exact ho

theorem Buffer.HeapPreall_bounded (h : Heap) (size : Nat) (hI : h.bounded) :
    (Buffer.HeapPreall h size).heapSatisfies Heap.bounded := by
  have hs := Buffer.sized_bounded h Buffer.heapManager
    (if size > BufferCore.max_preall then BufferCore.max_preall else size) hI
  unfold Buffer.HeapPreall
  split
  · rename_i e h1 heq
    exact Outcome.heapSatisfies_of_threw hs heq
  · trivial
  · rename_i result h1 heq
    have hb : h1.bounded := Outcome.heapSatisfies_of_ok hs heq
    split
    · trivial
    · rename_i p hp
      split
      · trivial
      · rename_i c hc
        obtain ⟨a1, -, -⟩ := hb p c hc
        have hm : c.m_size % 65536 < 65536 := Nat.mod_lt _ (by decide)
        refine Heap.bounded_setCore_some h1 p _ hb a1 ?_ ?_
        · simp only [BufferCore.max_size]; omega
        · simp only [BufferCore.max_preall]; omega

theorem Buffer.HeapFrom_bounded (h : Heap) (ptr size : Nat) (hI : h.bounded) :
    (Buffer.HeapFrom h ptr size).heapSatisfies Heap.bounded := by
  have hs := Buffer.sized_bounded h Buffer.heapManager size hI
  unfold Buffer.HeapFrom
  split
  · rename_i e h1 heq
    exact Outcome.heapSatisfies_of_threw hs heq
  · trivial
  · rename_i result h1 heq
    have hb : h1.bounded := Outcome.heapSatisfies_of_ok hs heq
    split
    · trivial
    · exact Heap.bounded_withMem _ _ hb

theorem Buffer.copy_bounded (h : Heap) (other : Buffer) (hI : h.bounded) :
    (Buffer.copy h other).heapSatisfies Heap.bounded := by
  have hs := BufferCore.shareOrDetach_bounded h other.m_core hI
  unfold Buffer.copy
  split
  · rename_i q h1 heq
    exact Outcome.heapSatisfies_of_ok hs heq
  · rename_i e h1 heq
    exact Outcome.heapSatisfies_of_threw hs heq
  · trivial

theorem Buffer.destroy_bounded (h : Heap) (self : Buffer) (hI : h.bounded) (g : Heap)
    (hg : Buffer.destroy h self = some g) : g.bounded := by
  unfold Buffer.destroy at hg
  split at hg
  · simp only [Option.some.injEq] at hg
    exact hg ▸ hI
  · exact BufferCore.release_bounded h _ hI g hg

theorem Exception.makeCallString_bounded (h : Heap) (value : Buffer) (hI : h.bounded) :
    (Exception.makeCallString h value).heapSatisfies Heap.bounded := by
  have hs := Buffer.copy_bounded h value hI
  unfold Exception.makeCallString
  split
  · trivial
  · rename_i e h1 heq
    exact Outcome.heapSatisfies_of_threw hs heq
  · rename_i values h1 heq
    have hb1 : h1.bounded := Outcome.heapSatisfies_of_ok hs heq
    have hs2 := Buffer.copy_bounded h1 values hb1
    split
    · trivial
    · rename_i e h2 heq2
      have hb2 : h2.bounded := Outcome.heapSatisfies_of_threw hs2 heq2
      split
      · trivial
      · rename_i h3 hd
        exact Buffer.destroy_bounded h2 values hb2 h3 hd
    · rename_i captured h2 heq2
      have hb2 : h2.bounded := Outcome.heapSatisfies_of_ok hs2 heq2
      split
      · trivial
      · rename_i h3 hd
        have hb3 := Buffer.destroy_bounded h2 captured hb2 h3 hd
        split
        · trivial
        · rename_i h4 hd4
          exact Buffer.destroy_bounded h3 values hb3 h4 hd4

theorem Exception.throwCallString_bounded {α : Type} (h : Heap) (value : Buffer)
    (description : Error) (hI : h.bounded) :
    (Exception.throwCallString h value description : Outcome α).heapSatisfies Heap.bounded := by
  have hs := Exception.makeCallString_bounded h value hI
  unfold Exception.throwCallString
  split
  · rename_i u h1 heq
    exact Outcome.heapSatisfies_of_ok hs heq
  · rename_i e h1 heq
    exact Outcome.heapSatisfies_of_threw hs heq
  · trivial

theorem Buffer.assign_bounded (h : Heap) (self other : Buffer) (hI : h.bounded) :
    (Buffer.assign h self other).2.heapSatisfies Heap.bounded := by
  unfold Buffer.assign
  split
  · rename_i p hp
    have hs := BufferCore.change_bounded h (some p) other.m_core hI
    split
    · rename_i q h1 heq
      exact Outcome.heapSatisfies_of_ok hs heq
    · rename_i e h1 heq
      exact Outcome.heapSatisfies_of_threw hs heq
    · trivial
  · have hs := BufferCore.shareOrDetach_bounded h other.m_core hI
    split
    · rename_i q h1 heq
      exact Outcome.heapSatisfies_of_ok hs heq
    · rename_i e h1 heq
      exact Outcome.heapSatisfies_of_threw hs heq
    · trivial

theorem Iterator.create_keeps_bounded (h : Heap) (data : Option Nat) (index : Nat) (hI : h.bounded) :
    (Iterator.create h data index).heapSatisfies Heap.bounded := by
  unfold Iterator.create
  split
  · exact hI
  · rename_i p
    split
    · trivial
    · rename_i c hc
      simp only
      split
      · exact hI
      · exact BufferCore.tryShare_bounded h p c hI hc

theorem Iterator.destroy_keeps_bounded (h : Heap) (it : Iterator) (hI : h.bounded) (g : Heap)
    (hg : Iterator.destroy h it = some g) : g.bounded := by
  unfold Iterator.destroy at hg
  split at hg
  · simp only [Option.some.injEq] at hg
    exact hg ▸ hI
  · exact BufferCore.release_bounded h _ hI g hg

theorem Iterator.assign_keeps_bounded (h : Heap) (a other : Iterator) (hI : h.bounded) :
    (Iterator.assign h a other).2.heapSatisfies Heap.bounded := by
  unfold Iterator.assign
  split
  · rename_i p hp
    have hs := BufferCore.change_bounded h (some p) other.m_data hI
    split
    · rename_i q h1 heq
      exact Outcome.heapSatisfies_of_ok hs heq
    · rename_i e h1 heq
      exact Outcome.heapSatisfies_of_threw hs heq
    · trivial
  · have hs := BufferCore.shareOrDetach_bounded h other.m_data hI
    split
    · rename_i q h1 heq
      exact Outcome.heapSatisfies_of_ok hs heq
    · rename_i e h1 heq
      exact Outcome.heapSatisfies_of_threw hs heq
    · trivial

theorem Buffer.clone_bounded (h : Heap) (self : Buffer) (manager : Option BufferManager)
    (hI : h.bounded) : (Buffer.clone h self manager).heapSatisfies Heap.bounded := by
  unfold Buffer.clone
  split
  · exact hI
  · split
    · trivial
    · rename_i c hc
      simp only
      split
      · exact hI
      · have hs := Buffer.sized_bounded h (manager.getD c.m_manager) c.m_size hI
        split
        · rename_i e h1 heq
          exact Outcome.heapSatisfies_of_threw hs heq
        · trivial
        · rename_i result h1 heq
          have hb : h1.bounded := Outcome.heapSatisfies_of_ok hs heq
          split
          · exact Heap.bounded_withMem _ _ hb
          · trivial

theorem Buffer.range_bounded (h : Heap) (self : Buffer) (start end_ : Nat)
    (imanager : Option BufferManager) (hI : h.bounded) :
    (Buffer.range h self start end_ imanager).heapSatisfies Heap.bounded := by
  unfold Buffer.range
  split
  · exact hI
  · simp only
    split
    · trivial
    · rename_i newManager hnm
      split
      · exact Buffer.sized_bounded h newManager 0 hI
      · split
        · trivial
        · rename_i c hc
          split
          · exact Buffer.fromExternal_bounded h newManager _ _ hI
          · have hs := Buffer.sized_bounded h newManager (end_ - start) hI
            split
            · rename_i e h1 heq
              exact Outcome.heapSatisfies_of_threw hs heq
            · trivial
            · rename_i result h1 heq
              have hb : h1.bounded := Outcome.heapSatisfies_of_ok hs heq
              split
              · exact Heap.bounded_withMem _ _ hb
              · trivial

theorem Buffer.reverse_bounded (h : Heap) (self : Buffer) (start end_ : Nat)
    (imanager : Option BufferManager) (hI : h.bounded) :
    (Buffer.reverse h self start end_ imanager).heapSatisfies Heap.bounded := by
  unfold Buffer.reverse
  split
  · exact hI
  · split
    · exact hI
    · rename_i newManager hnm
      split
      · trivial
      · rename_i c0 hc0
        have hs := Buffer.sized_bounded h newManager c0.m_size hI
        split
        · rename_i e h1 heq
          exact Outcome.heapSatisfies_of_threw hs heq
        · trivial
        · rename_i result h1 heq
          have hb : h1.bounded := Outcome.heapSatisfies_of_ok hs heq
          split
          · exact Heap.bounded_withMem _ _ hb
          · trivial

theorem Buffer.insert_bounded (h : Heap) (self : Buffer) (index : Nat) (value : Buffer)
    (imanager : Option BufferManager) (hI : h.bounded) :
    (Buffer.insert h self index value imanager).heapSatisfies Heap.bounded := by
  unfold Buffer.insert
  split
  · exact Exception.throwCallString_bounded h value _ hI
  · split
    · exact Exception.throwCallString_bounded h value _ hI
    · rename_i newManager hnm
      have hs := Buffer.sized_bounded h newManager (self.size h + value.size h) hI
      split
      · rename_i e h1 heq
        exact Outcome.heapSatisfies_of_threw hs heq
      · trivial
      · rename_i newBuffer h1 heq
        have hb : h1.bounded := Outcome.heapSatisfies_of_ok hs heq
        split
        · trivial
        · simp only
          split
          · trivial
          · split
            · exact Heap.bounded_withMem _ _ hb
            · split
              · trivial
              · exact Heap.bounded_withMem _ _ hb

theorem Buffer.erase_bounded (h : Heap) (self : Buffer) (start end_ : Nat)
    (imanager : Option BufferManager) (hI : h.bounded) :
    (Buffer.erase h self start end_ imanager).heapSatisfies Heap.bounded := by
  unfold Buffer.erase
  split
  · exact hI
  · simp only
    split
    · trivial
    · exact hI
    · rename_i newManager hnm
      split
      · exact Buffer.sized_bounded h newManager 0 hI
      · split
        · exact hI
        · have hs := Buffer.sized_bounded h newManager (self.size h - end_ + start) hI
          split
          · rename_i e h1 heq
            exact Outcome.heapSatisfies_of_threw hs heq
          · trivial
          · rename_i result h1 heq
            have hb : h1.bounded := Outcome.heapSatisfies_of_ok hs heq
            split
            · exact Heap.bounded_withMem _ _ hb
            · trivial

theorem Buffer.selfClone_bounded (h : Heap) (self other : Buffer)
    (imanager : Option BufferManager) (hI : h.bounded) :
    (Buffer.selfClone h self other imanager).2.heapSatisfies Heap.bounded := by
  unfold Buffer.selfClone
  split
  · exact hI
  · split
    · exact Exception.throwCallString_bounded h other _ hI
    · rename_i resultManager hrm
      split
      · exact Exception.throwCallString_bounded h other _ hI
      · have h0b : ∀ h0, (match self.m_core with
            | none => some h
            | some p => BufferCore.release h (some p)) = some h0 → h0.bounded := by
          intro h0 hh0
          split at hh0
          · simp only [Option.some.injEq] at hh0
            exact hh0 ▸ hI
          · exact BufferCore.release_bounded h _ hI h0 hh0
        simp only
        split
        · trivial
        · rename_i h0 hh0
          have hb0 := h0b h0 hh0
          split
          · trivial
          · rename_i o ho
            have hb1 := BufferCore.create_tryAllocate_bounded h0 resultManager o.m_size
              ⟨1, 0, 0, 0, resultManager⟩ hb0
            split
            · exact Exception.throwCallString_bounded _ other _ hb1
            · split
              · trivial
              · split
                · trivial
                · exact Heap.bounded_withMem _ _ hb1

theorem Buffer.selfCloneSelf_bounded (h : Heap) (self : Buffer)
    (imanager : Option BufferManager) (hI : h.bounded) :
    (Buffer.selfCloneSelf h self imanager).2.heapSatisfies Heap.bounded := by
  unfold Buffer.selfCloneSelf
  split
  · exact hI
  · split
    · exact Exception.throwCallString_bounded h self _ hI
    · rename_i resultManager hrm
      split
      · exact Exception.throwCallString_bounded h self _ hI
      · have h0b : ∀ h0, (match self.m_core with
            | none => some h
            | some p => BufferCore.release h (some p)) = some h0 → h0.bounded := by
          intro h0 hh0
          split at hh0
          · simp only [Option.some.injEq] at hh0
            exact hh0 ▸ hI
          · exact BufferCore.release_bounded h _ hI h0 hh0
        simp only
        split
        · trivial
        · rename_i h0 hh0
          have hb0 := h0b h0 hh0
          split
          · trivial
          · rename_i o ho
            have hb1 := BufferCore.create_tryAllocate_bounded h0 resultManager o.m_size o hb0
            split
            · exact Exception.throwCallString_bounded _ _ _ hb1
            · exact Heap.bounded_withMem _ _ hb1

theorem Buffer.selfReverse_bounded (h : Heap) (self : Buffer) (start end_ : Nat)
    (hI : h.bounded) :
    (Buffer.selfReverse h self start end_).2.heapSatisfies Heap.bounded := by
  unfold Buffer.selfReverse
  split
  · exact hI
  · split
    · trivial
    · rename_i c hc
      split
      · exact hI
      · split
        · split
          · exact hI
          · have hb1 := BufferCore.create_tryAllocate_bounded h c.m_manager c.m_size
              ⟨1, 0, 0, 0, c.m_manager⟩ hI
            simp only
            split
            · exact hb1
            · split
              · trivial
              · rename_i c1 hc1
                have hs := BufferCore.change_bounded _ self.m_core
                  (some (BufferCore.create h c.m_manager 0 0 0).1)
                  (Heap.bounded_withMem _ (reverseCopyLoop
                    (BufferCore.tryAllocate (BufferCore.create h c.m_manager 0 0 0).2
                      ⟨1, 0, 0, 0, c.m_manager⟩ c.m_size).2.1.m_address c1.m_address c1.m_size 0
                      (c1.m_size - 1)
                      ((BufferCore.tryAllocate (BufferCore.create h c.m_manager 0 0 0).2
                        ⟨1, 0, 0, 0, c.m_manager⟩ c.m_size).2.2.setCore
                        (BufferCore.create h c.m_manager 0 0 0).1
                        (some (BufferCore.tryAllocate (BufferCore.create h c.m_manager 0 0 0).2
                          ⟨1, 0, 0, 0, c.m_manager⟩ c.m_size).2.1)).mem) hb1)
                split
                · rename_i q h2 heq
                  exact Outcome.heapSatisfies_of_ok hs heq
                · rename_i e h2 heq
                  exact Outcome.heapSatisfies_of_threw hs heq
                · trivial
        · exact Heap.bounded_withMem _ _ hI

theorem Buffer.selfErase_bounded (h : Heap) (self : Buffer) (start end_ : Nat)
    (hI : h.bounded) :
    (Buffer.selfErase h self start end_).2.heapSatisfies Heap.bounded := by
  unfold Buffer.selfErase
  split
  · exact hI
  · rename_i hrange
    split
    · exact hI
    · rename_i p hp
      split
      · trivial
      · rename_i c hc
        have hsize : self.size h = c.m_size := by
          simp only [Buffer.size, Heap.cell, hp, hc]
        obtain ⟨a1, a2, a3⟩ := hI p c hc
        split
        · exact hI
        · simp only
          split
          · split
            · exact hI
            · have hb1 := BufferCore.create_tryAllocate_bounded h c.m_manager
                (self.size h - end_ + start) ⟨1, 0, 0, 0, c.m_manager⟩ hI
              split
              · exact hb1
              · split
                · trivial
                · split
                  · rename_i q h2 heq
                    exact Outcome.heapSatisfies_of_ok
                      (BufferCore.change_bounded _ _ _ (Heap.bounded_withMem _ _ hb1)) heq
                  · rename_i e h2 heq
                    exact Outcome.heapSatisfies_of_threw
                      (BufferCore.change_bounded _ _ _ (Heap.bounded_withMem _ _ hb1)) heq
                  · trivial
          · rw [hsize] at hrange
            simp only [BufferCore.max_size, BufferCore.max_preall] at a2 a3
            refine Heap.bounded_setCore_some _ p _ (Heap.bounded_withMem _ _ hI) a1 ?_ ?_
            · simp only [BufferCore.max_size]
              omega
            · simp only [BufferCore.max_preall]
              omega

theorem Buffer.selfInsert_bounded (h : Heap) (self : Buffer) (index : Nat) (value : Buffer)
    (hI : h.bounded) :
    (Buffer.selfInsert h self index value).2.heapSatisfies Heap.bounded := by
  unfold Buffer.selfInsert
  split
  · exact Buffer.selfClone_bounded h self value none hI
  · rename_i p hp
    split
    · exact Exception.throwCallString_bounded h value _ hI
    · split
      · trivial
      · rename_i c hc
        obtain ⟨a1, a2, a3⟩ := hI p c hc
        split
        · exact Exception.throwCallString_bounded h value _ hI
        · split
          · exact Exception.throwCallString_bounded h value _ hI
          · split
            · exact hI
            · split
              · trivial
              · rename_i v hv
                split
                · simp only
                  split
                  · exact Exception.throwCallString_bounded h value _ hI
                  · have hb1 := BufferCore.create_tryAllocate_bounded h c.m_manager
                      ((c.m_size + v.m_size) % 4294967296) ⟨1, 0, 0, 0, c.m_manager⟩ hI
                    split
                    · exact Exception.throwCallString_bounded _ value _ hb1
                    · split
                      · split
                        · rename_i q h2 heq
                          exact Outcome.heapSatisfies_of_ok
                            (BufferCore.change_bounded _ _ _ (Heap.bounded_withMem _ _ hb1)) heq
                        · rename_i e h2 heq
                          exact Outcome.heapSatisfies_of_threw
                            (BufferCore.change_bounded _ _ _ (Heap.bounded_withMem _ _ hb1)) heq
                        · trivial
                      · trivial
                · rename_i hcheap
                  have hfit : v.m_size ≤ c.m_preall := by
                    by_contra hgt
                    exact hcheap (Or.inl (by omega))
                  simp only [BufferCore.max_size, BufferCore.max_preall] at a2 a3
                  simp only
                  split
                  · rename_i c1 v1 hc1 hv1
                    have ec1 : c1 = { c with m_size := (c.m_size + v.m_size) % 4294967296 } := by
                      simp only [Heap.setCore, if_true, Option.some.injEq] at hc1
                      exact hc1.symm
                    have hv1s : v1.m_size = v.m_size ∨
                        (v1.m_size = (c.m_size + v.m_size) % 4294967296 ∧ v.m_size = c.m_size) := by
                      unfold Heap.cell at hv hv1
                      cases hvc : value.m_core with
                      | none => simp only [hvc] at hv; exact absurd hv (by simp)
                      | some q =>
                        simp only [hvc] at hv hv1
                        by_cases hqp : q = p
                        · right
                          subst hqp
                          rw [hc, Option.some.injEq] at hv
                          simp only [Heap.setCore, if_true, Option.some.injEq] at hv1
                          subst hv1
                          subst hv
                          exact ⟨rfl, rfl⟩
                        · left
                          simp only [Heap.setCore, Heap.withMem, if_neg hqp] at hv1
                          rw [hv, Option.some.injEq] at hv1
                          rw [hv1]
                    rw [Heap.setCore_setCore]
                    refine Heap.bounded_setCore_some _ p _ (Heap.bounded_withMem _ _ hI) a1 ?_ ?_
                    · simp only [BufferCore.max_size, ec1]
                      rcases hv1s with e | ⟨e, e2⟩
                      · rw [e]; omega
                      · rw [e]; omega
                    · simp only [BufferCore.max_preall]
                      omega
                  · trivial

theorem Heap.bounded_cell (h : Heap) (b : Buffer) (hI : h.bounded) :
    b.size h + b.preallocated h = b.totalsize h ∧
    b.size h + b.preallocated h ≤ 4294967295 ∧ b.preallocated h ≤ 65535 := by
  unfold Buffer.size Buffer.preallocated Buffer.totalsize
  cases hc : h.cell b with
  | none => exact ⟨rfl, by decide, by decide⟩
  | some c =>
    have hc2 : ∃ p, h.cores p = some c := by
      unfold Heap.cell at hc
      split at hc
      · exact absurd hc (by simp)
      · exact ⟨_, hc⟩
    obtain ⟨p, hp⟩ := hc2
    obtain ⟨-, a2, a3⟩ := hI p c hp
    simp only [BufferCore.max_size, BufferCore.max_preall] at a2 a3
    simp only
    refine ⟨?_, a2, a3⟩
    omega

theorem BufferCore.tryDeallocateRaw_fields (h : Heap) (c : BufferCore) :
    (c.tryDeallocateRaw h).2.2.cores = h.cores ∧
    (c.tryDeallocateRaw h).2.2.nextCore = h.nextCore ∧
    (c.tryDeallocateRaw h).2.1.m_size = c.m_size ∧
    (c.tryDeallocateRaw h).2.1.m_preall = c.m_preall := by
  unfold BufferCore.tryDeallocateRaw
  split <;> exact ⟨rfl, rfl, rfl, rfl⟩

/-- A cell that exists before `create` and `tryAllocate` is untouched by them. -/
theorem BufferCore.create_tryAllocate_cell (h : Heap) (manager : BufferManager) (bytes : Nat)
    (c : BufferCore) (self : Buffer) (hI : h.bounded)
    (hself : ∀ p, self.m_core = some p → h.cores p ≠ none) :
    ((c.tryAllocate (BufferCore.create h manager 0 0 0).2 bytes).2.2.setCore
      (BufferCore.create h manager 0 0 0).1
      (some (c.tryAllocate (BufferCore.create h manager 0 0 0).2 bytes).2.1)).cell self
      = h.cell self ∧
    (BufferCore.create h manager 0 0 0).2.cell self = h.cell self := by
  unfold Heap.cell
  cases hs : self.m_core with
  | none => exact ⟨rfl, rfl⟩
  | some p =>
    have hne := hself p hs
    have hlt : p < h.nextCore := by
      cases hc : h.cores p with
      | none => exact absurd hc hne
      | some d => exact (hI p d hc).1
    have hpn : p ≠ h.nextCore := by omega
    obtain ⟨f1, -, -⟩ := BufferCore.tryAllocate_fields (BufferCore.create h manager 0 0 0).2 c bytes
    simp only [Heap.setCore, f1]
    simp only [BufferCore.create, if_neg hpn, and_self]

theorem Buffer.selfPreallocate_bounded (h : Heap) (self : Buffer) (extra : Nat)
    (imanager : Option BufferManager) (hI : h.bounded) :
    (Buffer.selfPreallocate h self extra imanager).2.heapSatisfies Heap.bounded := by
  obtain ⟨t1, t2, t3⟩ := Heap.bounded_cell h self hI
  have hk : ∃ k, (if (self.preallocated h + extra) % 18446744073709551616 > BufferCore.max_preall
      then BufferCore.max_preall - self.preallocated h else extra) = k ∧
      (self.preallocated h + k) % 18446744073709551616 ≤ 65535 := by
    refine ⟨_, rfl, ?_⟩
    split
    · simp only [BufferCore.max_preall]; omega
    · rename_i hle
      simp only [BufferCore.max_preall] at hle; omega
  obtain ⟨k, hk1, hk2⟩ := hk
  unfold Buffer.selfPreallocate
  simp only [hk1]
  split
  · exact hI
  · rename_i resultManager hrm
    split
    · exact hI
    · split
      · trivial
      · rename_i hshared
        have hself : ∀ p, self.m_core = some p → h.cores p ≠ none := by
          intro p hp hnone
          simp only [hp, hnone] at hshared
          exact absurd hshared (by simp)
        obtain ⟨e1, e2⟩ := BufferCore.create_tryAllocate_cell h resultManager
          ((self.totalsize (BufferCore.create h resultManager 0 0 0).2 + k) % 18446744073709551616)
          ⟨1, 0, 0, 0, resultManager⟩ self hI hself
        have hb1 := BufferCore.create_tryAllocate_bounded h resultManager
          ((self.totalsize (BufferCore.create h resultManager 0 0 0).2 + k) % 18446744073709551616)
          ⟨1, 0, 0, 0, resultManager⟩ hI
        split
        · exact hb1
        · rename_i hr
          have hr1 : (BufferCore.tryAllocate (BufferCore.create h resultManager 0 0 0).2
              ⟨1, 0, 0, 0, resultManager⟩
              ((self.totalsize (BufferCore.create h resultManager 0 0 0).2 + k)
                % 18446744073709551616)).1 = true := by
            simpa using hr
          obtain ⟨-, -, -, -, f5⟩ := BufferCore.tryAllocate_fields
            (BufferCore.create h resultManager 0 0 0).2 ⟨1, 0, 0, 0, resultManager⟩
            ((self.totalsize (BufferCore.create h resultManager 0 0 0).2 + k)
              % 18446744073709551616)
          have hbytes := f5 hr1
          have et : self.totalsize (BufferCore.create h resultManager 0 0 0).2 = self.totalsize h := by
            simp only [Buffer.totalsize, e2]
          have es : ∀ g : Heap, g.cell self = h.cell self → self.size g = self.size h ∧
              self.preallocated g = self.preallocated h := by
            intro g hg
            simp only [Buffer.size, Buffer.preallocated, hg, and_self]
          obtain ⟨es1, es2⟩ := es _ e1
          rw [et] at hbytes
          simp only [BufferCore.max_size] at hbytes
          have hb2 : ∀ x : BufferCore,
              x.m_size = self.size h % 4294967296 →
              x.m_preall = ((self.preallocated h + k) % 18446744073709551616) % 65536 →
              (((BufferCore.tryAllocate (BufferCore.create h resultManager 0 0 0).2
                ⟨1, 0, 0, 0, resultManager⟩
                ((self.totalsize (BufferCore.create h resultManager 0 0 0).2 + k)
                  % 18446744073709551616)).2.2.setCore
                (BufferCore.create h resultManager 0 0 0).1
                (some (BufferCore.tryAllocate (BufferCore.create h resultManager 0 0 0).2
                  ⟨1, 0, 0, 0, resultManager⟩
                  ((self.totalsize (BufferCore.create h resultManager 0 0 0).2 + k)
                    % 18446744073709551616)).2.1)).setCore
                (BufferCore.create h resultManager 0 0 0).1 (some x)).bounded := by
            intro x hx1 hx2
            refine Heap.bounded_setCore_some _ _ x hb1 ?_ ?_ ?_
            · obtain ⟨-, f2, -⟩ := BufferCore.tryAllocate_fields
                (BufferCore.create h resultManager 0 0 0).2 ⟨1, 0, 0, 0, resultManager⟩
                ((self.totalsize (BufferCore.create h resultManager 0 0 0).2 + k)
                  % 18446744073709551616)
              simp only [Heap.setCore, f2]
              simp only [BufferCore.create]
              omega
            · rw [hx1, hx2]
              simp only [BufferCore.max_size]
              omega
            · rw [hx2]
              simp only [BufferCore.max_preall]
              omega
          split
          · trivial
          · rename_i h3 hh3
            have hb3 : h3.bounded := by
              split at hh3
              · simp only [Option.some.injEq] at hh3
                subst hh3
                exact hb2 _ (by rw [es1]) (by rw [es2])
              · split at hh3
                · exact absurd hh3 (by simp)
                · simp only [Option.some.injEq] at hh3
                  subst hh3
                  exact Heap.bounded_withMem _ _ (hb2 _ (by rw [es1]) (by rw [es2]))
            split
            · rename_i q h4 heq
              exact Outcome.heapSatisfies_of_ok (BufferCore.change_bounded _ _ _ hb3) heq
            · rename_i e h4 heq
              exact Outcome.heapSatisfies_of_threw (BufferCore.change_bounded _ _ _ hb3) heq
            · trivial
      · split
        · trivial
        · rename_i p hp
          split
          · trivial
          · rename_i c hc
            obtain ⟨a1, a2, a3⟩ := hI p c hc
            have hsz : self.size h = c.m_size ∧ self.preallocated h = c.m_preall := by
              simp only [Buffer.size, Buffer.preallocated, Heap.cell, hp, hc, and_self]
            obtain ⟨r1, r2, r3⟩ := BufferCore.tryAllocateRaw_fields h c
              ((self.totalsize h + k) % 18446744073709551616)
            have hbr : (c.tryAllocateRaw h
                ((self.totalsize h + k) % 18446744073709551616)).2.bounded :=
              Heap.bounded_of_fields h _ r1 r2 hI
            split
            · exact hbr
            · rename_i hne
              have hbytes := r3 hne
              simp only [BufferCore.max_size] at hbytes
              obtain ⟨d1, d2, d3, d4⟩ := BufferCore.tryDeallocateRaw_fields
                ((c.tryAllocateRaw h ((self.totalsize h + k) % 18446744073709551616)).2.withMem
                  (BUFFER_COPY
                    (c.tryAllocateRaw h ((self.totalsize h + k) % 18446744073709551616)).2.mem
                    (c.tryAllocateRaw h ((self.totalsize h + k) % 18446744073709551616)).1
                    c.m_address c.m_size)) c
              have hbd := Heap.bounded_of_fields _ _ d1 d2 (Heap.bounded_withMem _
                (BUFFER_COPY
                    (c.tryAllocateRaw h ((self.totalsize h + k) % 18446744073709551616)).2.mem
                    (c.tryAllocateRaw h ((self.totalsize h + k) % 18446744073709551616)).1
                    c.m_address c.m_size) hbr)
              split
              · exact hbd
              · refine Heap.bounded_setCore_some _ p _ hbd ?_ ?_ ?_
                · rw [d2]
                  simp only [Heap.withMem, r2]
                  exact a1
                · simp only [d3, d4, BufferCore.max_size]
                  rw [← hsz.1, ← hsz.2]
                  omega
                · simp only [BufferCore.max_preall]
                  omega

theorem Call.run_bounded (c : Call) (h g : Heap) (hI : h.bounded) (hg : c.run h = some g) :
    g.bounded := by
  cases c with
  | sized manager size =>
    exact Outcome.heapSatisfies_heap? _ _ (Buffer.sized_bounded h manager size hI) g hg
  | fromExternal manager pointer size =>
    exact Outcome.heapSatisfies_heap? _ _ (Buffer.fromExternal_bounded h manager pointer size hI) g hg
  | HeapSized size =>
    exact Outcome.heapSatisfies_heap? _ _ (Buffer.sized_bounded h Buffer.heapManager size hI) g hg
  | HeapPreall size =>
    exact Outcome.heapSatisfies_heap? _ _ (Buffer.HeapPreall_bounded h size hI) g hg
  | HeapFrom ptr size =>
    exact Outcome.heapSatisfies_heap? _ _ (Buffer.HeapFrom_bounded h ptr size hI) g hg
  | Stack ptr size =>
    exact Outcome.heapSatisfies_heap? _ _
      (Buffer.fromExternal_bounded h Buffer.stackManager ptr size hI) g hg
  | Static ptr size =>
    exact Outcome.heapSatisfies_heap? _ _
      (Buffer.fromExternal_bounded h Buffer.staticManager ptr size hI) g hg
  | copy other =>
    exact Outcome.heapSatisfies_heap? _ _ (Buffer.copy_bounded h other hI) g hg
  | destroy self => exact Buffer.destroy_bounded h self hI g hg
  | assign self other =>
    exact Outcome.heapSatisfies_heap? _ _ (Buffer.assign_bounded h self other hI) g hg
  | clone self manager =>
    exact Outcome.heapSatisfies_heap? _ _ (Buffer.clone_bounded h self manager hI) g hg
  | range self start end_ imanager =>
    exact Outcome.heapSatisfies_heap? _ _ (Buffer.range_bounded h self start end_ imanager hI) g hg
  | reverse self start end_ imanager =>
    exact Outcome.heapSatisfies_heap? _ _ (Buffer.reverse_bounded h self start end_ imanager hI) g hg
  | insert self index value imanager =>
    exact Outcome.heapSatisfies_heap? _ _ (Buffer.insert_bounded h self index value imanager hI) g hg
  | erase self start end_ imanager =>
    exact Outcome.heapSatisfies_heap? _ _ (Buffer.erase_bounded h self start end_ imanager hI) g hg
  | selfClone self other imanager =>
    exact Outcome.heapSatisfies_heap? _ _ (Buffer.selfClone_bounded h self other imanager hI) g hg
  | selfCloneSelf self imanager =>
    exact Outcome.heapSatisfies_heap? _ _ (Buffer.selfCloneSelf_bounded h self imanager hI) g hg
  | selfInsert self index value =>
    exact Outcome.heapSatisfies_heap? _ _ (Buffer.selfInsert_bounded h self index value hI) g hg
  | selfErase self start end_ =>
    exact Outcome.heapSatisfies_heap? _ _ (Buffer.selfErase_bounded h self start end_ hI) g hg
  | selfReverse self start end_ =>
    exact Outcome.heapSatisfies_heap? _ _ (Buffer.selfReverse_bounded h self start end_ hI) g hg
  | selfPreallocate self extra imanager =>
    exact Outcome.heapSatisfies_heap? _ _
      (Buffer.selfPreallocate_bounded h self extra imanager hI) g hg
  | iteratorCreate data index =>
    exact Outcome.heapSatisfies_heap? _ _ (Iterator.create_keeps_bounded h data index hI) g hg
  | iteratorDestroy it => exact Iterator.destroy_keeps_bounded h it hI g hg
  | iteratorAssign a other =>
    exact Outcome.heapSatisfies_heap? _ _ (Iterator.assign_keeps_bounded h a other hI) g hg
  | store address v =>
    simp only [Call.run, Option.some.injEq] at hg
    exact hg ▸ Heap.bounded_write h address v hI

theorem Heap.runAll_bounded : ∀ (calls : List Call) (h g : Heap), h.bounded →
    Heap.runAll h calls = some g → g.bounded := by
  intro calls
  induction calls with
  | nil =>
    intro h g hI hg
    simp only [Heap.runAll, Option.some.injEq] at hg
    exact hg ▸ hI
  | cons c rest ih =>
    intro h g hI hg
    rw [Heap.runAll] at hg
    split at hg
    · exact absurd hg (by simp)
    · rename_i h1 hc
      exact ih h1 g (Call.run_bounded c h h1 hI hc) hg

theorem Heap.bounded_of_no_cell (h : Heap) (hinit : ∀ p, h.cores p = none) : h.bounded := by
  intro p c hp
  rw [hinit p] at hp
  exact absurd hp (by simp)

/-- C31. In every heap `h` that a client program reaches from a heap without cells by
calls of the public constructors, destructors, operators and methods of `Buffer` and
its iterators (and stores into memory), every handle `b` satisfies
`size() + preallocated() == totalsize()` with the sum at most `2^32 - 1` (so the
32-bit addition in `totalsize()` does not wrap), `size() <= 2^32 - 1` and
`preallocated() <= 65535`; for the empty buffer all three are 0. -/
theorem Buffer.totalsize_reachable (h0 : Heap) (calls : List Call) (h : Heap)
    (hinit : ∀ p, h0.cores p = none) (hrun : Heap.runAll h0 calls = some h) (b : Buffer) :
    b.size h + b.preallocated h = b.totalsize h ∧
    b.size h + b.preallocated h ≤ 4294967295 ∧
    b.size h ≤ 4294967295 ∧ b.preallocated h ≤ 65535 ∧
    Buffer.empty.size h = 0 ∧ Buffer.empty.preallocated h = 0 ∧
    Buffer.empty.totalsize h = 0 := by
  have hI : h.bounded :=
    Heap.runAll_bounded calls h0 h (Heap.bounded_of_no_cell h0 hinit) hrun
  obtain ⟨t1, t2, t3⟩ := Heap.bounded_cell h b hI
  exact ⟨t1, t2, by omega, t3, rfl, rfl, rfl⟩

/-- Witness for C31: the program `X = HeapPreall(8); Y = Stack(p, 3); X.selfInsert(0, Y);
X.selfInsert(0, X); Z = X; X.selfErase(1, 2)` run from the heap without cells reaches
a heap in which `Z` (cell 0) has size 6, headroom 65535 and total 65541, and `X`
(moved to cell 2) has size 5, headroom 0 and total 5. -/
theorem Buffer.totalsize_reachable_witness :
    (∀ p, Example.emptyHeap.cores p = none) ∧
    ∃ h, Heap.runAll Example.emptyHeap
        [.HeapPreall 8, .Stack 100 3, .selfInsert ⟨some 0⟩ 0 ⟨some 1⟩,
          .selfInsert ⟨some 0⟩ 0 ⟨some 0⟩, .copy ⟨some 0⟩, .selfErase ⟨some 0⟩ 1 2] = some h ∧
      (Buffer.size h ⟨some 0⟩, Buffer.preallocated h ⟨some 0⟩, Buffer.totalsize h ⟨some 0⟩)
        = (6, 65535, 65541) ∧
      (Buffer.size h ⟨some 2⟩, Buffer.preallocated h ⟨some 2⟩, Buffer.totalsize h ⟨some 2⟩)
        = (5, 0, 5) ∧
      Buffer.size h ⟨some 0⟩ + Buffer.preallocated h ⟨some 0⟩ = Buffer.totalsize h ⟨some 0⟩ ∧
      Buffer.size h ⟨some 2⟩ + Buffer.preallocated h ⟨some 2⟩ = Buffer.totalsize h ⟨some 2⟩ := by
  have hv : (Heap.runAll Example.emptyHeap
        [.HeapPreall 8, .Stack 100 3, .selfInsert ⟨some 0⟩ 0 ⟨some 1⟩,
          .selfInsert ⟨some 0⟩ 0 ⟨some 0⟩, .copy ⟨some 0⟩, .selfErase ⟨some 0⟩ 1 2]).map
      (fun h => ((Buffer.size h ⟨some 0⟩, Buffer.preallocated h ⟨some 0⟩,
          Buffer.totalsize h ⟨some 0⟩),
        (Buffer.size h ⟨some 2⟩, Buffer.preallocated h ⟨some 2⟩, Buffer.totalsize h ⟨some 2⟩)))
      = some ((6, 65535, 65541), (5, 0, 5)) := by decide
  refine ⟨fun _ => rfl, ?_⟩
  cases hr : Heap.runAll Example.emptyHeap
        [.HeapPreall 8, .Stack 100 3, .selfInsert ⟨some 0⟩ 0 ⟨some 1⟩,
          .selfInsert ⟨some 0⟩ 0 ⟨some 0⟩, .copy ⟨some 0⟩, .selfErase ⟨some 0⟩ 1 2] with
  | none =>
    rw [hr] at hv
    exact absurd hv (by simp)
  | some h =>
    rw [hr] at hv
    simp only [Option.map_some', Option.some.injEq, Prod.mk.injEq] at hv
    have ht0 := Buffer.totalsize_reachable Example.emptyHeap _ h (fun _ => rfl) hr ⟨some 0⟩
    have ht2 := Buffer.totalsize_reachable Example.emptyHeap _ h (fun _ => rfl) hr ⟨some 2⟩
    refine ⟨h, rfl, ?_, ?_, ht0.1, ht2.1⟩
    · simp only [hv.1.1, hv.1.2.1, hv.1.2.2]
    · simp only [hv.2.1, hv.2.2.1, hv.2.2.2]

end cppx
